import Mathlib

/-!
Shallow embedding of the heka retained-mode layout engine
(`crates/heka/src/lib.rs`, `sizing.rs`, `position.rs`, `boxalloc.rs`).

Conventions of the embedding:
* Rust `u32` / `usize` values are modelled as `Nat`; the only place where
  wrap-around is semantically important is the slot generation counter,
  which the source bumps with `wrapping_add(1)`; we keep it reduced
  modulo `2^32`.
* Rust `i32` coordinates are modelled as `Int`.
* Rust `f32` flex arithmetic is modelled by exact rationals `ℚ`; the
  `as u32` cast (truncate toward zero, saturating) is `f2u`.
* `Vec<Option<T>>` becomes `List (Option T)`, `VecDeque` a `List` used
  FIFO (pop at the head, push at the tail), and the `HashSet` of dirty
  refs a duplicate-free `List` (only membership and emptiness are ever
  consulted).
* Functions that can panic in Rust (`unwrap`, `expect`) or that recurse
  through the heap return `Option`; `none` models a panic or exhausted
  recursion fuel.
-/

namespace Heka

/-- RGBA color (`color.rs`); layout-inert, carried for fidelity. -/
structure Color where
  r : Nat
  g : Nat
  b : Nat
  a : Nat
deriving DecidableEq, Repr

/-- `Color::default()` is `Color::Hex(0xFFFFFFFF)`, i.e. opaque white. -/
def Color.default : Color := ⟨255, 255, 255, 255⟩

/-- Sizing mode for one axis (`sizing.rs`).  The heka crate's `sizing.rs`
also carries an `Auto` variant (referenced by `lib.rs` and `macros.rs`);
its clauses below are modelled from the spec: `Auto` resolves like `Fit`
(deferred to the Pass-1 desired size). -/
inductive SizeSpec where
  | Fill : SizeSpec
  | Fit : SizeSpec
  | Pixel : Nat → SizeSpec
  | Percent : ℚ → SizeSpec
  | Auto : SizeSpec
deriving DecidableEq, Repr

instance : Inhabited SizeSpec := ⟨SizeSpec.Pixel 0⟩

/-- Rust `f32 as u32`: truncation toward zero, saturating at the ends. -/
def f2u (q : ℚ) : Nat :=
  if q ≤ 0 then 0 else min q.floor.toNat (2 ^ 32 - 1)

/-- `SizeSpec::resolve_size` (`sizing.rs` lines 41-49): `Pixel`,
`Percent` and `Fill` resolve against the parent-supplied extent, `Fit`
(and, modelled from the spec, `Auto`) yield `none`. -/
def SizeSpec.resolve_size : SizeSpec → Nat → Option Nat
  | .Pixel px, _ => some px
  | .Percent pct, parent_value => some (f2u (pct * (parent_value : ℚ)))
  | .Fill, parent_value => some parent_value
  | .Fit, _ => none
  | .Auto, _ => none

def SizeSpec.is_fill : SizeSpec → Bool
  | .Fill => true
  | _ => false

def SizeSpec.is_percent : SizeSpec → Bool
  | .Percent _ => true
  | _ => false

/-- Modelled from the spec: `is_auto` (missing heka `sizing.rs`) holds
exactly for the `Auto` variant. -/
def SizeSpec.is_auto : SizeSpec → Bool
  | .Auto => true
  | _ => false

structure Padding where
  left : Nat
  right : Nat
  top : Nat
  bottom : Nat
deriving DecidableEq, Repr

def Padding.default : Padding := ⟨0, 0, 0, 0⟩

/-- Margin (heka `sizing.rs`, fields per the spec: left/right/top/bottom). -/
structure Margin where
  left : Nat
  right : Nat
  top : Nat
  bottom : Nat
deriving DecidableEq, Repr

def Margin.default : Margin := ⟨0, 0, 0, 0⟩

/-- Border (heka `sizing.rs`, fields per the spec: size, radius, color). -/
structure Border where
  size : Nat
  radius : Nat
  color : Color
deriving DecidableEq, Repr

def Border.default : Border := ⟨0, 0, Color.default⟩

/-- `position.rs` -/
inductive Position where
  | Fixed : Nat → Nat → Position
  | Auto : Position
deriving DecidableEq, Repr

inductive Direction where
  | Row : Direction
  | Column : Direction
deriving DecidableEq, Repr

inductive LayoutStrategy where
  | NoStrategy : LayoutStrategy
  | Flex : LayoutStrategy
  | Grid : LayoutStrategy
deriving DecidableEq, Repr

/-- Computed geometry of a node (`Space` in `lib.rs`). -/
structure Space where
  x : Int
  y : Int
  width : Option Nat
  height : Option Nat
deriving DecidableEq, Repr

def Space.zero : Space := ⟨0, 0, none, none⟩

def Space.with_width (s : Space) (width : Nat) : Space :=
  { s with width := some width }

def Space.with_height (s : Space) (height : Nat) : Space :=
  { s with height := some height }

/-- Declared box model of a node (`Style` in `lib.rs`). -/
structure Style where
  background_color : Color
  width : SizeSpec
  height : SizeSpec
  padding : Padding
  margin : Margin
  border : Border
  flex_grow : ℚ
  flex_shrink : ℚ
  layout : LayoutStrategy
  flow : Direction
  gap : Nat
  position : Position
  intrinsic_width : Option Nat
  intrinsic_height : Option Nat
  z_index : Nat
deriving DecidableEq, Repr

/-- `Style::default()`: flex layout, row flow, no grow, unit shrink. -/
def Style.default : Style where
  background_color := Color.default
  width := SizeSpec.Pixel 0
  height := SizeSpec.Pixel 0
  padding := Padding.default
  margin := Margin.default
  border := Border.default
  flex_grow := 0
  flex_shrink := 1
  layout := LayoutStrategy.Flex
  flow := Direction.Row
  gap := 0
  position := Position.Auto
  intrinsic_width := none
  intrinsic_height := none
  z_index := 0

/-- Stable generational node handle. -/
structure CapsuleRef where
  id : Nat
  generation : Nat
deriving DecidableEq, Repr

/-- One node record (`Capsule`). -/
structure Capsule where
  space_ref : Nat
  parent_ref : Option CapsuleRef
  style_ref : Nat
  data_ref : Option Nat
  children : List CapsuleRef
deriving DecidableEq, Repr

structure CapsuleSlot where
  capsule : Option Capsule
  generation : Nat
deriving DecidableEq, Repr

structure Frame where
  capsule_ref : CapsuleRef
deriving DecidableEq, Repr

def Frame.get_ref (f : Frame) : CapsuleRef := f.capsule_ref

/-- Type-erased data arena (`boxalloc.rs`); the payloads themselves are
layout-inert, so a slot is modelled by its occupancy. -/
structure Allocator where
  slots : List (Option Unit)
  free_list : List Nat
deriving DecidableEq, Repr

def Allocator.new : Allocator := ⟨[], []⟩

def Allocator.alloc (a : Allocator) : Allocator × Nat :=
  match a.free_list with
  | recycled_id :: rest =>
    (⟨a.slots.set recycled_id (some ()), rest⟩, recycled_id)
  | [] =>
    let new_id := a.slots.length
    (⟨a.slots ++ [some ()], a.free_list⟩, new_id)

def Allocator.dealloc (a : Allocator) (id : Nat) : Allocator × Bool :=
  match a.slots[id]? with
  | some (some _) => (⟨a.slots.set id none, a.free_list ++ [id]⟩, true)
  | some none => (a, false)
  | none => (a, false)

/-- The scene graph (`Root`). -/
structure Root where
  capsules : List CapsuleSlot
  capsule_free_list : List Nat
  spaces : List (Option Space)
  styles : List (Option Style)
  dirties : List CapsuleRef
  allocator : Allocator
deriving DecidableEq, Repr

/-- `Root::new(width, height)`: only the reserved root space, slot 0. -/
def Root.new (width height : Nat) : Root where
  capsules := []
  capsule_free_list := []
  spaces := [some ((Space.zero.with_width width).with_height height)]
  styles := []
  dirties := []
  allocator := Allocator.new

def Root.is_dirty (root : Root) : Bool := !root.dirties.isEmpty

/-- Generation-checked lookup in a capsule store. -/
def capAt (capsules : List CapsuleSlot) (frame_ref : CapsuleRef) : Option Capsule :=
  match capsules[frame_ref.id]? with
  | some slot =>
    if slot.generation = frame_ref.generation then slot.capsule else none
  | none => none

/-- `Root::get_capsule`: generation-checked lookup. -/
def Root.get_capsule (root : Root) (frame_ref : CapsuleRef) : Option Capsule :=
  capAt root.capsules frame_ref

/-- The effect of a mutation through `get_capsule_mut`: a no-op when the
handle is stale. -/
def Root.modifyCapsule (root : Root) (frame_ref : CapsuleRef)
    (f : Capsule → Capsule) : Root :=
  match root.capsules[frame_ref.id]? with
  | some slot =>
    if slot.generation = frame_ref.generation then
      match slot.capsule with
      | some c =>
        { root with
          capsules := root.capsules.set frame_ref.id ⟨some (f c), slot.generation⟩ }
      | none => root
    else root
  | none => root

def Root.get_style (root : Root) (frame_ref : CapsuleRef) : Option Style :=
  match root.get_capsule frame_ref with
  | some cap =>
    match root.styles[cap.style_ref]? with
    | some (some style) => some style
    | _ => none
  | none => none

def Root.get_space (root : Root) (frame_ref : CapsuleRef) : Option Space :=
  match root.get_capsule frame_ref with
  | some cap =>
    match root.spaces[cap.space_ref]? with
    | some (some space) => some space
    | _ => none
  | none => none

/-- `HashSet::insert`: returns the set and whether the ref was new. -/
def dirtyInsert (l : List CapsuleRef) (r : CapsuleRef) :
    List CapsuleRef × Bool :=
  if r ∈ l then (l, false) else (r :: l, true)

/-- The ancestor walk inside `Root::set_dirty`, with explicit fuel (the
walk performs at most one successful insertion per capsule, so
`capsules.length + 1` steps always suffice). -/
def set_dirty_walk : Nat → Root → Option Capsule → Root
  | 0, root, _ => root
  | _ + 1, root, none => root
  | fuel + 1, root, some capsule =>
    match capsule.parent_ref with
    | none => root
    | some parent_ref =>
      let (d, inserted) := dirtyInsert root.dirties parent_ref
      if inserted then
        let root' := { root with dirties := d }
        set_dirty_walk fuel root' (root'.get_capsule parent_ref)
      else root

/-- `Root::set_dirty`: insert the ref, then propagate up the parent
chain until an already-dirty ancestor or the top is reached. -/
def Root.set_dirty (root : Root) (capsule_ref : CapsuleRef) : Root :=
  let (d, inserted) := dirtyInsert root.dirties capsule_ref
  if inserted then
    let root' := { root with dirties := d }
    set_dirty_walk (root'.capsules.length + 1) root' (root'.get_capsule capsule_ref)
  else root

/-- `Root::unbind_data`. -/
def Root.unbind_data (root : Root) (frame_ref : CapsuleRef) : Root × Bool :=
  match root.get_capsule frame_ref with
  | none => (root, false)
  | some capsule =>
    match capsule.data_ref with
    | none => (root, false)
    | some data_ref =>
      let root := root.modifyCapsule frame_ref (fun c => { c with data_ref := none })
      let (alloc, ok) := root.allocator.dealloc data_ref
      ({ root with allocator := alloc }, ok)

def Root.set_binding (root : Root) : Root × Nat :=
  let (alloc, idx) := root.allocator.alloc
  ({ root with allocator := alloc }, idx)

/-- `Root::set_parent`: detach from the old parent's list, attach under
the new parent, mark both dirty. -/
def Root.set_parent (root : Root) (child_frame new_parent_frame : Frame) : Root :=
  let child_ref := child_frame.get_ref
  let old_parent_ref := (root.get_capsule child_ref).bind (fun c => c.parent_ref)
  let root :=
    match old_parent_ref with
    | some opr =>
      let root := root.modifyCapsule opr
        (fun c => { c with children := c.children.filter (fun x => x ≠ child_ref) })
      root.set_dirty opr
    | none => root
  let new_parent_ref := new_parent_frame.get_ref
  let root := root.modifyCapsule new_parent_ref
    (fun c => { c with children := c.children ++ [child_ref] })
  let root := root.modifyCapsule child_ref
    (fun c => { c with parent_ref := some new_parent_ref })
  root.set_dirty new_parent_ref

/-- `Root::internal_add_frame`: allocate a fresh space and style slot,
fill a recycled capsule slot (its generation was already bumped at
removal) or grow the store, then push the new ref onto the parent's
children when the parent is live. -/
def Root.internal_add_frame (root : Root) (parent_ref : Option CapsuleRef)
    (data : Option Nat) : Root × Frame :=
  let new_space_id := root.spaces.length
  let root := { root with spaces := root.spaces ++ [some Space.zero] }
  let new_style_idx := root.styles.length
  let root := { root with styles := root.styles ++ [some Style.default] }
  let caps : Capsule :=
    { space_ref := new_space_id
      parent_ref := parent_ref
      style_ref := new_style_idx
      data_ref := data
      children := [] }
  let step : Root × Nat × Nat :=
    match root.capsule_free_list with
    | recycled_id :: rest =>
      let gen := ((root.capsules[recycled_id]?).map CapsuleSlot.generation).getD 0
      ({ root with
          capsules := root.capsules.set recycled_id ⟨some caps, gen⟩
          capsule_free_list := rest }, recycled_id, gen)
    | [] =>
      let new_id := root.capsules.length
      ({ root with capsules := root.capsules ++ [⟨some caps, 0⟩] }, new_id, 0)
  let root := step.1
  let new_id := step.2.1
  let new_generation := step.2.2
  let new_ref : CapsuleRef := ⟨new_id, new_generation⟩
  let root :=
    match parent_ref with
    | some pref =>
      root.modifyCapsule pref (fun c => { c with children := c.children ++ [new_ref] })
    | none => root
  (root, ⟨new_ref⟩)

def Root.add_frame_child (root : Root) (to_frame : Frame) (data : Option Nat) :
    Root × Frame :=
  root.internal_add_frame (some to_frame.capsule_ref) data

def Root.add_frame (root : Root) (data : Option Nat) : Root × Frame :=
  root.internal_add_frame none data

/-- `Frame::update_style`: silently a no-op on a stale handle or missing
style; otherwise apply the mutator and mark the node dirty. -/
def Root.update_style (root : Root) (frame : Frame) (applier : Style → Style) :
    Root :=
  match root.get_capsule frame.capsule_ref with
  | none => root
  | some cap =>
    match root.styles[cap.style_ref]? with
    | some (some style) =>
      let root := { root with styles := root.styles.set cap.style_ref (some (applier style)) }
      root.set_dirty frame.capsule_ref
    | _ => root

/-- Top-level capsules: live slots with no parent, by storage order. -/
def Root.top_level_refs (root : Root) : List CapsuleRef :=
  (root.capsules.enum.filterMap fun (i, slot) =>
    match slot.capsule with
    | some capsule_data =>
      if capsule_data.parent_ref = none then
        some (⟨i, slot.generation⟩ : CapsuleRef)
      else none
    | none => none)

/-- `Root::resize`: update the reserved root space (slot 0; `none` if it
is absent, where the source `expect`s) and dirty every top-level node. -/
def Root.resize (root : Root) (new_width new_height : Nat) : Option Root :=
  match root.spaces with
  | some root_space :: rest =>
    let root := { root with
      spaces := some { root_space with width := some new_width, height := some new_height } :: rest }
    some ((root.top_level_refs).foldl (fun r ref => r.set_dirty ref) root)
  | _ => none

/-- One fuelled step list: run `f` on each element left to right,
short-circuiting on `none` (the shape of the `for` loops in the source). -/
def forChildren (f : CapsuleRef → σ → Option σ) : List CapsuleRef → σ → Option σ
  | [], s => some s
  | c :: cs, s =>
    match f c s with
    | none => none
    | some s' => forChildren f cs s'

/-- `Root::remove_frame`: recursively remove the subtree, release bound
data, detach from the parent, clear space/style, bump the slot
generation (mod `2^32`) and recycle the slot id.  `none` models fuel
exhaustion (unbounded recursion through a corrupted heap). -/
def Root.remove_frame : Nat → Root → CapsuleRef → Option Root
  | 0, _, _ => none
  | fuel + 1, root, frame_ref =>
    match root.get_capsule frame_ref with
    | none => some root
    | some capsule =>
      let root := (root.unbind_data frame_ref).1
      match forChildren (fun c r => Root.remove_frame fuel r c) capsule.children root with
      | none => none
      | some root =>
        let root :=
          match capsule.parent_ref with
          | some parent_ref =>
            match root.get_capsule parent_ref with
            | some _ =>
              let root := root.modifyCapsule parent_ref
                (fun c => { c with children := c.children.filter (fun x => x ≠ frame_ref) })
              root.set_dirty parent_ref
            | none => root
          | none => root
        let root := { root with
          spaces := root.spaces.set capsule.space_ref none
          styles := root.styles.set capsule.style_ref none
          dirties := root.dirties.erase frame_ref }
        let root :=
          match root.capsules[frame_ref.id]? with
          | some slot =>
            { root with
              capsules := root.capsules.set frame_ref.id
                ⟨none, (slot.generation + 1) % 2 ^ 32⟩
              capsule_free_list := root.capsule_free_list ++ [frame_ref.id] }
          | none => root
        some root

def Root.setSpace (root : Root) (i : Nat) (s : Option Space) : Root :=
  { root with spaces := root.spaces.set i s }

/-- Joint lookup of a live capsule and its style, as chained at the head
of both passes; `none` means the pass skips the node. -/
def Root.capStyle (root : Root) (frame_ref : CapsuleRef) :
    Option (Capsule × Style) :=
  match root.get_capsule frame_ref with
  | some cap =>
    match root.styles[cap.style_ref]? with
    | some (some style) => some (cap, style)
    | _ => none
  | none => none

/-- Joint lookup of a live capsule, its style and its space. -/
def Root.capStyleSpace (root : Root) (frame_ref : CapsuleRef) :
    Option (Capsule × Style × Space) :=
  match root.capStyle frame_ref with
  | some (cap, style) =>
    match root.spaces[cap.space_ref]? with
    | some (some space) => some (cap, style, space)
    | _ => none
  | none => none

/-- The body of the Pass-1 child loop: skip dead children, recurse, and
record the measured size of in-flow children.  `p1` is the recursive
call at one less fuel. -/
def measure_child (p1 : Root → CapsuleRef → Option (Root × Nat × Nat))
    (child_ref : CapsuleRef) (st : Root × List (Nat × Nat × Margin)) :
    Option (Root × List (Nat × Nat × Margin)) :=
  match st.1.capStyle child_ref with
  | none => some st
  | some (_, child_style) =>
    match p1 st.1 child_ref with
    | none => none
    | some (r', child_w, child_h) =>
      if child_style.position = Position.Auto then
        some (r', st.2 ++ [(child_w, child_h, child_style.margin)])
      else some (r', st.2)

/-- PASS 1 (bottom-up measure), `Root::compute_pass_1_measure`.  Returns
the updated root and the node's desired size; `none` is exhausted fuel. -/
def Root.compute_pass_1_measure : Nat → Root → CapsuleRef → Option (Root × Nat × Nat)
  | 0, _, _ => none
  | fuel + 1, root, frame_ref =>
    match root.capStyle frame_ref with
    | none => some (root, 0, 0)
    | some (capsule, style) =>
      match forChildren (measure_child (Root.compute_pass_1_measure fuel))
          capsule.children (root, ([] : List (Nat × Nat × Margin))) with
      | none => none
      | some (root, in_flow_child_sizes) =>
        let content : Nat × Nat :=
          if capsule.children.isEmpty then
            (style.intrinsic_width.getD 0, style.intrinsic_height.getD 0)
          else
            match style.layout with
            | .Flex =>
              match style.flow with
              | .Row =>
                let cw := (in_flow_child_sizes.map (fun s => s.1 + s.2.2.left + s.2.2.right)).sum
                let cw := if in_flow_child_sizes.isEmpty then cw
                  else cw + style.gap * (in_flow_child_sizes.length - 1)
                let ch := (in_flow_child_sizes.map (fun s => s.2.1 + s.2.2.top + s.2.2.bottom)).foldr max 0
                (cw, ch)
              | .Column =>
                let cw := (in_flow_child_sizes.map (fun s => s.1 + s.2.2.left + s.2.2.right)).foldr max 0
                let ch := (in_flow_child_sizes.map (fun s => s.2.1 + s.2.2.top + s.2.2.bottom)).sum
                let ch := if in_flow_child_sizes.isEmpty then ch
                  else ch + style.gap * (in_flow_child_sizes.length - 1)
                (cw, ch)
            | _ =>
              ((in_flow_child_sizes.map (fun s => s.1 + s.2.2.left + s.2.2.right)).foldr max 0,
               (in_flow_child_sizes.map (fun s => s.2.1 + s.2.2.top + s.2.2.bottom)).foldr max 0)
        let desired_w :=
          match style.width with
          | .Pixel w => w
          | .Fit | .Auto => content.1 + style.padding.left + style.padding.right + style.border.size * 2
          | .Fill | .Percent _ => 0
        let desired_h :=
          match style.height with
          | .Pixel h => h
          | .Fit | .Auto => content.2 + style.padding.top + style.padding.bottom + style.border.size * 2
          | .Fill | .Percent _ => 0
        let root :=
          match root.spaces[capsule.space_ref]? with
          | some (some space) =>
            root.setSpace capsule.space_ref
              (some { space with width := some desired_w, height := some desired_h })
          | _ => root
        some (root, desired_w, desired_h)

/-- Accumulator of the flex pre-pass over in-flow children (step 5 of
`compute_pass_2_layout`). -/
structure PrePass where
  in_flow_children : List CapsuleRef
  total_base_w : ℚ
  total_base_h : ℚ
  total_grow_factor_w : ℚ
  total_grow_factor_h : ℚ
  total_weighted_shrink_w : ℚ
  total_weighted_shrink_h : ℚ
deriving DecidableEq, Repr

attribute [ext] PrePass

def PrePass.init : PrePass := ⟨[], 0, 0, 0, 0, 0, 0⟩

/-- One child's contribution to the flex pre-pass (`none` models the
`unwrap` panic on a child space still lacking a Pass-1 size). -/
def prepass_step (root : Root) (style : Style) (acc : PrePass)
    (child_ref : CapsuleRef) : Option PrePass :=
  match root.capStyleSpace child_ref with
  | none => some acc
  | some (_, child_style, child_space) =>
    if child_style.position = Position.Auto then
      match child_space.width, child_space.height with
      | some bw, some bh =>
        let base_w : ℚ := (bw : ℚ)
        let base_h : ℚ := (bh : ℚ)
        let acc := { acc with in_flow_children := acc.in_flow_children ++ [child_ref] }
        if style.flow = Direction.Row then
          some { acc with
            total_base_w :=
              if !child_style.width.is_fill && !child_style.width.is_percent then
                acc.total_base_w + base_w
              else acc.total_base_w
            total_grow_factor_w := acc.total_grow_factor_w + child_style.flex_grow
            total_weighted_shrink_w :=
              acc.total_weighted_shrink_w + child_style.flex_shrink * base_w }
        else
          some { acc with
            total_base_h :=
              if !child_style.height.is_fill && !child_style.height.is_percent then
                acc.total_base_h + base_h
              else acc.total_base_h
            total_grow_factor_h := acc.total_grow_factor_h + child_style.flex_grow
            total_weighted_shrink_h :=
              acc.total_weighted_shrink_h + child_style.flex_shrink * base_h }
      | _, _ => none
    else some acc

def flexPrepass (root : Root) (style : Style) :
    List CapsuleRef → PrePass → Option PrePass
  | [], acc => some acc
  | c :: cs, acc =>
    match prepass_step root style acc c with
    | none => none
    | some acc' => flexPrepass root style cs acc'

/-- The per-axis flex shares of one in-flow child (grow / shrink /
exact-fit of step 5 resolved to the child's given main-axis size). -/
def flex_final (base remaining grow_per_factor shrink_unit flex_grow flex_shrink : ℚ) : ℚ :=
  if 0 < remaining then base + flex_grow * grow_per_factor
  else if remaining < 0 then base - flex_shrink * base * shrink_unit
  else base

/-- The cross-axis `Auto` override applied to a freshly arranged flex
child: row children with `Auto` height take the full content height,
column children with `Auto` width the full content width. -/
def cross_override (style child_style : Style) (content_w content_h : Nat)
    (sp : Space) : Space :=
  let sp :=
    if style.layout = LayoutStrategy.Flex &&
       style.flow = Direction.Row && child_style.height.is_auto then
      { sp with height := some content_h }
    else sp
  if style.layout = LayoutStrategy.Flex &&
     style.flow = Direction.Column && child_style.width.is_auto then
    { sp with width := some content_w }
  else sp

/-- The body of the Pass-2 child loop (step 7 of
`compute_pass_2_layout`): position one child, recurse into it, apply
the cross-axis `Auto` override, and advance the flow cursor.  `p2` is
the recursive call at one less fuel; the state is
`(root, current_x, current_y)`. -/
def arrange_child (p2 : Root → CapsuleRef → Int → Int → Nat → Nat → Option Root)
    (style : Style) (content_x content_y : Int) (content_w content_h : Nat)
    (remaining_w remaining_h grow_per_factor_w grow_per_factor_h
      shrink_unit_w shrink_unit_h : ℚ)
    (child_ref : CapsuleRef) (st : Root × Int × Int) : Option (Root × Int × Int) :=
  let root := st.1
  let current_x := st.2.1
  let current_y := st.2.2
  match root.capStyleSpace child_ref with
  | none => some st
  | some (child_capsule, child_style, child_space) =>
    match child_space.width, child_space.height with
    | some child_desired_w, some child_desired_h =>
      match child_style.position with
      | Position.Fixed _ _ =>
        match p2 root child_ref content_x content_y content_w content_h with
        | none => none
        | some r' => some (r', current_x, current_y)
      | Position.Auto =>
        let m_left : Int := child_style.margin.left
        let m_right : Int := child_style.margin.right
        let m_top : Int := child_style.margin.top
        let m_bottom : Int := child_style.margin.bottom
        let given4 : Int × Int × Nat × Nat :=
          match style.layout with
          | LayoutStrategy.Flex =>
            match style.flow with
            | Direction.Row =>
              let final_child_w : ℚ :=
                flex_final (child_desired_w : ℚ) remaining_w grow_per_factor_w
                  shrink_unit_w child_style.flex_grow child_style.flex_shrink
              let cgw : Nat :=
                match child_style.width with
                | SizeSpec.Percent _ => content_w
                | _ => f2u final_child_w
              (current_x + m_left, current_y + m_top, cgw,
               content_h - (m_top + m_bottom).toNat)
            | Direction.Column =>
              let final_child_h : ℚ :=
                flex_final (child_desired_h : ℚ) remaining_h grow_per_factor_h
                  shrink_unit_h child_style.flex_grow child_style.flex_shrink
              let cgh : Nat :=
                match child_style.height with
                | SizeSpec.Percent _ => content_h
                | _ => f2u final_child_h
              (current_x + m_left, current_y + m_top,
               content_w - (m_left + m_right).toNat, cgh)
          | _ =>
            (current_x, current_y, content_w, child_desired_h)
        match p2 root child_ref given4.1 given4.2.1 given4.2.2.1 given4.2.2.2 with
        | none => none
        | some r' =>
          match r'.spaces[child_capsule.space_ref]? with
          | some (some sp0) =>
            let sp := cross_override style child_style content_w content_h sp0
            let r' := r'.setSpace child_capsule.space_ref (some sp)
            match style.layout with
            | LayoutStrategy.Flex =>
              match sp.width, sp.height with
              | some child_final_w, some child_final_h =>
                match style.flow with
                | Direction.Row =>
                  some (r', current_x + (child_final_w : Int) + (style.gap : Int), current_y)
                | Direction.Column =>
                  some (r', current_x, current_y + (child_final_h : Int) + (style.gap : Int))
              | _, _ => none
            | _ => some (r', current_x, current_y)
          | _ => some (r', current_x, current_y)
    | _, _ => none

/-- PASS 2 (top-down arrange), `Root::compute_pass_2_layout`.  `none`
models a panic (`unwrap` of a missing Pass-1 size) or exhausted fuel. -/
def Root.compute_pass_2_layout :
    Nat → Root → CapsuleRef → Int → Int → Nat → Nat → Option Root
  | 0, _, _, _, _, _, _ => none
  | fuel + 1, root, frame_ref, given_x, given_y, given_width, given_height =>
    match root.capStyle frame_ref with
    | none => some root
    | some (capsule, style) =>
      match root.spaces[capsule.space_ref]? with
      | some (some space) =>
        match space.width, space.height with
        | some desired_w, some desired_h =>
          -- 1: final size; 2: final position; 3: store
          let final_w := (style.width.resolve_size given_width).getD desired_w
          let final_h := (style.height.resolve_size given_height).getD desired_h
          let fp : Int × Int :=
            match style.position with
            | Position.Auto => (given_x, given_y)
            | Position.Fixed x y => (given_x + (x : Int), given_y + (y : Int))
          let final_x := fp.1
          let final_y := fp.2
          let root := root.setSpace capsule.space_ref
            (some ⟨final_x, final_y, some final_w, some final_h⟩)
          -- 4: content box
          let content_x := final_x + (style.padding.left : Int) + (style.border.size : Int)
          let content_y := final_y + (style.padding.top : Int) + (style.border.size : Int)
          let content_w := final_w - (style.padding.left + style.padding.right + style.border.size * 2)
          let content_h := final_h - (style.padding.top + style.padding.bottom + style.border.size * 2)
          -- 5: pre-pass over in-flow children
          match flexPrepass root style capsule.children PrePass.init with
          | none => none
          | some pp =>
            let total_gap_w : ℚ :=
              if style.flow = Direction.Row && !pp.in_flow_children.isEmpty then
                (style.gap * (pp.in_flow_children.length - 1) : Nat)
              else 0
            let total_gap_h : ℚ :=
              if style.flow = Direction.Column && !pp.in_flow_children.isEmpty then
                (style.gap * (pp.in_flow_children.length - 1) : Nat)
              else 0
            let remaining_w : ℚ := (content_w : ℚ) - pp.total_base_w - total_gap_w
            let remaining_h : ℚ := (content_h : ℚ) - pp.total_base_h - total_gap_h
            let grow_per_factor_w : ℚ :=
              if 0 < remaining_w && 0 < pp.total_grow_factor_w then
                remaining_w / pp.total_grow_factor_w
              else 0
            let grow_per_factor_h : ℚ :=
              if 0 < remaining_h && 0 < pp.total_grow_factor_h then
                remaining_h / pp.total_grow_factor_h
              else 0
            let shrink_unit_w : ℚ :=
              if remaining_w < 0 && 0 < pp.total_weighted_shrink_w then
                -remaining_w / pp.total_weighted_shrink_w
              else 0
            let shrink_unit_h : ℚ :=
              if remaining_h < 0 && 0 < pp.total_weighted_shrink_h then
                -remaining_h / pp.total_weighted_shrink_h
              else 0
            -- 7: recurse and arrange all children, advancing the cursor
            match forChildren
                (arrange_child (Root.compute_pass_2_layout fuel) style
                  content_x content_y content_w content_h
                  remaining_w remaining_h grow_per_factor_w grow_per_factor_h
                  shrink_unit_w shrink_unit_h)
                capsule.children (root, content_x, content_y) with
            | none => none
            | some st => some st.1
        | _, _ => none
      | _ => some root

/-- Fuel bound used by `compute`: in a well-formed (acyclic) graph the
recursion depth never exceeds the number of capsule slots. -/
def Root.fuel (root : Root) : Nat := root.capsules.length + 1

/-- `Root::compute`: a no-op on an empty dirty set; otherwise clear the
dirty set, read the canvas size from the reserved slot 0 (`none` models
the `unwrap` panic when it is absent), then run Pass 1 and Pass 2 for
every top-level capsule. -/
def Root.compute (root : Root) : Option Root :=
  if root.dirties.isEmpty then some root
  else
    match root.spaces.head? with
    | some (some root_space) =>
      let root_w := root_space.width.getD 0
      let root_h := root_space.height.getD 0
      let root := { root with dirties := [] }
      forChildren (fun capsule_ref r =>
          match r.compute_pass_1_measure r.fuel capsule_ref with
          | none => none
          | some (r1, _, _) =>
            r1.compute_pass_2_layout r1.fuel capsule_ref 0 0 root_w root_h)
        root.top_level_refs root
    | _ => none

/-! ### Structure-preservation of the layout passes -/

/-- Everything a layout pass leaves untouched: both passes only ever
rewrite entries of `spaces`. -/
def SameSkeleton (a b : Root) : Prop :=
  b.capsules = a.capsules ∧ b.styles = a.styles ∧ b.dirties = a.dirties ∧
  b.allocator = a.allocator ∧ b.capsule_free_list = a.capsule_free_list ∧
  b.spaces.length = a.spaces.length

theorem sameSkeleton_refl (a : Root) : SameSkeleton a a :=
  ⟨rfl, rfl, rfl, rfl, rfl, rfl⟩

theorem sameSkeleton_trans {a b c : Root} (h₁ : SameSkeleton a b)
    (h₂ : SameSkeleton b c) : SameSkeleton a c := by
  obtain ⟨c1, s1, d1, a1, f1, l1⟩ := h₁
  obtain ⟨c2, s2, d2, a2, f2, l2⟩ := h₂
  exact ⟨c2.trans c1, s2.trans s1, d2.trans d1, a2.trans a1, f2.trans f1, l2.trans l1⟩

theorem sameSkeleton_setSpace (a : Root) (i : Nat) (s : Option Space) :
    SameSkeleton a (a.setSpace i s) :=
  ⟨rfl, rfl, rfl, rfl, rfl, by simp [Root.setSpace]⟩

/-- `forChildren` carries any reflexive-transitive relation that each
step respects. -/
theorem forChildren_rel {σ : Type} {f : CapsuleRef → σ → Option σ}
    {P : σ → σ → Prop} (hrefl : ∀ s, P s s)
    (htrans : ∀ a b c, P a b → P b c → P a c)
    (hf : ∀ c s s', f c s = some s' → P s s') :
    ∀ (cs : List CapsuleRef) (s s' : σ), forChildren f cs s = some s' → P s s' := by
  intro cs
  induction cs with
  | nil => intro s s' h; simp only [forChildren, Option.some.injEq] at h; exact h ▸ hrefl s
  | cons c cs ih =>
    intro s s' h
    simp only [forChildren] at h
    cases hc : f c s with
    | none => rw [hc] at h; exact absurd h (by simp)
    | some s₁ => rw [hc] at h; exact htrans _ _ _ (hf c s s₁ hc) (ih s₁ s' h)

theorem pass1_skeleton :
    ∀ (fuel : Nat) (root : Root) (ref : CapsuleRef) (out : Root × Nat × Nat),
      Root.compute_pass_1_measure fuel root ref = some out → SameSkeleton root out.1 := by
  intro fuel
  induction fuel with
  | zero => intro root ref out h; simp [Root.compute_pass_1_measure] at h
  | succ fuel ih =>
    intro root ref out h
    rw [Root.compute_pass_1_measure] at h
    cases hcs : root.capStyle ref with
    | none =>
      rw [hcs] at h
      simp only [Option.some.injEq] at h
      exact h ▸ sameSkeleton_refl root
    | some pr =>
      obtain ⟨capsule, style⟩ := pr
      rw [hcs] at h
      dsimp only at h
      have hstep : ∀ (c : CapsuleRef) (s s' : Root × List (Nat × Nat × Margin)),
          measure_child (Root.compute_pass_1_measure fuel) c s = some s' →
          SameSkeleton s.1 s'.1 := by
        intro c s s' hst
        simp only [measure_child] at hst
        cases hcs' : s.1.capStyle c with
        | none =>
          rw [hcs'] at hst
          simp only [Option.some.injEq] at hst
          exact hst ▸ sameSkeleton_refl s.1
        | some pr' =>
          obtain ⟨cap', style'⟩ := pr'
          rw [hcs'] at hst
          dsimp only at hst
          cases hp1 : Root.compute_pass_1_measure fuel s.1 c with
          | none => rw [hp1] at hst; exact absurd hst (by simp)
          | some out' =>
            obtain ⟨r', cw, ch⟩ := out'
            rw [hp1] at hst
            dsimp only at hst
            have hsk := ih s.1 c (r', cw, ch) hp1
            by_cases hpos : style'.position = Position.Auto <;>
              simp only [hpos, reduceIte, Option.some.injEq] at hst <;>
              exact hst ▸ hsk
      cases hfc : forChildren (measure_child (Root.compute_pass_1_measure fuel))
          capsule.children (root, ([] : List (Nat × Nat × Margin))) with
      | none => rw [hfc] at h; exact absurd h (by simp)
      | some st =>
        obtain ⟨stR, stL⟩ := st
        have hmid : SameSkeleton root stR :=
          forChildren_rel (σ := Root × List (Nat × Nat × Margin))
            (P := fun s s' => SameSkeleton s.1 s'.1)
            (fun s => sameSkeleton_refl s.1)
            (fun a b c h₁ h₂ => sameSkeleton_trans h₁ h₂)
            hstep capsule.children _ _ hfc
        rw [hfc] at h
        dsimp only at h
        cases hsp : stR.spaces[capsule.space_ref]? with
        | none =>
          rw [hsp] at h
          simp only [Option.some.injEq] at h
          exact h ▸ hmid
        | some osp =>
          cases osp with
          | none =>
            rw [hsp] at h
            simp only [Option.some.injEq] at h
            exact h ▸ hmid
          | some space =>
            rw [hsp] at h
            simp only [Option.some.injEq] at h
            exact h ▸ sameSkeleton_trans hmid (sameSkeleton_setSpace _ _ _)

theorem arrange_child_skeleton
    {p2 : Root → CapsuleRef → Int → Int → Nat → Nat → Option Root}
    (hp2 : ∀ r c gx gy gw gh r', p2 r c gx gy gw gh = some r' → SameSkeleton r r')
    {style : Style} {cx cy : Int} {cw ch : Nat} {rw rh gw gh sw sh : ℚ}
    {c : CapsuleRef} {st st' : Root × Int × Int}
    (h : arrange_child p2 style cx cy cw ch rw rh gw gh sw sh c st = some st') :
    SameSkeleton st.1 st'.1 := by
  simp only [arrange_child] at h
  cases hcs : st.1.capStyleSpace c with
  | none =>
    rw [hcs] at h
    simp only [Option.some.injEq] at h
    exact h ▸ sameSkeleton_refl st.1
  | some tr =>
    obtain ⟨ccap, cstyle, cspace⟩ := tr
    rw [hcs] at h
    dsimp only at h
    cases hw : cspace.width with
    | none => rw [hw] at h; exact absurd h (by simp)
    | some cdw =>
    cases hh : cspace.height with
    | none => rw [hw, hh] at h; exact absurd h (by simp)
    | some cdh =>
    rw [hw, hh] at h
    dsimp only at h
    cases hpos : cstyle.position with
    | Fixed px py =>
      rw [hpos] at h
      dsimp only at h
      cases hp : p2 st.1 c cx cy cw ch with
      | none => rw [hp] at h; exact absurd h (by simp)
      | some r' =>
        rw [hp] at h
        simp only [Option.some.injEq] at h
        exact h ▸ hp2 _ _ _ _ _ _ _ hp
    | Auto =>
      rw [hpos] at h
      dsimp only at h
      generalize hg : (match style.layout with
        | LayoutStrategy.Flex => match style.flow with
          | Direction.Row =>
            (st.2.1 + (cstyle.margin.left : Int), st.2.2 + (cstyle.margin.top : Int),
             (match cstyle.width with
              | SizeSpec.Percent _ => cw
              | _ => f2u (flex_final (cdw : ℚ) rw gw sw cstyle.flex_grow cstyle.flex_shrink)),
             ch - ((cstyle.margin.top : Int) + (cstyle.margin.bottom : Int)).toNat)
          | Direction.Column =>
            (st.2.1 + (cstyle.margin.left : Int), st.2.2 + (cstyle.margin.top : Int),
             cw - ((cstyle.margin.left : Int) + (cstyle.margin.right : Int)).toNat,
             (match cstyle.height with
              | SizeSpec.Percent _ => ch
              | _ => f2u (flex_final (cdh : ℚ) rh gh sh cstyle.flex_grow cstyle.flex_shrink)))
        | _ => (st.2.1, st.2.2, cw, cdh) : Int × Int × Nat × Nat) = g4 at h
      cases hp : p2 st.1 c g4.1 g4.2.1 g4.2.2.1 g4.2.2.2 with
      | none => rw [hp] at h; exact absurd h (by simp)
      | some r' =>
        rw [hp] at h
        dsimp only at h
        have hr' := hp2 _ _ _ _ _ _ _ hp
        cases hsp : r'.spaces[ccap.space_ref]? with
        | none =>
          rw [hsp] at h
          simp only [Option.some.injEq] at h
          exact h ▸ hr'
        | some osp =>
          cases osp with
          | none =>
            rw [hsp] at h
            simp only [Option.some.injEq] at h
            exact h ▸ hr'
          | some sp0 =>
            rw [hsp] at h
            dsimp only at h
            generalize cross_override style cstyle cw ch sp0 = sp2 at h
            have hfin : SameSkeleton st.1 (r'.setSpace ccap.space_ref (some sp2)) :=
              sameSkeleton_trans hr' (sameSkeleton_setSpace _ _ _)
            cases hlay : style.layout with
            | Flex =>
              rw [hlay] at h
              dsimp only at h
              cases hfw : sp2.width with
              | none => rw [hfw] at h; exact absurd h (by simp)
              | some fw =>
              cases hfh : sp2.height with
              | none => rw [hfw, hfh] at h; exact absurd h (by simp)
              | some fh =>
              rw [hfw, hfh] at h
              dsimp only at h
              cases hflow : style.flow with
              | Row =>
                rw [hflow] at h
                simp only [Option.some.injEq] at h
                exact h ▸ hfin
              | Column =>
                rw [hflow] at h
                simp only [Option.some.injEq] at h
                exact h ▸ hfin
            | NoStrategy =>
              rw [hlay] at h
              simp only [Option.some.injEq] at h
              exact h ▸ hfin
            | Grid =>
              rw [hlay] at h
              simp only [Option.some.injEq] at h
              exact h ▸ hfin

theorem pass2_skeleton :
    ∀ (fuel : Nat) (root : Root) (ref : CapsuleRef) (gx gy : Int) (gw gh : Nat)
      (out : Root),
      Root.compute_pass_2_layout fuel root ref gx gy gw gh = some out →
      SameSkeleton root out := by
  intro fuel
  induction fuel with
  | zero => intro root ref gx gy gw gh out h; simp [Root.compute_pass_2_layout] at h
  | succ fuel ih =>
    intro root ref gx gy gw gh out h
    rw [Root.compute_pass_2_layout] at h
    cases hcs : root.capStyle ref with
    | none =>
      rw [hcs] at h
      simp only [Option.some.injEq] at h
      exact h ▸ sameSkeleton_refl root
    | some pr =>
      obtain ⟨capsule, style⟩ := pr
      rw [hcs] at h
      dsimp only at h
      cases hsp : root.spaces[capsule.space_ref]? with
      | none =>
        rw [hsp] at h
        simp only [Option.some.injEq] at h
        exact h ▸ sameSkeleton_refl root
      | some osp =>
        cases osp with
        | none =>
          rw [hsp] at h
          simp only [Option.some.injEq] at h
          exact h ▸ sameSkeleton_refl root
        | some space =>
          rw [hsp] at h
          dsimp only at h
          cases hw : space.width with
          | none => rw [hw] at h; exact absurd h (by simp)
          | some desired_w =>
          cases hh : space.height with
          | none => rw [hw, hh] at h; exact absurd h (by simp)
          | some desired_h =>
          rw [hw, hh] at h
          dsimp only at h
          have hself : SameSkeleton root
              (root.setSpace capsule.space_ref
                (some ⟨(match style.position with
                        | Position.Auto => (gx, gy)
                        | Position.Fixed x y => (gx + (x : Int), gy + (y : Int))).1,
                       (match style.position with
                        | Position.Auto => (gx, gy)
                        | Position.Fixed x y => (gx + (x : Int), gy + (y : Int))).2,
                       some ((style.width.resolve_size gw).getD desired_w),
                       some ((style.height.resolve_size gh).getD desired_h)⟩)) :=
            sameSkeleton_setSpace _ _ _
      -- name the post-write root and continue
          generalize hroot1 :
            (root.setSpace capsule.space_ref
              (some ⟨(match style.position with
                      | Position.Auto => (gx, gy)
                      | Position.Fixed x y => (gx + (x : Int), gy + (y : Int))).1,
                     (match style.position with
                      | Position.Auto => (gx, gy)
                      | Position.Fixed x y => (gx + (x : Int), gy + (y : Int))).2,
                     some ((style.width.resolve_size gw).getD desired_w),
                     some ((style.height.resolve_size gh).getD desired_h)⟩)) = root1 at h hself
          cases hpp : flexPrepass root1 style capsule.children PrePass.init with
          | none => rw [hpp] at h; exact absurd h (by simp)
          | some pp =>
            rw [hpp] at h
            dsimp only at h
            cases hfc : forChildren
                (arrange_child (Root.compute_pass_2_layout fuel) style _ _ _ _ _ _ _ _ _ _)
                capsule.children (root1, _, _) with
            | none => rw [hfc] at h; exact absurd h (by simp)
            | some st =>
              rw [hfc] at h
              simp only [Option.some.injEq] at h
              have hkids : SameSkeleton root1 st.1 :=
                forChildren_rel (σ := Root × Int × Int)
                  (P := fun s s' => SameSkeleton s.1 s'.1)
                  (fun s => sameSkeleton_refl s.1)
                  (fun a b c h₁ h₂ => sameSkeleton_trans h₁ h₂)
                  (fun c s s' hstep => arrange_child_skeleton
                    (fun r cc a1 a2 a3 a4 r' hp => ih r cc a1 a2 a3 a4 r' hp) hstep)
                  capsule.children _ _ hfc
              exact h ▸ sameSkeleton_trans hself hkids

theorem compute_of_empty_dirties (root : Root) (h : root.dirties = []) :
    root.compute = some root := by
  unfold Root.compute
  rw [if_pos (by simp [h])]

theorem compute_cases (root root' : Root) (h : root.compute = some root') :
    (root.dirties = [] ∧ root' = root) ∨
    SameSkeleton { root with dirties := ([] : List CapsuleRef) } root' := by
  unfold Root.compute at h
  by_cases hd : root.dirties.isEmpty
  · rw [if_pos hd] at h
    simp only [Option.some.injEq] at h
    exact Or.inl ⟨List.isEmpty_iff.mp hd, h.symm⟩
  · rw [if_neg hd] at h
    cases hhd : root.spaces.head? with
    | none => rw [hhd] at h; exact absurd h (by simp)
    | some osp =>
      cases osp with
      | none => rw [hhd] at h; exact absurd h (by simp)
      | some root_space =>
        rw [hhd] at h
        dsimp only at h
        refine Or.inr (forChildren_rel (σ := Root) (P := SameSkeleton)
          sameSkeleton_refl (fun a b c h₁ h₂ => sameSkeleton_trans h₁ h₂)
          ?_ _ _ _ h)
        intro c r r' hstep
        try dsimp only at hstep
        cases hp1 : r.compute_pass_1_measure r.fuel c with
        | none => rw [hp1] at hstep; exact absurd hstep (by simp)
        | some out1 =>
          obtain ⟨r1, dw, dh⟩ := out1
          rw [hp1] at hstep
          try dsimp only at hstep
          exact sameSkeleton_trans (pass1_skeleton _ _ _ _ hp1)
            (pass2_skeleton _ _ _ _ _ _ _ _ hstep)

/-- C3: a `compute` that succeeds leaves an empty dirty set, so a second
`compute` with no intervening mutation is a no-op returning the same
root (hence identical `Space` values for every node); in general
`compute` changes nothing whenever the dirty set is empty. -/
theorem compute_twice_noop (root root' : Root) (h : root.compute = some root') :
    root'.dirties = [] ∧ root'.compute = some root' ∧
    (∀ r : Root, r.dirties = [] → r.compute = some r) := by
  have hd : root'.dirties = [] := by
    rcases compute_cases root root' h with ⟨he, rfl⟩ | hsk
    · exact he
    · exact hsk.2.2.1
  exact ⟨hd, compute_of_empty_dirties root' hd, compute_of_empty_dirties⟩

/-- Witness for C3 at a concrete root. -/
theorem compute_twice_noop_witness :
    (Root.new 8 8).compute = some (Root.new 8 8) ∧
    (Root.new 8 8).dirties = [] ∧ (Root.new 8 8).compute = some (Root.new 8 8) := by
  have h : (Root.new 8 8).compute = some (Root.new 8 8) := by
    simp [Root.compute, Root.new]
  have h2 := compute_twice_noop (Root.new 8 8) (Root.new 8 8) h
  exact ⟨h, h2.1, h2.2.1⟩

/-! ### Behaviour of `add_frame_child` on a stale parent (C6) -/

/-- Concrete scene for stale-handle scenarios: one top-level node,
removed again, so the handle `⟨0, 0⟩` is stale. -/
def staleScene : Root :=
  (Root.remove_frame 2 ((Root.new 4 4).add_frame none).1 ⟨0, 0⟩).getD (Root.new 4 4)

/-- C6, counterexample part: adding a child under the stale handle
still creates a node, and lookups through the returned reference
succeed (they do not propagate `None`). -/
theorem add_frame_child_stale_counterexample :
    (Root.get_capsule staleScene ⟨0, 0⟩ = none) ∧
    (staleScene.add_frame_child ⟨⟨0, 0⟩⟩ none).1.get_space
      (staleScene.add_frame_child ⟨⟨0, 0⟩⟩ none).2.capsule_ref = some Space.zero := by
  constructor <;>
  simp [staleScene, Root.new, Root.add_frame, Root.add_frame_child,
    Root.internal_add_frame, Root.remove_frame, Root.unbind_data, forChildren,
    Root.get_capsule, capAt, Root.get_space, Root.modifyCapsule, Root.set_dirty,
    set_dirty_walk, dirtyInsert, Space.zero, Space.with_width, Space.with_height,
    Frame.get_ref, Style.default]

/-- A mutation through a handle whose generation mismatches its slot is
a no-op. -/
theorem modifyCapsule_gen_mismatch (root : Root) (ref : CapsuleRef)
    (f : Capsule → Capsule)
    (h : ∀ slot, root.capsules[ref.id]? = some slot →
      slot.generation ≠ ref.generation) :
    root.modifyCapsule ref f = root := by
  unfold Root.modifyCapsule
  cases hc : root.capsules[ref.id]? with
  | none => rfl
  | some slot =>
    dsimp only
    rw [if_neg (h slot hc)]

/-- C6 (amended): `add_frame_child` on a stale parent (stale through a
generation mismatch, as removal always leaves behind) still creates a
fresh node: its space and style lookups succeed with the defaults, its
`parent_ref` dangles at the stale handle, and no pre-existing capsule's
children list changes — the node is attached nowhere, so the layout
walk never reaches it.  `hfree` and `hid` rule out out-of-range ids the
source would panic on or that no issued handle can carry. -/
theorem add_frame_child_stale (root : Root) (p : Frame) (d : Option Nat)
    (hgen : ∀ slot, root.capsules[p.capsule_ref.id]? = some slot →
      slot.generation ≠ p.capsule_ref.generation)
    (hid : p.capsule_ref.id < root.capsules.length)
    (hfree : ∀ i ∈ root.capsule_free_list, i < root.capsules.length) :
    (root.add_frame_child p d).1.get_space
        (root.add_frame_child p d).2.capsule_ref = some Space.zero ∧
    (root.add_frame_child p d).1.get_style
        (root.add_frame_child p d).2.capsule_ref = some Style.default ∧
    ((root.add_frame_child p d).1.get_capsule
        (root.add_frame_child p d).2.capsule_ref).map Capsule.parent_ref =
      some (some p.capsule_ref) ∧
    ((root.add_frame_child p d).1.get_capsule
        (root.add_frame_child p d).2.capsule_ref).map Capsule.children =
      some [] ∧
    ∀ i, i ≠ (root.add_frame_child p d).2.capsule_ref.id →
      ((root.add_frame_child p d).1.capsules[i]?.map fun s =>
        s.capsule.map Capsule.children) =
      (root.capsules[i]?.map fun s => s.capsule.map Capsule.children) := by
  unfold Root.add_frame_child Root.internal_add_frame
  try dsimp only
  cases hfl : root.capsule_free_list with
  | cons recycled_id rest =>
    have hlt : recycled_id < root.capsules.length := hfree _ (hfl ▸ List.mem_cons_self _ _)
    have hslot : root.capsules[recycled_id]? =
        some (root.capsules[recycled_id]) := List.getElem?_eq_getElem hlt
    try dsimp only
    rw [hslot]
    try dsimp only
    rw [modifyCapsule_gen_mismatch]
    · dsimp only
      refine ⟨?_, ?_, ?_, ?_, ?_⟩
      · simp [Root.get_space, Root.get_capsule, capAt, List.getElem?_set_eq_of_lt _ hlt,
          List.getElem?_concat_length]
      · simp [Root.get_style, Root.get_capsule, capAt, List.getElem?_set_eq_of_lt _ hlt,
          List.getElem?_concat_length]
      · simp [Root.get_capsule, capAt, List.getElem?_set_eq_of_lt _ hlt]
      · simp [Root.get_capsule, capAt, List.getElem?_set_eq_of_lt _ hlt]
      · intro i hi
        try dsimp only at hi ⊢
        rw [List.getElem?_set_ne (by omega)]
    · intro slot hs
      by_cases hip : p.capsule_ref.id = recycled_id
      · subst hip
        rw [List.getElem?_set_eq_of_lt _ hlt] at hs
        have := hgen (root.capsules[p.capsule_ref.id]) (List.getElem?_eq_getElem hid)
        simp only [Option.some.injEq] at hs
        rw [← hs]
        exact this
      · rw [List.getElem?_set_ne (by omega)] at hs
        exact hgen slot hs
  | nil =>
    try dsimp only
    rw [modifyCapsule_gen_mismatch]
    · dsimp only
      refine ⟨?_, ?_, ?_, ?_, ?_⟩
      · simp [Root.get_space, Root.get_capsule, capAt, List.getElem?_concat_length]
      · simp [Root.get_style, Root.get_capsule, capAt, List.getElem?_concat_length]
      · simp [Root.get_capsule, capAt, List.getElem?_concat_length]
      · simp [Root.get_capsule, capAt, List.getElem?_concat_length]
      · intro i hi
        try dsimp only at hi ⊢
        rcases Nat.lt_trichotomy i root.capsules.length with hlt | heq | hgt
        · rw [List.getElem?_append_left hlt]
        · exact absurd heq hi
        · rw [List.getElem?_eq_none (by simp; omega),
            List.getElem?_eq_none (by omega)]
    · intro slot hs
      rw [List.getElem?_append_left hid] at hs
      exact hgen slot hs

/-- Witness for the amended C6 at the concrete stale scene. -/
theorem add_frame_child_stale_witness :
    (staleScene.add_frame_child ⟨⟨0, 0⟩⟩ none).1.get_space
        (staleScene.add_frame_child ⟨⟨0, 0⟩⟩ none).2.capsule_ref = some Space.zero ∧
    ((staleScene.add_frame_child ⟨⟨0, 0⟩⟩ none).1.get_capsule
        (staleScene.add_frame_child ⟨⟨0, 0⟩⟩ none).2.capsule_ref).map Capsule.parent_ref =
      some (some ⟨0, 0⟩) := by
  have h := add_frame_child_stale staleScene ⟨⟨0, 0⟩⟩ none
    (by intro slot hs
        simp [staleScene, Root.new, Root.add_frame, Root.internal_add_frame,
          Root.remove_frame, Root.unbind_data, forChildren, Root.get_capsule, capAt,
          Root.modifyCapsule, Root.set_dirty, set_dirty_walk, dirtyInsert,
          Space.zero, Space.with_width, Space.with_height] at hs ⊢
        subst hs
        simp)
    (by simp [staleScene, Root.new, Root.add_frame, Root.internal_add_frame,
          Root.remove_frame, Root.unbind_data, forChildren, Root.get_capsule, capAt,
          Root.modifyCapsule, Root.set_dirty, set_dirty_walk, dirtyInsert,
          Space.zero, Space.with_width, Space.with_height])
    (by intro i hi
        simp [staleScene, Root.new, Root.add_frame, Root.internal_add_frame,
          Root.remove_frame, Root.unbind_data, forChildren, Root.get_capsule, capAt,
          Root.modifyCapsule, Root.set_dirty, set_dirty_walk, dirtyInsert,
          Space.zero, Space.with_width, Space.with_height] at hi ⊢
        omega)
  exact ⟨h.1, h.2.2.1⟩

/-! ### Dirty propagation along the ancestor chain (C7) -/

/-- `ancestor_chain capsules r chain` pins down the whole parent chain
above `r`: following `parent_ref` links from `r` visits exactly the
refs in `chain`, ending at a top-level capsule. -/
def ancestor_chain (capsules : List CapsuleSlot) : CapsuleRef → List CapsuleRef → Prop
  | r, [] => ∃ cap, capAt capsules r = some cap ∧ cap.parent_ref = none
  | r, a :: rest =>
    ∃ cap, capAt capsules r = some cap ∧ cap.parent_ref = some a ∧
      ancestor_chain capsules a rest

theorem ancestor_chain_live (capsules : List CapsuleSlot) :
    ∀ (r : CapsuleRef) (chain : List CapsuleRef),
      ancestor_chain capsules r chain →
      ∀ a ∈ chain, ∃ cap, capAt capsules a = some cap := by
  intro r chain
  induction chain generalizing r with
  | nil => intro _ a ha; exact absurd ha (List.not_mem_nil a)
  | cons b rest ih =>
    rintro ⟨cap, hcap, hpar, hrest⟩ a ha
    rcases List.mem_cons.mp ha with rfl | ha
    · obtain ⟨cap', h', _⟩ : ∃ cap', capAt capsules a = some cap' ∧ True := by
        cases rest with
        | nil => obtain ⟨c, hc, _⟩ := hrest; exact ⟨c, hc, trivial⟩
        | cons c cs => obtain ⟨c', hc', _⟩ := hrest; exact ⟨c', hc', trivial⟩
      exact ⟨cap', h'⟩
    · exact ih b hrest a ha

theorem live_ref_unique (capsules : List CapsuleSlot) (a b : CapsuleRef)
    (ha : ∃ cap, capAt capsules a = some cap)
    (hb : ∃ cap, capAt capsules b = some cap)
    (hid : a.id = b.id) : a = b := by
  obtain ⟨ca, hca⟩ := ha
  obtain ⟨cb, hcb⟩ := hb
  unfold capAt at hca hcb
  rw [hid] at hca
  cases hsl : capsules[b.id]? with
  | none => rw [hsl] at hcb; exact absurd hcb (by simp)
  | some slot =>
    rw [hsl] at hca hcb
    dsimp only at hca hcb
    by_cases h1 : slot.generation = a.generation
    · by_cases h2 : slot.generation = b.generation
      · cases a; cases b; simp_all
      · rw [if_neg h2] at hcb; exact absurd hcb (by simp)
    · rw [if_neg h1] at hca; exact absurd hca (by simp)

theorem nodup_live_length_le (capsules : List CapsuleSlot)
    (l : List CapsuleRef) (hnd : l.Nodup)
    (hlive : ∀ a ∈ l, ∃ cap, capAt capsules a = some cap) :
    l.length ≤ capsules.length := by
  have hidnd : (l.map CapsuleRef.id).Nodup := by
    refine hnd.map_on ?_
    intro a ha b hb hab
    exact live_ref_unique capsules a b (hlive a ha) (hlive b hb) hab
  have hbound : ∀ i ∈ l.map CapsuleRef.id, i < capsules.length := by
    intro i hi
    obtain ⟨a, ha, rfl⟩ := List.mem_map.mp hi
    obtain ⟨cap, hcap⟩ := hlive a ha
    unfold capAt at hcap
    by_contra hge
    rw [List.getElem?_eq_none (by omega)] at hcap
    exact absurd hcap (by simp)
  have hsub : (l.map CapsuleRef.id).toFinset ⊆ Finset.range capsules.length := by
    intro i hi
    exact Finset.mem_range.mpr (hbound i (List.mem_toFinset.mp hi))
  calc l.length = (l.map CapsuleRef.id).length := (List.length_map _ _).symm
    _ = (l.map CapsuleRef.id).toFinset.card := (List.toFinset_card_of_nodup hidnd).symm
    _ ≤ (Finset.range capsules.length).card := Finset.card_le_card hsub
    _ = capsules.length := Finset.card_range _

theorem set_dirty_walk_marks :
    ∀ (chain : List CapsuleRef) (fuel : Nat) (root : Root) (r : CapsuleRef),
      ancestor_chain root.capsules r chain →
      chain.length < fuel →
      (∀ a ∈ chain, a ∉ root.dirties) →
      chain.Nodup →
      (∀ x ∈ root.dirties,
        x ∈ (set_dirty_walk fuel root (capAt root.capsules r)).dirties) ∧
      ∀ a ∈ chain, a ∈ (set_dirty_walk fuel root (capAt root.capsules r)).dirties := by
  intro chain
  induction chain with
  | nil =>
    rintro fuel root r ⟨cap, hcap, hnone⟩ hfuel _ _
    obtain ⟨f, rfl⟩ : ∃ f, fuel = f + 1 := ⟨fuel - 1, by omega⟩
    rw [hcap]
    simp only [set_dirty_walk, hnone]
    exact ⟨fun x hx => hx, by simp⟩
  | cons a rest ih =>
    rintro fuel root r ⟨cap, hcap, hpar, hrest⟩ hfuel hclean hnd
    obtain ⟨f, rfl⟩ : ∃ f, fuel = f + 1 := ⟨fuel - 1, by omega⟩
    rw [hcap]
    simp only [set_dirty_walk, hpar]
    have hnotin : a ∉ root.dirties := hclean a (List.mem_cons_self a rest)
    simp only [dirtyInsert, if_neg hnotin]
    have hih := ih f { root with dirties := a :: root.dirties } a hrest
      (by simpa using Nat.lt_of_succ_lt_succ hfuel)
      (by intro b hb
          simp only [List.mem_cons]
          push_neg
          exact ⟨fun hba => (List.nodup_cons.mp hnd).1 (hba ▸ hb),
                 hclean b (List.mem_cons_of_mem a hb)⟩)
      (List.nodup_cons.mp hnd).2
    refine ⟨fun x hx => hih.1 x (List.mem_cons_of_mem a hx), ?_⟩
    intro b hb
    rcases List.mem_cons.mp hb with rfl | hb
    · exact hih.1 b (List.mem_cons_self b root.dirties)
    · exact hih.2 b hb

/-- C7: `update_style` on a live node applies the mutator to the node's
style slot in place and marks the node dirty; starting from a state in
which neither the node nor any of its (acyclic) ancestors is dirty, the
walk inside `set_dirty` then inserts every ancestor up to the top-level
node. -/
theorem update_style_marks_ancestors (root : Root) (fr : Frame)
    (g : Style → Style) (cap : Capsule) (style : Style)
    (chain : List CapsuleRef)
    (hcap : root.get_capsule fr.capsule_ref = some cap)
    (hstyle : root.styles[cap.style_ref]? = some (some style))
    (hchain : ancestor_chain root.capsules fr.capsule_ref chain)
    (hnd : (fr.capsule_ref :: chain).Nodup)
    (hclean : ∀ a ∈ fr.capsule_ref :: chain, a ∉ root.dirties) :
    (root.update_style fr g).styles[cap.style_ref]? = some (some (g style)) ∧
    fr.capsule_ref ∈ (root.update_style fr g).dirties ∧
    ∀ a ∈ chain, a ∈ (root.update_style fr g).dirties := by
  unfold Root.update_style
  rw [hcap]
  dsimp only
  rw [hstyle]
  dsimp only
  unfold Root.set_dirty
  have hn : fr.capsule_ref ∉ root.dirties :=
    hclean _ (List.mem_cons_self _ _)
  simp only [dirtyInsert, if_neg hn, if_true]
  try dsimp only
  have hchain' : ancestor_chain root.capsules fr.capsule_ref chain := hchain
  have hlive := ancestor_chain_live root.capsules _ _ hchain
  have hliveall : ∀ a ∈ fr.capsule_ref :: chain, ∃ c, capAt root.capsules a = some c := by
    intro a ha
    rcases List.mem_cons.mp ha with rfl | ha
    · exact ⟨cap, hcap⟩
    · exact hlive a ha
  have hlen : (fr.capsule_ref :: chain).length ≤ root.capsules.length :=
    nodup_live_length_le root.capsules _ hnd hliveall
  set root1 : Root :=
    { root with
      styles := root.styles.set cap.style_ref (some (g style))
      dirties := fr.capsule_ref :: root.dirties } with hroot1
  have hchain1 : ancestor_chain root1.capsules fr.capsule_ref chain := hchain'
  have hwalk := set_dirty_walk_marks chain (root1.capsules.length + 1) root1
    fr.capsule_ref hchain1
    (by simp only [hroot1]; simp at hlen ⊢; omega)
    (by intro a ha
        simp only [hroot1, List.mem_cons]
        push_neg
        exact ⟨fun hae => (List.nodup_cons.mp hnd).1 (hae ▸ ha),
               hclean a (List.mem_cons_of_mem _ ha)⟩)
    (List.nodup_cons.mp hnd).2
  have hget1 : capAt root1.capsules fr.capsule_ref = some cap := hcap
  have hstyles_walk : ∀ (fuel : Nat) (r0 : Root) (oc : Option Capsule),
      (set_dirty_walk fuel r0 oc).styles = r0.styles := by
    intro fuel
    induction fuel with
    | zero => intro r0 oc; rfl
    | succ f ihf =>
      intro r0 oc
      cases oc with
      | none => rfl
      | some c =>
        simp only [set_dirty_walk]
        cases hp : c.parent_ref with
        | none => rfl
        | some pr =>
          dsimp only
          by_cases hin : pr ∈ r0.dirties <;>
            simp [dirtyInsert, hin, ihf]
  have hbound : cap.style_ref < root.styles.length := by
    rcases List.getElem?_eq_some.mp hstyle with ⟨h, _⟩
    exact h
  refine ⟨?_, ?_, ?_⟩
  · rw [hstyles_walk]
    exact List.getElem?_set_eq_of_lt _ hbound
  · exact hwalk.1 fr.capsule_ref (List.mem_cons_self _ _)
  · exact hwalk.2

/-- Concrete three-level scene (top-level A, child B, grandchild C),
freshly built so nothing is dirty yet. -/
def chainScene : Root :=
  (((Root.new 4 4).add_frame none).1.add_frame_child ⟨⟨0, 0⟩⟩ none).1.add_frame_child
    ⟨⟨1, 0⟩⟩ none |>.1

/-- Witness for C7: mutating the grandchild's style marks it and both
ancestors dirty and rewrites its style slot. -/
theorem update_style_marks_ancestors_witness :
    (chainScene.update_style ⟨⟨2, 0⟩⟩ (fun s => { s with gap := 7 })).styles[2]? =
      some (some { Style.default with gap := 7 }) ∧
    (⟨2, 0⟩ : CapsuleRef) ∈
      (chainScene.update_style ⟨⟨2, 0⟩⟩ (fun s => { s with gap := 7 })).dirties ∧
    (⟨1, 0⟩ : CapsuleRef) ∈
      (chainScene.update_style ⟨⟨2, 0⟩⟩ (fun s => { s with gap := 7 })).dirties ∧
    (⟨0, 0⟩ : CapsuleRef) ∈
      (chainScene.update_style ⟨⟨2, 0⟩⟩ (fun s => { s with gap := 7 })).dirties := by
  have h := update_style_marks_ancestors chainScene ⟨⟨2, 0⟩⟩
    (fun s => { s with gap := 7 })
    ⟨3, some ⟨1, 0⟩, 2, none, []⟩ Style.default [⟨1, 0⟩, ⟨0, 0⟩]
    (by simp [chainScene, Root.new, Root.add_frame, Root.add_frame_child,
          Root.internal_add_frame, Root.get_capsule, capAt, Root.modifyCapsule,
          Space.zero, Space.with_width, Space.with_height])
    (by simp [chainScene, Root.new, Root.add_frame, Root.add_frame_child,
          Root.internal_add_frame, Root.modifyCapsule,
          Space.zero, Space.with_width, Space.with_height])
    (by simp [ancestor_chain, chainScene, Root.new, Root.add_frame,
          Root.add_frame_child, Root.internal_add_frame, capAt,
          Root.modifyCapsule, Space.zero, Space.with_width, Space.with_height])
    (by simp)
    (by simp [chainScene, Root.new, Root.add_frame, Root.add_frame_child,
          Root.internal_add_frame, Root.modifyCapsule,
          Space.zero, Space.with_width, Space.with_height])
  exact ⟨h.1, h.2.1, h.2.2 ⟨1, 0⟩ (by simp), h.2.2 ⟨0, 0⟩ (by simp)⟩

/-! ### Fit-sized leaves keep their intrinsic size (C8) -/

/-- C8: a childless node sized `Fit`x`Fit` with zero padding and border
and intrinsic size `W0`x`H0` measures to exactly `(W0, H0)` in Pass 1,
and Pass 2 stores exactly that size whatever position and extent the
parent offers. -/
theorem fit_leaf_round_trip (fuel : Nat) (root : Root) (ref : CapsuleRef)
    (cap : Capsule) (style : Style) (sp : Space) (W0 H0 : Nat)
    (hcap : root.get_capsule ref = some cap)
    (hstyle : root.styles[cap.style_ref]? = some (some style))
    (hw : style.width = SizeSpec.Fit) (hh : style.height = SizeSpec.Fit)
    (hpad : style.padding = ⟨0, 0, 0, 0⟩) (hbord : style.border.size = 0)
    (hiw : style.intrinsic_width = some W0) (hih : style.intrinsic_height = some H0)
    (hpos : style.position = Position.Auto)
    (hkids : cap.children = [])
    (hsp : root.spaces[cap.space_ref]? = some (some sp)) :
    root.compute_pass_1_measure (fuel + 1) ref =
      some (root.setSpace cap.space_ref
        (some { sp with width := some W0, height := some H0 }), W0, H0) ∧
    ∀ (gx gy : Int) (gw gh : Nat) (sp' : Space),
      sp'.width = some W0 → sp'.height = some H0 →
      root.spaces[cap.space_ref]? = some (some sp') →
      root.compute_pass_2_layout (fuel + 1) ref gx gy gw gh =
        some (root.setSpace cap.space_ref (some ⟨gx, gy, some W0, some H0⟩)) := by
  have hcapstyle : root.capStyle ref = some (cap, style) := by
    unfold Root.capStyle
    rw [hcap]
    try dsimp only
    rw [hstyle]
  constructor
  · rw [Root.compute_pass_1_measure, hcapstyle]
    try dsimp only
    rw [hkids]
    simp only [forChildren]
    try dsimp only
    rw [hsp]
    simp [hw, hh, hiw, hih, hpad, hbord]
  · intro gx gy gw gh sp' hw' hh' hsp'
    rw [Root.compute_pass_2_layout, hcapstyle]
    try dsimp only
    rw [hsp']
    try dsimp only
    rw [hw', hh']
    try dsimp only
    rw [hkids]
    simp only [flexPrepass, forChildren]
    simp [hw, hh, hpos, SizeSpec.resolve_size]

/-- Concrete scene for C8: a single top-level `Fit`x`Fit` leaf with
intrinsic size 100x20. -/
def fitScene : Root :=
  ((Root.new 300 300).add_frame none).1.update_style ⟨⟨0, 0⟩⟩ (fun s =>
    { s with width := SizeSpec.Fit, height := SizeSpec.Fit,
             intrinsic_width := some 100, intrinsic_height := some 20 })

/-- Witness for C8: the leaf measures to 100x20 and keeps that size even
when offered 999x888 at position (5, 6). -/
theorem fit_leaf_round_trip_witness :
    fitScene.compute_pass_1_measure 1 ⟨0, 0⟩ =
      some (fitScene.setSpace 1 (some ⟨0, 0, some 100, some 20⟩), 100, 20) ∧
    (fitScene.setSpace 1 (some ⟨0, 0, some 100, some 20⟩)).compute_pass_2_layout 1
      ⟨0, 0⟩ 5 6 999 888 =
      some ((fitScene.setSpace 1 (some ⟨0, 0, some 100, some 20⟩)).setSpace 1
        (some ⟨5, 6, some 100, some 20⟩)) := by
  have evalcap : fitScene.get_capsule ⟨0, 0⟩ = some ⟨1, none, 0, none, []⟩ := by
    simp [fitScene, Root.new, Root.add_frame, Root.internal_add_frame,
      Root.update_style, Root.get_capsule, capAt, Root.set_dirty, set_dirty_walk,
      dirtyInsert, Space.zero, Space.with_width, Space.with_height]
  have evalstyle : fitScene.styles[0]? = some (some
      { Style.default with
          width := SizeSpec.Fit, height := SizeSpec.Fit,
          intrinsic_width := some 100, intrinsic_height := some 20 }) := by
    simp [fitScene, Root.new, Root.add_frame, Root.internal_add_frame,
      Root.update_style, Root.get_capsule, capAt, Root.set_dirty, set_dirty_walk,
      dirtyInsert, Space.zero, Space.with_width, Space.with_height]
  have evalsp : fitScene.spaces[1]? = some (some Space.zero) := by
    simp [fitScene, Root.new, Root.add_frame, Root.internal_add_frame,
      Root.update_style, Root.get_capsule, capAt, Root.set_dirty, set_dirty_walk,
      dirtyInsert, Space.zero, Space.with_width, Space.with_height]
  have h1 := fit_leaf_round_trip 0 fitScene ⟨0, 0⟩ ⟨1, none, 0, none, []⟩
    { Style.default with
        width := SizeSpec.Fit, height := SizeSpec.Fit,
        intrinsic_width := some 100, intrinsic_height := some 20 }
    Space.zero 100 20 evalcap evalstyle rfl rfl rfl rfl rfl rfl rfl rfl evalsp
  have hlen : (1 : Nat) < fitScene.spaces.length := by
    simp [fitScene, Root.new, Root.add_frame, Root.internal_add_frame,
      Root.update_style, Root.get_capsule, capAt, Root.set_dirty, set_dirty_walk,
      dirtyInsert, Space.zero, Space.with_width, Space.with_height]
  have hsp2 : (fitScene.setSpace 1 (some ⟨0, 0, some 100, some 20⟩)).spaces[1]? =
      some (some ⟨0, 0, some 100, some 20⟩) := by
    simp only [Root.setSpace]
    exact List.getElem?_set_eq_of_lt _ hlen
  have h2 := fit_leaf_round_trip 0 (fitScene.setSpace 1 (some ⟨0, 0, some 100, some 20⟩))
    ⟨0, 0⟩ ⟨1, none, 0, none, []⟩
    { Style.default with
        width := SizeSpec.Fit, height := SizeSpec.Fit,
        intrinsic_width := some 100, intrinsic_height := some 20 }
    ⟨0, 0, some 100, some 20⟩ 100 20
    (by simpa [Root.get_capsule, capAt, Root.setSpace] using evalcap)
    (by simpa [Root.setSpace] using evalstyle)
    rfl rfl rfl rfl rfl rfl rfl rfl hsp2
  exact ⟨h1.1, h2.2 5 6 999 888 ⟨0, 0, some 100, some 20⟩ rfl rfl hsp2⟩

/-! ### Write locality of the layout passes -/

/-- Over-approximation of the space indices a pass may write below a
node: the node's own `space_ref` and, recursively, those of its
children, to the given depth. -/
def reachRefs : Nat → List CapsuleSlot → CapsuleRef → List Nat
  | 0, _, _ => []
  | fuel + 1, capsules, ref =>
    match capAt capsules ref with
    | none => []
    | some cap =>
      cap.space_ref :: (cap.children.map (fun c => reachRefs fuel capsules c)).flatten

theorem reachRefs_head (fuel : Nat) (capsules : List CapsuleSlot)
    (ref : CapsuleRef) (cap : Capsule) (h : capAt capsules ref = some cap) :
    cap.space_ref ∈ reachRefs (fuel + 1) capsules ref := by
  rw [reachRefs, h]
  exact List.mem_cons_self _ _

theorem reachRefs_child (fuel : Nat) (capsules : List CapsuleSlot)
    (ref c : CapsuleRef) (cap : Capsule) (h : capAt capsules ref = some cap)
    (hc : c ∈ cap.children) :
    ∀ j ∈ reachRefs fuel capsules c, j ∈ reachRefs (fuel + 1) capsules ref := by
  intro j hj
  rw [reachRefs, h]
  refine List.mem_cons_of_mem _ (List.mem_flatten.mpr ⟨reachRefs fuel capsules c, ?_, hj⟩)
  exact List.mem_map.mpr ⟨c, hc, rfl⟩

theorem reachRefs_live (fuel : Nat) (capsules : List CapsuleSlot) :
    ∀ (ref : CapsuleRef) (j : Nat), j ∈ reachRefs fuel capsules ref →
      ∃ slot ∈ capsules, ∃ cap, slot.capsule = some cap ∧ cap.space_ref = j := by
  induction fuel with
  | zero => intro ref j hj; simp [reachRefs] at hj
  | succ fuel ih =>
    intro ref j hj
    rw [reachRefs] at hj
    cases hcap : capAt capsules ref with
    | none => rw [hcap] at hj; simp at hj
    | some cap =>
      rw [hcap] at hj
      rcases List.mem_cons.mp hj with rfl | hj
      · unfold capAt at hcap
        cases hsl : capsules[ref.id]? with
        | none => rw [hsl] at hcap; exact absurd hcap (by simp)
        | some slot =>
          rw [hsl] at hcap
          dsimp only at hcap
          by_cases hg : slot.generation = ref.generation
          · rw [if_pos hg] at hcap
            exact ⟨slot, List.getElem?_mem hsl, cap, hcap, rfl⟩
          · rw [if_neg hg] at hcap; exact absurd hcap (by simp)
      · obtain ⟨l, hl, hjl⟩ := List.mem_flatten.mp hj
        obtain ⟨c, _, rfl⟩ := List.mem_map.mp hl
        exact ih c j hjl

/-- Pass 1 only writes space entries inside `reachRefs`. -/
theorem pass1_frame :
    ∀ (fuel : Nat) (root : Root) (ref : CapsuleRef) (out : Root × Nat × Nat),
      Root.compute_pass_1_measure fuel root ref = some out →
      ∀ j, j ∉ reachRefs fuel root.capsules ref →
        out.1.spaces[j]? = root.spaces[j]? := by
  intro fuel
  induction fuel with
  | zero => intro root ref out h; simp [Root.compute_pass_1_measure] at h
  | succ fuel ih =>
    intro root ref out h j hj
    rw [Root.compute_pass_1_measure] at h
    cases hcs : root.capStyle ref with
    | none =>
      rw [hcs] at h
      simp only [Option.some.injEq] at h
      rw [← h]
    | some pr =>
      obtain ⟨capsule, style⟩ := pr
      rw [hcs] at h
      try dsimp only at h
      have hcap : capAt root.capsules ref = some capsule := by
        unfold Root.capStyle at hcs
        cases hg : root.get_capsule ref with
        | none => rw [hg] at hcs; exact absurd hcs (by simp)
        | some cap0 =>
          rw [hg] at hcs
          dsimp only at hcs
          cases hst : root.styles[cap0.style_ref]? with
          | none => rw [hst] at hcs; exact absurd hcs (by simp)
          | some os =>
            cases os with
            | none => rw [hst] at hcs; exact absurd hcs (by simp)
            | some st0 =>
              rw [hst] at hcs
              simp only [Option.some.injEq, Prod.mk.injEq] at hcs
              exact hcs.1 ▸ hg
      have hhead : j ≠ capsule.space_ref := by
        intro hne
        exact hj (hne ▸ reachRefs_head fuel root.capsules ref capsule hcap)
      have hstep : ∀ (c : CapsuleRef), c ∈ capsule.children →
          ∀ (s s' : Root × List (Nat × Nat × Margin)),
          s.1.capsules = root.capsules →
          measure_child (Root.compute_pass_1_measure fuel) c s = some s' →
          s'.1.capsules = root.capsules ∧ s'.1.spaces[j]? = s.1.spaces[j]? := by
        intro c hcmem s s' hsc hst
        simp only [measure_child] at hst
        cases hcs' : s.1.capStyle c with
        | none =>
          rw [hcs'] at hst
          simp only [Option.some.injEq] at hst
          exact ⟨hst ▸ hsc, by rw [← hst]⟩
        | some pr' =>
          obtain ⟨cap', style'⟩ := pr'
          rw [hcs'] at hst
          try dsimp only at hst
          cases hp1 : Root.compute_pass_1_measure fuel s.1 c with
          | none => rw [hp1] at hst; exact absurd hst (by simp)
          | some out' =>
            obtain ⟨r', cw, ch⟩ := out'
            rw [hp1] at hst
            try dsimp only at hst
            have hsk := pass1_skeleton fuel s.1 c (r', cw, ch) hp1
            have hloc := ih s.1 c (r', cw, ch) hp1 j
              (by rw [hsc]
                  intro hmem
                  exact hj (reachRefs_child fuel root.capsules ref c capsule hcap hcmem j hmem))
            have hout : s'.1 = r' := by
              by_cases hpos : style'.position = Position.Auto <;>
                simp only [hpos, reduceIte, Option.some.injEq] at hst <;>
                exact hst ▸ rfl
            exact ⟨hout ▸ (hsk.1.trans hsc), hout ▸ hloc⟩
      have hfold : ∀ (cs : List CapsuleRef), (∀ c ∈ cs, c ∈ capsule.children) →
          ∀ (s s' : Root × List (Nat × Nat × Margin)),
          s.1.capsules = root.capsules →
          forChildren (measure_child (Root.compute_pass_1_measure fuel)) cs s = some s' →
          s'.1.capsules = root.capsules ∧ s'.1.spaces[j]? = s.1.spaces[j]? := by
        intro cs
        induction cs with
        | nil =>
          intro _ s s' hsc hfc
          simp only [forChildren, Option.some.injEq] at hfc
          exact ⟨hfc ▸ hsc, by rw [← hfc]⟩
        | cons c cs ihc =>
          intro hmem s s' hsc hfc
          simp only [forChildren] at hfc
          cases hc1 : measure_child (Root.compute_pass_1_measure fuel) c s with
          | none => rw [hc1] at hfc; exact absurd hfc (by simp)
          | some s1 =>
            rw [hc1] at hfc
            have h1 := hstep c (hmem c (List.mem_cons_self _ _)) s s1 hsc hc1
            have h2 := ihc (fun x hx => hmem x (List.mem_cons_of_mem _ hx)) s1 s' h1.1 hfc
            exact ⟨h2.1, h2.2.trans h1.2⟩
      cases hfc : forChildren (measure_child (Root.compute_pass_1_measure fuel))
          capsule.children (root, ([] : List (Nat × Nat × Margin))) with
      | none => rw [hfc] at h; exact absurd h (by simp)
      | some st =>
        obtain ⟨stR, stL⟩ := st
        have hmid := hfold capsule.children (fun _ hx => hx) (root, []) (stR, stL) rfl hfc
        rw [hfc] at h
        try dsimp only at h
        cases hsp : stR.spaces[capsule.space_ref]? with
        | none =>
          rw [hsp] at h
          simp only [Option.some.injEq] at h
          rw [← h]
          exact hmid.2
        | some osp =>
          cases osp with
          | none =>
            rw [hsp] at h
            simp only [Option.some.injEq] at h
            rw [← h]
            exact hmid.2
          | some space =>
            rw [hsp] at h
            simp only [Option.some.injEq] at h
            rw [← h]
            dsimp only [Root.setSpace]
            rw [List.getElem?_set_ne (by omega)]
            exact hmid.2

theorem capStyle_parts (root : Root) (ref : CapsuleRef) (cap : Capsule)
    (style : Style) (h : root.capStyle ref = some (cap, style)) :
    capAt root.capsules ref = some cap ∧
    root.styles[cap.style_ref]? = some (some style) := by
  unfold Root.capStyle at h
  cases hg : root.get_capsule ref with
  | none => rw [hg] at h; exact absurd h (by simp)
  | some cap0 =>
    rw [hg] at h
    dsimp only at h
    cases hst : root.styles[cap0.style_ref]? with
    | none => rw [hst] at h; exact absurd h (by simp)
    | some os =>
      cases os with
      | none => rw [hst] at h; exact absurd h (by simp)
      | some st0 =>
        rw [hst] at h
        simp only [Option.some.injEq, Prod.mk.injEq] at h
        obtain ⟨h1, h2⟩ := h
        subst h1; subst h2
        exact ⟨hg, hst⟩

theorem capStyleSpace_parts (root : Root) (ref : CapsuleRef) (cap : Capsule)
    (style : Style) (space : Space)
    (h : root.capStyleSpace ref = some (cap, style, space)) :
    capAt root.capsules ref = some cap ∧
    root.styles[cap.style_ref]? = some (some style) ∧
    root.spaces[cap.space_ref]? = some (some space) := by
  unfold Root.capStyleSpace at h
  cases hcs : root.capStyle ref with
  | none => rw [hcs] at h; exact absurd h (by simp)
  | some pr =>
    obtain ⟨cap0, style0⟩ := pr
    rw [hcs] at h
    dsimp only at h
    cases hsp : root.spaces[cap0.space_ref]? with
    | none => rw [hsp] at h; exact absurd h (by simp)
    | some os =>
      cases os with
      | none => rw [hsp] at h; exact absurd h (by simp)
      | some sp0 =>
        rw [hsp] at h
        simp only [Option.some.injEq, Prod.mk.injEq] at h
        obtain ⟨h1, h2, h3⟩ := h
        subst h1; subst h2; subst h3
        have hp := capStyle_parts root ref _ _ hcs
        exact ⟨hp.1, hp.2, hsp⟩

theorem pass2_zero (root : Root) (ref : CapsuleRef) (gx gy : Int) (gw gh : Nat) :
    Root.compute_pass_2_layout 0 root ref gx gy gw gh = none := rfl

/-- Pass 2 only writes space entries inside `reachRefs`. -/
theorem pass2_frame :
    ∀ (fuel : Nat) (root : Root) (ref : CapsuleRef) (gx gy : Int) (gw gh : Nat)
      (out : Root),
      Root.compute_pass_2_layout fuel root ref gx gy gw gh = some out →
      ∀ j, j ∉ reachRefs fuel root.capsules ref → out.spaces[j]? = root.spaces[j]? := by
  intro fuel
  induction fuel with
  | zero => intro root ref gx gy gw gh out h; simp [Root.compute_pass_2_layout] at h
  | succ fuel ih =>
    intro root ref gx gy gw gh out h j hj
    rw [Root.compute_pass_2_layout] at h
    cases hcs : root.capStyle ref with
    | none =>
      rw [hcs] at h
      simp only [Option.some.injEq] at h
      rw [← h]
    | some pr =>
      obtain ⟨capsule, style⟩ := pr
      rw [hcs] at h
      try dsimp only at h
      have hcap : capAt root.capsules ref = some capsule :=
        (capStyle_parts root ref capsule style hcs).1
      have hhead : j ≠ capsule.space_ref := by
        intro hne
        exact hj (hne ▸ reachRefs_head fuel root.capsules ref capsule hcap)
      cases hsp : root.spaces[capsule.space_ref]? with
      | none =>
        rw [hsp] at h
        simp only [Option.some.injEq] at h
        rw [← h]
      | some osp =>
        cases osp with
        | none =>
          rw [hsp] at h
          simp only [Option.some.injEq] at h
          rw [← h]
        | some space =>
          rw [hsp] at h
          try dsimp only at h
          cases hw : space.width with
          | none => rw [hw] at h; exact absurd h (by simp)
          | some desired_w =>
          cases hh : space.height with
          | none => rw [hw, hh] at h; exact absurd h (by simp)
          | some desired_h =>
          rw [hw, hh] at h
          try dsimp only at h
          have hstep : ∀ c ∈ capsule.children,
              ∀ (cx cy : Int) (cw ch : Nat)
                (rw_ rh_ gw_ gh_ sw_ sh_ : ℚ) (s s' : Root × Int × Int),
              s.1.capsules = root.capsules →
              arrange_child (Root.compute_pass_2_layout fuel) style cx cy cw ch
                rw_ rh_ gw_ gh_ sw_ sh_ c s = some s' →
              s'.1.capsules = root.capsules ∧ s'.1.spaces[j]? = s.1.spaces[j]? := by
            intro c hcmem cx cy cw ch rw_ rh_ gw_ gh_ sw_ sh_ s s' hsc hac
            have hjc : j ∉ reachRefs fuel s.1.capsules c := by
              rw [hsc]
              intro hmem
              exact hj (reachRefs_child fuel root.capsules ref c capsule hcap hcmem j hmem)
            simp only [arrange_child] at hac
            cases hcss : s.1.capStyleSpace c with
            | none =>
              rw [hcss] at hac
              simp only [Option.some.injEq] at hac
              exact ⟨hac ▸ hsc, by rw [← hac]⟩
            | some tr =>
              obtain ⟨ccap, cstyle, cspace⟩ := tr
              rw [hcss] at hac
              try dsimp only at hac
              have hccap : capAt s.1.capsules c = some ccap :=
                (capStyleSpace_parts s.1 c ccap cstyle cspace hcss).1
              cases hww : cspace.width with
              | none => rw [hww] at hac; exact absurd hac (by simp)
              | some cdw =>
              cases hhh : cspace.height with
              | none => rw [hww, hhh] at hac; exact absurd hac (by simp)
              | some cdh =>
              rw [hww, hhh] at hac
              try dsimp only at hac
              cases hpos : cstyle.position with
              | Fixed px py =>
                rw [hpos] at hac
                try dsimp only at hac
                cases hp : Root.compute_pass_2_layout fuel s.1 c cx cy cw ch with
                | none => rw [hp] at hac; exact absurd hac (by simp)
                | some r' =>
                  rw [hp] at hac
                  simp only [Option.some.injEq] at hac
                  have hsk := pass2_skeleton fuel s.1 c cx cy cw ch r' hp
                  have hloc := ih s.1 c cx cy cw ch r' hp j hjc
                  exact ⟨hac ▸ (hsk.1.trans hsc), hac ▸ hloc⟩
              | Auto =>
                rw [hpos] at hac
                try dsimp only at hac
                cases fuel with
                | zero =>
                  rw [pass2_zero] at hac
                  exact absurd hac (by simp)
                | succ f =>
                  generalize hg4 : (match style.layout with
                    | LayoutStrategy.Flex => match style.flow with
                      | Direction.Row =>
                        (s.2.1 + (cstyle.margin.left : Int), s.2.2 + (cstyle.margin.top : Int),
                         (match cstyle.width with
                          | SizeSpec.Percent _ => cw
                          | _ => f2u (flex_final (cdw : ℚ) rw_ gw_ sw_ cstyle.flex_grow cstyle.flex_shrink)),
                         ch - ((cstyle.margin.top : Int) + (cstyle.margin.bottom : Int)).toNat)
                      | Direction.Column =>
                        (s.2.1 + (cstyle.margin.left : Int), s.2.2 + (cstyle.margin.top : Int),
                         cw - ((cstyle.margin.left : Int) + (cstyle.margin.right : Int)).toNat,
                         (match cstyle.height with
                          | SizeSpec.Percent _ => ch
                          | _ => f2u (flex_final (cdh : ℚ) rh_ gh_ sh_ cstyle.flex_grow cstyle.flex_shrink)))
                    | _ => (s.2.1, s.2.2, cw, cdh) : Int × Int × Nat × Nat) = g4 at hac
                  cases hp : Root.compute_pass_2_layout (f + 1) s.1 c g4.1 g4.2.1 g4.2.2.1 g4.2.2.2 with
                  | none => rw [hp] at hac; exact absurd hac (by simp)
                  | some r' =>
                    rw [hp] at hac
                    try dsimp only at hac
                    have hsk := pass2_skeleton (f + 1) s.1 c _ _ _ _ r' hp
                    have hloc := ih s.1 c _ _ _ _ r' hp j hjc
                    have hjr : j ≠ ccap.space_ref := by
                      intro hne
                      exact hjc (hne ▸ reachRefs_head f s.1.capsules c ccap hccap)
                    cases hsp' : r'.spaces[ccap.space_ref]? with
                    | none =>
                      rw [hsp'] at hac
                      simp only [Option.some.injEq] at hac
                      exact ⟨hac ▸ (hsk.1.trans hsc), hac ▸ hloc⟩
                    | some osp' =>
                      cases osp' with
                      | none =>
                        rw [hsp'] at hac
                        simp only [Option.some.injEq] at hac
                        exact ⟨hac ▸ (hsk.1.trans hsc), hac ▸ hloc⟩
                      | some sp0 =>
                        rw [hsp'] at hac
                        try dsimp only at hac
                        generalize cross_override style cstyle cw ch sp0 = sp2 at hac
                        have hfin : ∀ q : Root × Int × Int,
                            q.1 = r'.setSpace ccap.space_ref (some sp2) →
                            q.1.capsules = root.capsules ∧
                            q.1.spaces[j]? = s.1.spaces[j]? := by
                          intro q hq
                          constructor
                          · rw [hq]
                            dsimp only [Root.setSpace]
                            exact hsk.1.trans hsc
                          · rw [hq]
                            dsimp only [Root.setSpace]
                            rw [List.getElem?_set_ne (by omega)]
                            exact hloc
                        cases hlay : style.layout with
                        | Flex =>
                          rw [hlay] at hac
                          try dsimp only at hac
                          cases hfw : sp2.width with
                          | none => rw [hfw] at hac; exact absurd hac (by simp)
                          | some fw =>
                          cases hfh : sp2.height with
                          | none => rw [hfw, hfh] at hac; exact absurd hac (by simp)
                          | some fh =>
                          rw [hfw, hfh] at hac
                          try dsimp only at hac
                          cases hflow : style.flow with
                          | Row =>
                            rw [hflow] at hac
                            simp only [Option.some.injEq] at hac
                            exact hfin s' (by rw [← hac])
                          | Column =>
                            rw [hflow] at hac
                            simp only [Option.some.injEq] at hac
                            exact hfin s' (by rw [← hac])
                        | NoStrategy =>
                          rw [hlay] at hac
                          simp only [Option.some.injEq] at hac
                          exact hfin s' (by rw [← hac])
                        | Grid =>
                          rw [hlay] at hac
                          simp only [Option.some.injEq] at hac
                          exact hfin s' (by rw [← hac])
          generalize hroot1 : root.setSpace capsule.space_ref
            (some ⟨(match style.position with
                    | Position.Auto => (gx, gy)
                    | Position.Fixed x y => (gx + (x : Int), gy + (y : Int))).1,
                   (match style.position with
                    | Position.Auto => (gx, gy)
                    | Position.Fixed x y => (gx + (x : Int), gy + (y : Int))).2,
                   some ((style.width.resolve_size gw).getD desired_w),
                   some ((style.height.resolve_size gh).getD desired_h)⟩) = root1 at h
          have hroot1caps : root1.capsules = root.capsules := by
            rw [← hroot1]; rfl
          have hroot1j : root1.spaces[j]? = root.spaces[j]? := by
            rw [← hroot1]
            dsimp only [Root.setSpace]
            rw [List.getElem?_set_ne (by omega)]
          cases hpp : flexPrepass root1 style capsule.children PrePass.init with
          | none => rw [hpp] at h; exact absurd h (by simp)
          | some pp =>
            rw [hpp] at h
            try dsimp only at h
            have hfold : ∀ (cs : List CapsuleRef), (∀ c ∈ cs, c ∈ capsule.children) →
                ∀ {cx cy : Int} {cw ch : Nat} {rw_ rh_ gw_ gh_ sw_ sh_ : ℚ}
                  (s s' : Root × Int × Int),
                s.1.capsules = root.capsules →
                forChildren (arrange_child (Root.compute_pass_2_layout fuel) style
                    cx cy cw ch rw_ rh_ gw_ gh_ sw_ sh_) cs s = some s' →
                s'.1.capsules = root.capsules ∧ s'.1.spaces[j]? = s.1.spaces[j]? := by
              intro cs
              induction cs with
              | nil =>
                intro _ cx cy cw ch rw_ rh_ gw_ gh_ sw_ sh_ s s' hsc hfc
                simp only [forChildren, Option.some.injEq] at hfc
                exact ⟨hfc ▸ hsc, by rw [← hfc]⟩
              | cons c cs ihc =>
                intro hmem cx cy cw ch rw_ rh_ gw_ gh_ sw_ sh_ s s' hsc hfc
                simp only [forChildren] at hfc
                cases hc1 : arrange_child (Root.compute_pass_2_layout fuel) style
                    cx cy cw ch rw_ rh_ gw_ gh_ sw_ sh_ c s with
                | none => rw [hc1] at hfc; exact absurd hfc (by simp)
                | some s1 =>
                  rw [hc1] at hfc
                  have h1 := hstep c (hmem c (List.mem_cons_self _ _)) _ _ _ _
                    _ _ _ _ _ _ s s1 hsc hc1
                  have h2 := ihc (fun x hx => hmem x (List.mem_cons_of_mem _ hx)) s1 s' h1.1 hfc
                  exact ⟨h2.1, h2.2.trans h1.2⟩
            split at h
            · exact absurd h (by simp)
            · rename_i st heq
              simp only [Option.some.injEq] at h
              have hmid := hfold capsule.children (fun _ hx => hx) _ st
                hroot1caps heq
              rw [← h]
              exact hmid.2.trans hroot1j

/-! ### Slot 0 of the space store is reserved and never recycled (C10) -/

/-- No live capsule points at space slot 0. -/
def NoZeroSpaceRef (root : Root) : Prop :=
  ∀ slot ∈ root.capsules, ∀ cap, slot.capsule = some cap → cap.space_ref ≠ 0

/-- The reserved root space is present. -/
def RootSpaceOk (root : Root) : Prop :=
  ∃ s, root.spaces.head? = some (some s)

/-- The C10 invariant. -/
def SlotZeroInv (root : Root) : Prop := RootSpaceOk root ∧ NoZeroSpaceRef root

theorem set_dirty_walk_eqs :
    ∀ (fuel : Nat) (r : Root) (oc : Option Capsule),
      (set_dirty_walk fuel r oc).capsules = r.capsules ∧
      (set_dirty_walk fuel r oc).spaces = r.spaces ∧
      (set_dirty_walk fuel r oc).styles = r.styles ∧
      (set_dirty_walk fuel r oc).allocator = r.allocator ∧
      (set_dirty_walk fuel r oc).capsule_free_list = r.capsule_free_list := by
  intro fuel
  induction fuel with
  | zero => intro r oc; exact ⟨rfl, rfl, rfl, rfl, rfl⟩
  | succ f ihf =>
    intro r oc
    cases oc with
    | none => exact ⟨rfl, rfl, rfl, rfl, rfl⟩
    | some c =>
      simp only [set_dirty_walk]
      cases hp : c.parent_ref with
      | none => exact ⟨rfl, rfl, rfl, rfl, rfl⟩
      | some pr =>
        dsimp only
        by_cases hin : pr ∈ r.dirties <;>
          simp [dirtyInsert, hin, ihf]

theorem set_dirty_eqs (root : Root) (ref : CapsuleRef) :
    (root.set_dirty ref).capsules = root.capsules ∧
    (root.set_dirty ref).spaces = root.spaces ∧
    (root.set_dirty ref).styles = root.styles ∧
    (root.set_dirty ref).allocator = root.allocator ∧
    (root.set_dirty ref).capsule_free_list = root.capsule_free_list := by
  unfold Root.set_dirty
  by_cases hin : ref ∈ root.dirties <;>
    simp [dirtyInsert, hin, set_dirty_walk_eqs]

theorem head?_set_ne {α : Type} (l : List α) (i : Nat) (v : α) (h : i ≠ 0) :
    (l.set i v).head? = l.head? := by
  cases l with
  | nil => simp
  | cons a l =>
    cases i with
    | zero => exact absurd rfl h
    | succ n => simp [List.set]

theorem modifyCapsule_caps (root : Root) (ref : CapsuleRef) (f : Capsule → Capsule)
    (hf : ∀ c, (f c).space_ref = c.space_ref)
    (h : NoZeroSpaceRef root) : NoZeroSpaceRef (root.modifyCapsule ref f) ∧
    (root.modifyCapsule ref f).spaces = root.spaces := by
  unfold Root.modifyCapsule
  cases hc : root.capsules[ref.id]? with
  | none => exact ⟨h, rfl⟩
  | some slot =>
    dsimp only
    by_cases hg : slot.generation = ref.generation
    · rw [if_pos hg]
      cases hcap : slot.capsule with
      | none => exact ⟨h, rfl⟩
      | some c =>
        refine ⟨?_, rfl⟩
        intro slot' hmem cap' hcap'
        rcases List.mem_or_eq_of_mem_set hmem with hmem' | rfl
        · exact h slot' hmem' cap' hcap'
        · simp only [Option.some.injEq] at hcap'
          rw [← hcap', hf]
          exact h slot (List.getElem?_mem hc) c hcap
    · rw [if_neg hg]; exact ⟨h, rfl⟩

theorem head?_append_some {α : Type} (l l2 : List α) (s : α)
    (h : l.head? = some s) : (l ++ l2).head? = some s := by
  cases l <;> simp_all

theorem slotZero_new (w h : Nat) : SlotZeroInv (Root.new w h) := by
  constructor
  · exact ⟨_, rfl⟩
  · intro slot hmem
    simp [Root.new] at hmem

theorem slotZero_internal_add (root : Root) (parent_ref : Option CapsuleRef)
    (data : Option Nat) (hinv : SlotZeroInv root) :
    SlotZeroInv (root.internal_add_frame parent_ref data).1 := by
  obtain ⟨⟨s0, hs0⟩, hnz⟩ := hinv
  have hlen : 0 < root.spaces.length := by
    cases hsp : root.spaces with
    | nil => rw [hsp] at hs0; simp at hs0
    | cons a t => simp [hsp]
  have hzmod : ∀ (r1 : Root), SlotZeroInv r1 →
      ∀ (pref : CapsuleRef) (nr : CapsuleRef),
      SlotZeroInv (r1.modifyCapsule pref
        (fun c => { c with children := c.children ++ [nr] })) := by
    intro r1 h1 pref nr
    have hm := modifyCapsule_caps r1 pref
      (fun c => { c with children := c.children ++ [nr] }) (fun c => rfl) h1.2
    refine ⟨?_, hm.1⟩
    obtain ⟨s1, hs1⟩ := h1.1
    exact ⟨s1, hm.2 ▸ hs1⟩
  unfold Root.internal_add_frame
  dsimp only
  cases hfl : root.capsule_free_list with
  | cons recycled_id rest =>
    dsimp only
    have hR : SlotZeroInv
        { root with
          spaces := root.spaces ++ [some Space.zero]
          styles := root.styles ++ [some Style.default]
          capsules := root.capsules.set recycled_id
            ⟨some ⟨root.spaces.length, parent_ref, root.styles.length, data, []⟩,
             ((root.capsules[recycled_id]?).map CapsuleSlot.generation).getD 0⟩
          capsule_free_list := rest } := by
      constructor
      · exact ⟨s0, head?_append_some _ _ _ hs0⟩
      · intro slot hmem cap hcap
        rcases List.mem_or_eq_of_mem_set hmem with hmem' | rfl
        · exact hnz slot hmem' cap hcap
        · simp only [Option.some.injEq] at hcap
          subst hcap
          show root.spaces.length ≠ 0
          omega
    cases parent_ref with
    | none => exact hR
    | some pref => exact hzmod _ hR pref _
  | nil =>
    dsimp only
    have hR : SlotZeroInv
        { root with
          spaces := root.spaces ++ [some Space.zero]
          styles := root.styles ++ [some Style.default]
          capsules := root.capsules ++
            [⟨some ⟨root.spaces.length, parent_ref, root.styles.length, data, []⟩, 0⟩]
          capsule_free_list := [] } := by
      constructor
      · exact ⟨s0, head?_append_some _ _ _ hs0⟩
      · intro slot hmem cap hcap
        rcases List.mem_append.mp hmem with hmem' | hmem'
        · exact hnz slot hmem' cap hcap
        · simp only [List.mem_singleton] at hmem'
          rw [hmem'] at hcap
          simp only [Option.some.injEq] at hcap
          subst hcap
          show root.spaces.length ≠ 0
          omega
    cases parent_ref with
    | none => exact hR
    | some pref => exact hzmod _ hR pref _

theorem slotZeroInv_congr (a b : Root) (hc : b.capsules = a.capsules)
    (hs : b.spaces = a.spaces) (h : SlotZeroInv a) : SlotZeroInv b := by
  obtain ⟨⟨s0, hs0⟩, hnz⟩ := h
  refine ⟨⟨s0, hs ▸ hs0⟩, ?_⟩
  intro slot hmem cap hcap
  exact hnz slot (hc ▸ hmem) cap hcap

theorem slotZeroInv_modify (r : Root) (ref : CapsuleRef) (f : Capsule → Capsule)
    (hf : ∀ c, (f c).space_ref = c.space_ref) (h : SlotZeroInv r) :
    SlotZeroInv (r.modifyCapsule ref f) := by
  have hm := modifyCapsule_caps r ref f hf h.2
  obtain ⟨s0, hs0⟩ := h.1
  exact ⟨⟨s0, by rw [hm.2]; exact hs0⟩, hm.1⟩

theorem slotZeroInv_set_dirty (r : Root) (ref : CapsuleRef) (h : SlotZeroInv r) :
    SlotZeroInv (r.set_dirty ref) := by
  have he := set_dirty_eqs r ref
  exact slotZeroInv_congr r _ he.1 he.2.1 h

theorem slotZero_update_style (root : Root) (fr : Frame) (g : Style → Style)
    (h : SlotZeroInv root) : SlotZeroInv (root.update_style fr g) := by
  unfold Root.update_style
  cases hc : root.get_capsule fr.capsule_ref with
  | none => exact h
  | some cap =>
    dsimp only
    cases hst : root.styles[cap.style_ref]? with
    | none => exact h
    | some os =>
      cases os with
      | none => exact h
      | some style =>
        exact slotZeroInv_set_dirty _ _ (slotZeroInv_congr root _ rfl rfl h)

theorem slotZero_set_parent (root : Root) (child_frame new_parent_frame : Frame)
    (h : SlotZeroInv root) : SlotZeroInv (root.set_parent child_frame new_parent_frame) := by
  unfold Root.set_parent
  dsimp only
  split
  · exact slotZeroInv_set_dirty _ _ (slotZeroInv_modify _ _ _ (fun c => rfl)
      (slotZeroInv_modify _ _ _ (fun c => rfl)
        (slotZeroInv_set_dirty _ _ (slotZeroInv_modify _ _ _ (fun c => rfl) h))))
  · exact slotZeroInv_set_dirty _ _ (slotZeroInv_modify _ _ _ (fun c => rfl)
      (slotZeroInv_modify _ _ _ (fun c => rfl) h))

theorem slotZero_resize (root : Root) (w h : Nat) (hinv : SlotZeroInv root) :
    ∃ root', root.resize w h = some root' ∧ SlotZeroInv root' := by
  obtain ⟨⟨s0, hs0⟩, hnz⟩ := hinv
  obtain ⟨rest, hsp⟩ : ∃ rest, root.spaces = some s0 :: rest := by
    cases hl : root.spaces with
    | nil => rw [hl] at hs0; exact absurd hs0 (by simp)
    | cons a t =>
      rw [hl] at hs0
      simp only [List.head?_cons, Option.some.injEq] at hs0
      exact ⟨t, by rw [hs0]⟩
  unfold Root.resize
  rw [hsp]
  dsimp only
  refine ⟨_, rfl, ?_⟩
  have hbase : SlotZeroInv
      { root with spaces := some { s0 with width := some w, height := some h } :: rest } := by
    refine ⟨⟨_, rfl⟩, ?_⟩
    intro slot hmem cap hcap
    exact hnz slot hmem cap hcap
  generalize hbase' : ({ root with
    spaces := some { s0 with width := some w, height := some h } :: rest } : Root) = base at hbase ⊢
  generalize (Root.top_level_refs base) = tops
  clear hbase' hsp hs0
  induction tops generalizing base with
  | nil => exact hbase
  | cons t ts ih =>
    simp only [List.foldl_cons]
    exact ih _ (slotZeroInv_set_dirty _ _ hbase)

theorem slotZero_unbind (root : Root) (ref : CapsuleRef) (h : SlotZeroInv root) :
    SlotZeroInv (root.unbind_data ref).1 := by
  unfold Root.unbind_data
  cases hc : root.get_capsule ref with
  | none => exact h
  | some cap =>
    dsimp only
    cases hd : cap.data_ref with
    | none => exact h
    | some d =>
      dsimp only
      have hm := slotZeroInv_modify root ref (fun c => { c with data_ref := none })
        (fun c => rfl) h
      exact slotZeroInv_congr _ _ rfl rfl hm

theorem slotZero_remove :
    ∀ (fuel : Nat) (root : Root) (ref : CapsuleRef) (out : Root),
      Root.remove_frame fuel root ref = some out →
      SlotZeroInv root → SlotZeroInv out := by
  intro fuel
  induction fuel with
  | zero => intro root ref out h; simp [Root.remove_frame] at h
  | succ fuel ih =>
    intro root ref out h hinv
    rw [Root.remove_frame] at h
    cases hc : root.get_capsule ref with
    | none =>
      rw [hc] at h
      simp only [Option.some.injEq] at h
      exact h ▸ hinv
    | some capsule =>
      rw [hc] at h
      try dsimp only at h
      have hzref : capsule.space_ref ≠ 0 := by
        unfold Root.get_capsule capAt at hc
        cases hsl : root.capsules[ref.id]? with
        | none => rw [hsl] at hc; exact absurd hc (by simp)
        | some slot =>
          rw [hsl] at hc
          dsimp only at hc
          by_cases hg : slot.generation = ref.generation
          · rw [if_pos hg] at hc
            exact hinv.2 slot (List.getElem?_mem hsl) capsule hc
          · rw [if_neg hg] at hc; exact absurd hc (by simp)
      have hub : SlotZeroInv (root.unbind_data ref).1 := slotZero_unbind root ref hinv
      cases hfc : forChildren (fun c r => Root.remove_frame fuel r c)
          capsule.children (root.unbind_data ref).1 with
      | none => rw [hfc] at h; exact absurd h (by simp)
      | some root2 =>
        rw [hfc] at h
        try dsimp only at h
        have hr2 : SlotZeroInv root2 := by
          refine forChildren_rel (σ := Root)
            (P := fun a b => SlotZeroInv a → SlotZeroInv b)
            (fun s hs => hs) (fun a b c h₁ h₂ ha => h₂ (h₁ ha))
            ?_ capsule.children _ _ hfc hub
          intro c s s' hs
          exact fun hsa => ih s c s' hs hsa
        have hr3 : SlotZeroInv
            (match capsule.parent_ref with
             | some parent_ref =>
               match root2.get_capsule parent_ref with
               | some _ =>
                 (root2.modifyCapsule parent_ref
                   (fun c => { c with children :=
                     c.children.filter (fun x => x ≠ ref) })).set_dirty parent_ref
               | none => root2
             | none => root2) := by
          cases capsule.parent_ref with
          | none => exact hr2
          | some parent_ref =>
            dsimp only
            cases root2.get_capsule parent_ref with
            | none => exact hr2
            | some pcap =>
              exact slotZeroInv_set_dirty _ _
                (slotZeroInv_modify _ _ _ (fun c => rfl) hr2)
        generalize hroot3 : (match capsule.parent_ref with
             | some parent_ref =>
               match root2.get_capsule parent_ref with
               | some _ =>
                 (root2.modifyCapsule parent_ref
                   (fun c => { c with children :=
                     c.children.filter (fun x => x ≠ ref) })).set_dirty parent_ref
               | none => root2
             | none => root2) = root3 at h hr3
        have hr4 : SlotZeroInv
            { root3 with
              spaces := root3.spaces.set capsule.space_ref none
              styles := root3.styles.set capsule.style_ref none
              dirties := root3.dirties.erase ref } := by
          obtain ⟨⟨s3, hs3⟩, hnz3⟩ := hr3
          refine ⟨⟨s3, ?_⟩, ?_⟩
          · show (root3.spaces.set capsule.space_ref none).head? = some (some s3)
            rw [head?_set_ne _ _ _ hzref]
            exact hs3
          · intro slot hmem cap hcap
            exact hnz3 slot hmem cap hcap
        try dsimp only at h
        cases hsl4 : root3.capsules[ref.id]? with
        | none =>
          rw [hsl4] at h
          simp only [Option.some.injEq] at h
          exact h ▸ hr4
        | some slot4 =>
          rw [hsl4] at h
          simp only [Option.some.injEq] at h
          rw [← h]
          obtain ⟨⟨s4, hs4⟩, hnz4⟩ := hr4
          refine ⟨⟨s4, hs4⟩, ?_⟩
          intro slot hmem cap hcap
          rcases List.mem_or_eq_of_mem_set hmem with hmem' | rfl
          · exact hnz4 slot hmem' cap hcap
          · exact absurd hcap (by simp)

theorem zero_not_reach (fuel : Nat) (capsules : List CapsuleSlot) (c : CapsuleRef)
    (hnz : ∀ slot ∈ capsules, ∀ cap, slot.capsule = some cap → cap.space_ref ≠ 0) :
    0 ∉ reachRefs fuel capsules c := by
  intro hmem
  obtain ⟨slot, hsl, cap, hcap, hz⟩ := reachRefs_live fuel capsules c 0 hmem
  exact hnz slot hsl cap hcap hz

theorem slotZero_compute (root out : Root) (h : root.compute = some out)
    (hinv : SlotZeroInv root) : SlotZeroInv out := by
  unfold Root.compute at h
  by_cases hd : root.dirties.isEmpty
  · rw [if_pos hd] at h
    simp only [Option.some.injEq] at h
    exact h ▸ hinv
  · rw [if_neg hd] at h
    cases hhd : root.spaces.head? with
    | none => rw [hhd] at h; exact absurd h (by simp)
    | some osp =>
      cases osp with
      | none => rw [hhd] at h; exact absurd h (by simp)
      | some root_space =>
        rw [hhd] at h
        try dsimp only at h
        have hbase : SlotZeroInv { root with dirties := ([] : List CapsuleRef) } :=
          slotZeroInv_congr root _ rfl rfl hinv
        refine forChildren_rel (σ := Root)
          (P := fun a b => SlotZeroInv a → SlotZeroInv b)
          (fun s hs => hs) (fun a b c h₁ h₂ ha => h₂ (h₁ ha))
          ?_ _ _ _ h hbase
        intro c r r' hstep hr
        try dsimp only at hstep
        cases hp1 : r.compute_pass_1_measure r.fuel c with
        | none => rw [hp1] at hstep; exact absurd hstep (by simp)
        | some out1 =>
          obtain ⟨r1, dw, dh⟩ := out1
          rw [hp1] at hstep
          try dsimp only at hstep
          have hsk1 := pass1_skeleton _ _ _ _ hp1
          have hr1 : SlotZeroInv r1 := by
            refine ⟨?_, ?_⟩
            · obtain ⟨s0, hs0⟩ := hr.1
              refine ⟨s0, ?_⟩
              rw [List.head?_eq_getElem?] at hs0 ⊢
              rw [pass1_frame _ _ _ _ hp1 0 (zero_not_reach _ _ _ hr.2)]
              exact hs0
            · intro slot hmem cap hcap
              exact hr.2 slot (hsk1.1 ▸ hmem) cap hcap
          have hsk2 := pass2_skeleton _ _ _ _ _ _ _ _ hstep
          refine ⟨?_, ?_⟩
          · obtain ⟨s1, hs1⟩ := hr1.1
            refine ⟨s1, ?_⟩
            rw [List.head?_eq_getElem?] at hs1 ⊢
            rw [pass2_frame _ _ _ _ _ _ _ _ hstep 0 (zero_not_reach _ _ _ hr1.2)]
            exact hs1
          · intro slot hmem cap hcap
            exact hr1.2 slot (hsk2.1 ▸ hmem) cap hcap

/-- C10: slot 0 of the space store is reserved for the root canvas and
never recycled.  `Root::new` establishes the invariant (slot 0 present,
no capsule ever pointing at it); every public operation preserves it;
and under the invariant the unconditional slot-0 accesses of `resize`
and `compute` cannot fail (`resize` succeeds outright, and `compute`'s
canvas read finds the slot). -/
theorem slot_zero_reserved (root : Root) (hinv : SlotZeroInv root) :
    (∀ w h : Nat, SlotZeroInv (Root.new w h)) ∧
    (∀ d, SlotZeroInv (root.add_frame d).1) ∧
    (∀ fr d, SlotZeroInv (root.add_frame_child fr d).1) ∧
    (∀ cf pf, SlotZeroInv (root.set_parent cf pf)) ∧
    (∀ fr g, SlotZeroInv (root.update_style fr g)) ∧
    (∀ fuel ref out, root.remove_frame fuel ref = some out → SlotZeroInv out) ∧
    (∀ out, root.compute = some out → SlotZeroInv out) ∧
    (∀ w h, ∃ root', root.resize w h = some root' ∧ SlotZeroInv root') ∧
    (∃ s, root.spaces.head? = some (some s)) := by
  refine ⟨slotZero_new, ?_, ?_, ?_, ?_, ?_, ?_, ?_, hinv.1⟩
  · intro d; exact slotZero_internal_add root none d hinv
  · intro fr d; exact slotZero_internal_add root (some fr.capsule_ref) d hinv
  · intro cf pf; exact slotZero_set_parent root cf pf hinv
  · intro fr g; exact slotZero_update_style root fr g hinv
  · intro fuel ref out hrm; exact slotZero_remove fuel root ref out hrm hinv
  · intro out hc; exact slotZero_compute root out hc hinv
  · intro w h; exact slotZero_resize root w h hinv

/-- Witness for C10 at a freshly created root with one frame added. -/
theorem slot_zero_reserved_witness :
    SlotZeroInv ((Root.new 9 9).add_frame none).1 ∧
    (∃ s, ((Root.new 9 9).add_frame none).1.spaces.head? = some (some s)) := by
  have h0 : SlotZeroInv (Root.new 9 9) := slotZero_new 9 9
  have h := slot_zero_reserved (Root.new 9 9) h0
  have h1 : SlotZeroInv ((Root.new 9 9).add_frame none).1 := h.2.1 none
  exact ⟨h1, (slot_zero_reserved _ h1).2.2.2.2.2.2.2.2⟩

/-! ### Per-child frame lemmas for the arrange loop -/

theorem arrange_child_frame (fuel : Nat) (style : Style) (cx cy : Int)
    (cw ch : Nat) (rw_ rh_ gw_ gh_ sw_ sh_ : ℚ) (c : CapsuleRef)
    (s s' : Root × Int × Int)
    (hac : arrange_child (Root.compute_pass_2_layout fuel) style cx cy cw ch
      rw_ rh_ gw_ gh_ sw_ sh_ c s = some s') :
    s'.1.capsules = s.1.capsules ∧
    ∀ j, j ∉ reachRefs fuel s.1.capsules c → s'.1.spaces[j]? = s.1.spaces[j]? := by
  simp only [arrange_child] at hac
  cases hcss : s.1.capStyleSpace c with
  | none =>
    rw [hcss] at hac
    simp only [Option.some.injEq] at hac
    exact ⟨hac ▸ rfl, fun j _ => by rw [← hac]⟩
  | some tr =>
    obtain ⟨ccap, cstyle, cspace⟩ := tr
    rw [hcss] at hac
    try dsimp only at hac
    have hccap : capAt s.1.capsules c = some ccap :=
      (capStyleSpace_parts s.1 c ccap cstyle cspace hcss).1
    cases hww : cspace.width with
    | none => rw [hww] at hac; exact absurd hac (by simp)
    | some cdw =>
    cases hhh : cspace.height with
    | none => rw [hww, hhh] at hac; exact absurd hac (by simp)
    | some cdh =>
    rw [hww, hhh] at hac
    try dsimp only at hac
    cases hpos : cstyle.position with
    | Fixed px py =>
      rw [hpos] at hac
      try dsimp only at hac
      cases hp : Root.compute_pass_2_layout fuel s.1 c cx cy cw ch with
      | none => rw [hp] at hac; exact absurd hac (by simp)
      | some r' =>
        rw [hp] at hac
        simp only [Option.some.injEq] at hac
        have hsk := pass2_skeleton fuel s.1 c cx cy cw ch r' hp
        exact ⟨hac ▸ hsk.1, fun j hj => hac ▸ pass2_frame fuel s.1 c cx cy cw ch r' hp j hj⟩
    | Auto =>
      rw [hpos] at hac
      try dsimp only at hac
      cases fuel with
      | zero =>
        rw [pass2_zero] at hac
        exact absurd hac (by simp)
      | succ f =>
        generalize hg4 : (match style.layout with
          | LayoutStrategy.Flex => match style.flow with
            | Direction.Row =>
              (s.2.1 + (cstyle.margin.left : Int), s.2.2 + (cstyle.margin.top : Int),
               (match cstyle.width with
                | SizeSpec.Percent _ => cw
                | _ => f2u (flex_final (cdw : ℚ) rw_ gw_ sw_ cstyle.flex_grow cstyle.flex_shrink)),
               ch - ((cstyle.margin.top : Int) + (cstyle.margin.bottom : Int)).toNat)
            | Direction.Column =>
              (s.2.1 + (cstyle.margin.left : Int), s.2.2 + (cstyle.margin.top : Int),
               cw - ((cstyle.margin.left : Int) + (cstyle.margin.right : Int)).toNat,
               (match cstyle.height with
                | SizeSpec.Percent _ => ch
                | _ => f2u (flex_final (cdh : ℚ) rh_ gh_ sh_ cstyle.flex_grow cstyle.flex_shrink)))
          | _ => (s.2.1, s.2.2, cw, cdh) : Int × Int × Nat × Nat) = g4 at hac
        cases hp : Root.compute_pass_2_layout (f + 1) s.1 c g4.1 g4.2.1 g4.2.2.1 g4.2.2.2 with
        | none => rw [hp] at hac; exact absurd hac (by simp)
        | some r' =>
          rw [hp] at hac
          try dsimp only at hac
          have hsk := pass2_skeleton (f + 1) s.1 c _ _ _ _ r' hp
          have hloc := pass2_frame (f + 1) s.1 c _ _ _ _ r' hp
          cases hsp' : r'.spaces[ccap.space_ref]? with
          | none =>
            rw [hsp'] at hac
            simp only [Option.some.injEq] at hac
            exact ⟨hac ▸ hsk.1, fun j hj => hac ▸ hloc j hj⟩
          | some osp' =>
            cases osp' with
            | none =>
              rw [hsp'] at hac
              simp only [Option.some.injEq] at hac
              exact ⟨hac ▸ hsk.1, fun j hj => hac ▸ hloc j hj⟩
            | some sp0 =>
              rw [hsp'] at hac
              try dsimp only at hac
              generalize cross_override style cstyle cw ch sp0 = sp2 at hac
              have hfin : ∀ q : Root × Int × Int,
                  q.1 = r'.setSpace ccap.space_ref (some sp2) →
                  q.1.capsules = s.1.capsules ∧
                  ∀ j, j ∉ reachRefs (f + 1) s.1.capsules c →
                    q.1.spaces[j]? = s.1.spaces[j]? := by
                intro q hq
                constructor
                · rw [hq]; exact hsk.1
                · intro j hj
                  have hjr : j ≠ ccap.space_ref := by
                    intro hne
                    exact hj (hne ▸ reachRefs_head f s.1.capsules c ccap hccap)
                  rw [hq]
                  dsimp only [Root.setSpace]
                  rw [List.getElem?_set_ne (by omega)]
                  exact hloc j hj
              cases hlay : style.layout with
              | Flex =>
                rw [hlay] at hac
                try dsimp only at hac
                cases hfw : sp2.width with
                | none => rw [hfw] at hac; exact absurd hac (by simp)
                | some fw =>
                cases hfh : sp2.height with
                | none => rw [hfw, hfh] at hac; exact absurd hac (by simp)
                | some fh =>
                rw [hfw, hfh] at hac
                try dsimp only at hac
                cases hflow : style.flow with
                | Row =>
                  rw [hflow] at hac
                  simp only [Option.some.injEq] at hac
                  exact hfin s' (by rw [← hac])
                | Column =>
                  rw [hflow] at hac
                  simp only [Option.some.injEq] at hac
                  exact hfin s' (by rw [← hac])
              | NoStrategy =>
                rw [hlay] at hac
                simp only [Option.some.injEq] at hac
                exact hfin s' (by rw [← hac])
              | Grid =>
                rw [hlay] at hac
                simp only [Option.some.injEq] at hac
                exact hfin s' (by rw [← hac])

theorem arrange_children_frame (fuel : Nat) (style : Style) :
    ∀ (cs : List CapsuleRef) {cx cy : Int} {cw ch : Nat}
      {rw_ rh_ gw_ gh_ sw_ sh_ : ℚ} (s s' : Root × Int × Int),
      forChildren (arrange_child (Root.compute_pass_2_layout fuel) style
        cx cy cw ch rw_ rh_ gw_ gh_ sw_ sh_) cs s = some s' →
      s'.1.capsules = s.1.capsules ∧
      ∀ j, (∀ c ∈ cs, j ∉ reachRefs fuel s.1.capsules c) →
        s'.1.spaces[j]? = s.1.spaces[j]? := by
  intro cs
  induction cs with
  | nil =>
    intro cx cy cw ch rw_ rh_ gw_ gh_ sw_ sh_ s s' hfc
    simp only [forChildren, Option.some.injEq] at hfc
    exact ⟨hfc ▸ rfl, fun j _ => by rw [← hfc]⟩
  | cons c cs ihc =>
    intro cx cy cw ch rw_ rh_ gw_ gh_ sw_ sh_ s s' hfc
    simp only [forChildren] at hfc
    cases hc1 : arrange_child (Root.compute_pass_2_layout fuel) style
        cx cy cw ch rw_ rh_ gw_ gh_ sw_ sh_ c s with
    | none => rw [hc1] at hfc; exact absurd hfc (by simp)
    | some s1 =>
      rw [hc1] at hfc
      have h1 := arrange_child_frame fuel style _ _ _ _ _ _ _ _ _ _ c s s1 hc1
      have h2 := ihc s1 s' hfc
      refine ⟨h2.1.trans h1.1, ?_⟩
      intro j hj
      rw [h2.2 j ?_, h1.2 j (hj c (List.mem_cons_self _ _))]
      intro c' hc'
      rw [h1.1]
      exact hj c' (List.mem_cons_of_mem _ hc')

/-! ### Exact characterisation of the arranged main-axis sizes (row flow) -/

/-- A record of everything Pass 2 reads about one child before
arranging it. -/
structure KidInfo where
  ref : CapsuleRef
  cap : Capsule
  style : Style
  sp : Space
  bw : Nat
  bh : Nat
deriving Repr

/-- The in-flow children, in list order. -/
def kidsInFlow (kids : List KidInfo) : List KidInfo :=
  kids.filter (fun k => k.style.position = Position.Auto)

/-- Total main-axis base size (row flow): in-flow children that are
neither `Fill` nor `Percent` contribute their Pass-1 width. -/
def rowTotalBase (kids : List KidInfo) : ℚ :=
  ((kidsInFlow kids).map (fun k =>
    if !k.style.width.is_fill && !k.style.width.is_percent then (k.bw : ℚ) else 0)).sum

def rowTotalGrow (kids : List KidInfo) : ℚ :=
  ((kidsInFlow kids).map (fun k => k.style.flex_grow)).sum

def rowTotalShrink (kids : List KidInfo) : ℚ :=
  ((kidsInFlow kids).map (fun k => k.style.flex_shrink * (k.bw : ℚ))).sum

/-- The final stored width of an in-flow child of a `Flex`/`Row`
parent, as a function of its main-axis `SizeSpec`. -/
def rowFinalWidth (content_w : Nat) (remaining grow_unit shrink_unit : ℚ)
    (st : Style) (bw : Nat) : Nat :=
  match st.width with
  | SizeSpec.Percent p => f2u (p * (content_w : ℚ))
  | SizeSpec.Pixel v => v
  | SizeSpec.Fill =>
    f2u (flex_final (bw : ℚ) remaining grow_unit shrink_unit st.flex_grow st.flex_shrink)
  | SizeSpec.Fit => bw
  | SizeSpec.Auto => bw

/-- The lookups Pass 2 performs for each child, all in one predicate. -/
def KidOk (root : Root) (k : KidInfo) : Prop :=
  capAt root.capsules k.ref = some k.cap ∧
  root.styles[k.cap.style_ref]? = some (some k.style) ∧
  root.spaces[k.cap.space_ref]? = some (some k.sp) ∧
  k.sp.width = some k.bw ∧ k.sp.height = some k.bh

theorem kidOk_capStyleSpace (root : Root) (k : KidInfo) (h : KidOk root k) :
    root.capStyleSpace k.ref = some (k.cap, k.style, k.sp) := by
  obtain ⟨h1, h2, h3, _, _⟩ := h
  unfold Root.capStyleSpace Root.capStyle Root.get_capsule
  rw [h1]
  dsimp only
  rw [h2]
  dsimp only
  rw [h3]

/-- What the flex pre-pass computes over a row-flow child list. -/
theorem flexPrepass_row_spec (root : Root) (style : Style)
    (hflow : style.flow = Direction.Row) :
    ∀ (kids : List KidInfo), (∀ k ∈ kids, KidOk root k) →
      ∀ (acc : PrePass),
      flexPrepass root style (kids.map KidInfo.ref) acc =
        some { acc with
          in_flow_children := acc.in_flow_children ++ (kidsInFlow kids).map KidInfo.ref
          total_base_w := acc.total_base_w + rowTotalBase kids
          total_grow_factor_w := acc.total_grow_factor_w + rowTotalGrow kids
          total_weighted_shrink_w := acc.total_weighted_shrink_w + rowTotalShrink kids } := by
    intro kids
    induction kids with
    | nil =>
      intro _ acc
      simp [flexPrepass, kidsInFlow, rowTotalBase, rowTotalGrow, rowTotalShrink]
    | cons k rest ih =>
      intro hok acc
      have hk := hok k (List.mem_cons_self _ _)
      have hrest := ih (fun x hx => hok x (List.mem_cons_of_mem _ hx))
      by_cases hpos : k.style.position = Position.Auto
      · have hstep : prepass_step root style acc k.ref = some
            { acc with
              in_flow_children := acc.in_flow_children ++ [k.ref]
              total_base_w :=
                if !k.style.width.is_fill && !k.style.width.is_percent then
                  acc.total_base_w + (k.bw : ℚ)
                else acc.total_base_w
              total_grow_factor_w := acc.total_grow_factor_w + k.style.flex_grow
              total_weighted_shrink_w :=
                acc.total_weighted_shrink_w + k.style.flex_shrink * (k.bw : ℚ) } := by
          unfold prepass_step
          rw [kidOk_capStyleSpace root k hk]
          dsimp only
          rw [if_pos hpos, hk.2.2.2.1, hk.2.2.2.2]
          dsimp only
          rw [if_pos hflow]
        simp only [List.map_cons, flexPrepass, hstep]
        rw [hrest]
        have hin : kidsInFlow (k :: rest) = k :: kidsInFlow rest := by
          simp [kidsInFlow, List.filter_cons, hpos]
        refine congrArg some (PrePass.ext ?_ ?_ ?_ ?_ ?_ ?_ ?_)
        · simp [hin]
        · simp only [hin, rowTotalBase, List.map_cons, List.sum_cons]
          by_cases hfp : !k.style.width.is_fill && !k.style.width.is_percent <;>
            simp [hfp] <;> ring
        · rfl
        · simp only [hin, rowTotalGrow, List.map_cons, List.sum_cons]
          ring
        · rfl
        · simp only [hin, rowTotalShrink, List.map_cons, List.sum_cons]
          ring
        · rfl
      · have hstep : prepass_step root style acc k.ref = some acc := by
          unfold prepass_step
          rw [kidOk_capStyleSpace root k hk]
          dsimp only
          rw [if_neg hpos]
        simp only [List.map_cons, flexPrepass, hstep]
        rw [hrest]
        have hin : kidsInFlow (k :: rest) = kidsInFlow rest := by
          simp [kidsInFlow, List.filter_cons, hpos]
        simp [hin, rowTotalBase, rowTotalGrow, rowTotalShrink]

/-- The final position Pass 2 stores for a node. -/
def finalPos (style : Style) (gx gy : Int) : Int × Int :=
  match style.position with
  | Position.Auto => (gx, gy)
  | Position.Fixed x y => (gx + (x : Int), gy + (y : Int))

/-- A successful Pass-2 call on a live node stores exactly the resolved
final size (and position) in the node's own space slot, and the node's
subtree leaves that slot alone as long as the node's `space_ref` does
not reappear below it. -/
theorem pass2_self_space (fuel : Nat) (root out : Root) (ref : CapsuleRef)
    (gx gy : Int) (gw gh : Nat) (cap : Capsule) (style : Style) (sp : Space)
    (dw dh : Nat)
    (hrun : root.compute_pass_2_layout (fuel + 1) ref gx gy gw gh = some out)
    (hcap : capAt root.capsules ref = some cap)
    (hstyle : root.styles[cap.style_ref]? = some (some style))
    (hsp : root.spaces[cap.space_ref]? = some (some sp))
    (hw : sp.width = some dw) (hh : sp.height = some dh)
    (hsep : ∀ c ∈ cap.children, cap.space_ref ∉ reachRefs fuel root.capsules c) :
    out.spaces[cap.space_ref]? = some (some
      ⟨(finalPos style gx gy).1, (finalPos style gx gy).2,
       some ((style.width.resolve_size gw).getD dw),
       some ((style.height.resolve_size gh).getD dh)⟩) := by
  have hcs : root.capStyle ref = some (cap, style) := by
    unfold Root.capStyle Root.get_capsule
    rw [hcap]
    dsimp only
    rw [hstyle]
  have hlen : cap.space_ref < root.spaces.length := by
    rcases List.getElem?_eq_some.mp hsp with ⟨hb, _⟩
    exact hb
  rw [Root.compute_pass_2_layout, hcs] at hrun
  try dsimp only at hrun
  rw [hsp] at hrun
  try dsimp only at hrun
  rw [hw, hh] at hrun
  try dsimp only at hrun
  generalize hroot1 : root.setSpace cap.space_ref
    (some ⟨(match style.position with
            | Position.Auto => (gx, gy)
            | Position.Fixed x y => (gx + (x : Int), gy + (y : Int))).1,
           (match style.position with
            | Position.Auto => (gx, gy)
            | Position.Fixed x y => (gx + (x : Int), gy + (y : Int))).2,
           some ((style.width.resolve_size gw).getD dw),
           some ((style.height.resolve_size gh).getD dh)⟩) = root1 at hrun
  have hroot1caps : root1.capsules = root.capsules := by rw [← hroot1]; rfl
  have hval : root1.spaces[cap.space_ref]? = some (some
      ⟨(finalPos style gx gy).1, (finalPos style gx gy).2,
       some ((style.width.resolve_size gw).getD dw),
       some ((style.height.resolve_size gh).getD dh)⟩) := by
    rw [← hroot1]
    dsimp only [Root.setSpace]
    rw [List.getElem?_set_eq_of_lt _ hlen]
    rfl
  cases hpp : flexPrepass root1 style cap.children PrePass.init with
  | none => rw [hpp] at hrun; exact absurd hrun (by simp)
  | some pp =>
    rw [hpp] at hrun
    try dsimp only at hrun
    split at hrun
    · exact absurd hrun (by simp)
    · rename_i st heq
      simp only [Option.some.injEq] at hrun
      have hframe := arrange_children_frame fuel style cap.children (root1, _, _) st heq
      rw [← hrun]
      rw [hframe.2 cap.space_ref ?_]
      · exact hval
      · intro c hc
        show cap.space_ref ∉ reachRefs fuel root1.capsules c
        rw [hroot1caps]
        exact hsep c hc

theorem cross_override_width_row (style cs : Style) (cw ch : Nat) (sp : Space)
    (hflow : style.flow = Direction.Row) :
    (cross_override style cs cw ch sp).width = sp.width := by
  unfold cross_override
  split
  · split
    · rename_i hcond
      rw [hflow] at hcond
      simp at hcond
    · rfl
  · split
    · rename_i hcond
      rw [hflow] at hcond
      simp at hcond
    · rfl

theorem cross_override_height_isSome (style cs : Style) (cw ch : Nat) (sp : Space)
    (h : (sp.height).isSome) : ((cross_override style cs cw ch sp).height).isSome := by
  unfold cross_override
  split <;> split <;> simp_all

/-- The arrange loop of a `Flex`/`Row` parent stores, for every in-flow
child, exactly the width predicted by `rowFinalWidth` from the child's
main-axis spec, its Pass-1 base width, and the loop's flex parameters. -/
theorem row_fold_widths (fuel : Nat) (style : Style)
    (hlay : style.layout = LayoutStrategy.Flex)
    (hflow : style.flow = Direction.Row) (cw ch : Nat) (RW RH GW GH SW SH : ℚ) :
    ∀ (kids : List KidInfo) (cx cy : Int) (s s' : Root × Int × Int),
      (∀ k ∈ kids, KidOk s.1 k) →
      ((kids.map (fun k => reachRefs (fuel + 1) s.1.capsules k.ref)).flatten).Nodup →
      forChildren (arrange_child (Root.compute_pass_2_layout (fuel + 1)) style
        cx cy cw ch RW RH GW GH SW SH) (kids.map KidInfo.ref) s = some s' →
      ∀ k ∈ kids, k.style.position = Position.Auto →
        ∃ spk : Space, s'.1.spaces[k.cap.space_ref]? = some (some spk) ∧
          spk.width = some (rowFinalWidth cw RW GW SW k.style k.bw) := by
  intro kids
  induction kids with
  | nil =>
    intro cx cy s s' _ _ _ k hk
    exact absurd hk (List.not_mem_nil k)
  | cons k rest ihk =>
    intro cx cy s s' hok hnd hfc k' hk' hpos'
    have hokk := hok k (List.mem_cons_self _ _)
    simp only [List.map_cons, forChildren] at hfc
    cases hstep : arrange_child (Root.compute_pass_2_layout (fuel + 1)) style
        cx cy cw ch RW RH GW GH SW SH k.ref s with
    | none => rw [hstep] at hfc; exact absurd hfc (by simp)
    | some s1 =>
      rw [hstep] at hfc
      have hframe := arrange_child_frame (fuel + 1) style cx cy cw ch
        RW RH GW GH SW SH k.ref s s1 hstep
      have hsk := arrange_child_skeleton
        (fun r c a1 a2 a3 a4 r' hp => pass2_skeleton (fuel + 1) r c a1 a2 a3 a4 r' hp)
        hstep
      -- reach bookkeeping
      have hnd' : (reachRefs (fuel + 1) s.1.capsules k.ref ++
          ((rest.map (fun x => reachRefs (fuel + 1) s.1.capsules x.ref)).flatten)).Nodup := by
        simpa using hnd
      have hndk : (reachRefs (fuel + 1) s.1.capsules k.ref).Nodup :=
        hnd'.of_append_left
      have hdisj : ∀ j ∈ reachRefs (fuel + 1) s.1.capsules k.ref,
          j ∉ (rest.map (fun x => reachRefs (fuel + 1) s.1.capsules x.ref)).flatten := by
        intro j hj
        exact (List.disjoint_of_nodup_append hnd') hj
      have hrest_mem : ∀ x ∈ rest, ∀ j ∈ reachRefs (fuel + 1) s.1.capsules x.ref,
          j ∈ (rest.map (fun y => reachRefs (fuel + 1) s.1.capsules y.ref)).flatten := by
        intro x hx j hj
        exact List.mem_flatten.mpr ⟨_, List.mem_map.mpr ⟨x, hx, rfl⟩, hj⟩
      have hxhead : ∀ x ∈ rest, x.cap.space_ref ∈
          reachRefs (fuel + 1) s.1.capsules x.ref := by
        intro x hx
        exact reachRefs_head fuel s.1.capsules x.ref x.cap (hok x (List.mem_cons_of_mem _ hx)).1
      -- the state after the head step still satisfies all rest-side hypotheses
      have hok1 : ∀ x ∈ rest, KidOk s1.1 x := by
        intro x hx
        obtain ⟨h1, h2, h3, h4, h5⟩ := hok x (List.mem_cons_of_mem _ hx)
        refine ⟨by rw [hframe.1]; exact h1, ?_, ?_, h4, h5⟩
        · have : s1.1.styles = s.1.styles := hsk.2.1
          rw [this]; exact h2
        · rw [hframe.2 x.cap.space_ref ?_]
          · exact h3
          · intro hmem
            exact hdisj _ hmem (hrest_mem x hx _ (hxhead x hx))
      have hnd1 : ((rest.map (fun x => reachRefs (fuel + 1) s1.1.capsules x.ref)).flatten).Nodup := by
        have : s1.1.capsules = s.1.capsules := hframe.1
        rw [this]
        exact (List.Nodup.of_append_right hnd')
      rcases List.mem_cons.mp hk' with rfl | hk'mem
      · -- the head child: analyze its arrange step
        have hk'cap := hokk.1
        -- head's own slot survives the rest of the loop
        have hkeep := arrange_children_frame (fuel + 1) style (rest.map KidInfo.ref) s1 s' hfc
        have hkr : ∀ c ∈ rest.map KidInfo.ref,
            k'.cap.space_ref ∉ reachRefs (fuel + 1) s1.1.capsules c := by
          intro c hc
          obtain ⟨x, hx, rfl⟩ := List.mem_map.mp hc
          rw [hframe.1]
          intro hmem
          exact hdisj k'.cap.space_ref
            (reachRefs_head fuel s.1.capsules k'.ref k'.cap hk'cap)
            (hrest_mem x hx _ hmem)
        rw [hkeep.2 k'.cap.space_ref hkr]
        -- now compute the head's stored space from the step
        simp only [arrange_child] at hstep
        rw [kidOk_capStyleSpace s.1 k' hokk] at hstep
        try dsimp only at hstep
        rw [hokk.2.2.2.1, hokk.2.2.2.2] at hstep
        try dsimp only at hstep
        rw [hpos'] at hstep
        try dsimp only at hstep
        rw [hlay] at hstep
        try dsimp only at hstep
        rw [hflow] at hstep
        try dsimp only at hstep
        cases hp : Root.compute_pass_2_layout (fuel + 1) s.1 k'.ref
            (s.2.1 + (k'.style.margin.left : Int)) (s.2.2 + (k'.style.margin.top : Int))
            (match k'.style.width with
             | SizeSpec.Percent _ => cw
             | _ => f2u (flex_final (k'.bw : ℚ) RW GW SW k'.style.flex_grow k'.style.flex_shrink))
            (ch - ((k'.style.margin.top : Int) + (k'.style.margin.bottom : Int)).toNat) with
        | none => rw [hp] at hstep; exact absurd hstep (by simp)
        | some r' =>
          rw [hp] at hstep
          try dsimp only at hstep
          have hsep : ∀ c ∈ k'.cap.children,
              k'.cap.space_ref ∉ reachRefs fuel s.1.capsules c := by
            intro c hc hmem
            have hr : reachRefs (fuel + 1) s.1.capsules k'.ref =
                k'.cap.space_ref :: (k'.cap.children.map
                  (fun c => reachRefs fuel s.1.capsules c)).flatten := by
              rw [reachRefs, hk'cap]
            rw [hr] at hndk
            exact (List.nodup_cons.mp hndk).1
              (List.mem_flatten.mpr ⟨_, List.mem_map.mpr ⟨c, hc, rfl⟩, hmem⟩)
          have hval := pass2_self_space fuel s.1 r' k'.ref _ _ _ _ k'.cap k'.style k'.sp
            k'.bw k'.bh hp hk'cap hokk.2.1 hokk.2.2.1 hokk.2.2.2.1 hokk.2.2.2.2 hsep
          rw [hval] at hstep
          try dsimp only at hstep
          generalize hsp2 : cross_override style k'.style cw ch
            ⟨(finalPos k'.style (s.2.1 + (k'.style.margin.left : Int))
                (s.2.2 + (k'.style.margin.top : Int))).1,
             (finalPos k'.style (s.2.1 + (k'.style.margin.left : Int))
                (s.2.2 + (k'.style.margin.top : Int))).2,
             some ((k'.style.width.resolve_size
               (match k'.style.width with
                | SizeSpec.Percent _ => cw
                | _ => f2u (flex_final (k'.bw : ℚ) RW GW SW k'.style.flex_grow
                    k'.style.flex_shrink))).getD k'.bw),
             some ((k'.style.height.resolve_size
               (ch - ((k'.style.margin.top : Int) + (k'.style.margin.bottom : Int)).toNat)).getD
                 k'.bh)⟩ = sp2 at hstep
          have hsw : sp2.width = some (rowFinalWidth cw RW GW SW k'.style k'.bw) := by
            rw [← hsp2, cross_override_width_row _ _ _ _ _ hflow]
            unfold rowFinalWidth
            cases hwid : k'.style.width <;>
              simp [SizeSpec.resolve_size, hwid]
          have hshs : (sp2.height).isSome := by
            rw [← hsp2]
            exact cross_override_height_isSome _ _ _ _ _ (by simp)
          obtain ⟨fh, hsh⟩ := Option.isSome_iff_exists.mp hshs
          rw [hsw, hsh] at hstep
          try dsimp only at hstep
          simp only [Option.some.injEq] at hstep
          have hlenk : k'.cap.space_ref < r'.spaces.length := by
            have hsk2 := pass2_skeleton (fuel + 1) s.1 k'.ref _ _ _ _ r' hp
            rw [hsk2.2.2.2.2.2]
            rcases List.getElem?_eq_some.mp hokk.2.2.1 with ⟨hb, _⟩
            exact hb
          refine ⟨sp2, ?_, hsw⟩
          rw [← hstep]
          dsimp only [Root.setSpace]
          exact List.getElem?_set_eq_of_lt _ hlenk
      · exact ihk _ _ s1 s' hok1 hnd1 hfc k' hk'mem hpos'

/-- The content-box width Pass 2 derives for a node that resolved to
`final_w`: padding and both borders are subtracted (saturating). -/
def rowContentW (style : Style) (gw dw : Nat) : Nat :=
  (style.width.resolve_size gw).getD dw -
    (style.padding.left + style.padding.right + style.border.size * 2)

/-- Leftover main-axis space in a row after base sizes and gaps. -/
def rowRemainingW (style : Style) (kids : List KidInfo) (cw : Nat) : ℚ :=
  (cw : ℚ) - rowTotalBase kids -
    (if (kidsInFlow kids).isEmpty then 0
     else ((style.gap * ((kidsInFlow kids).length - 1) : Nat) : ℚ))

/-- Growth per unit of `flex_grow` in a row. -/
def rowGrowUnitW (style : Style) (kids : List KidInfo) (cw : Nat) : ℚ :=
  if 0 < rowRemainingW style kids cw ∧ 0 < rowTotalGrow kids then
    rowRemainingW style kids cw / rowTotalGrow kids
  else 0

/-- Shrink per unit of weighted `flex_shrink` in a row. -/
def rowShrinkUnitW (style : Style) (kids : List KidInfo) (cw : Nat) : ℚ :=
  if rowRemainingW style kids cw < 0 ∧ 0 < rowTotalShrink kids then
    -rowRemainingW style kids cw / rowTotalShrink kids
  else 0

theorem rowFinalWidth_congr (cw cw' : Nat) (rw0 rw' gu gu' su su' : ℚ)
    (st : Style) (bw : Nat) (h1 : cw = cw') (h2 : rw0 = rw') (h3 : gu = gu')
    (h4 : su = su') :
    rowFinalWidth cw rw0 gu su st bw = rowFinalWidth cw' rw' gu' su' st bw := by
  rw [h1, h2, h3, h4]

/-- Main-axis width law for `Flex`/`Row` parents: a successful Pass-2 call
stores, for every in-flow child, the width `rowFinalWidth` computed from
the child's own `width` spec, its Pass-1 base width, and the flex
distribution parameters derived from the parent's content width. -/
theorem pass2_row_children_widths (fuel : Nat) (root out : Root)
    (ref : CapsuleRef) (gx gy : Int) (gw gh : Nat) (cap : Capsule)
    (style : Style) (sp : Space) (dw dh : Nat) (kids : List KidInfo)
    (hrun : root.compute_pass_2_layout (fuel + 2) ref gx gy gw gh = some out)
    (hcap : capAt root.capsules ref = some cap)
    (hstyle : root.styles[cap.style_ref]? = some (some style))
    (hsp : root.spaces[cap.space_ref]? = some (some sp))
    (hw : sp.width = some dw) (hh : sp.height = some dh)
    (hlay : style.layout = LayoutStrategy.Flex)
    (hflow : style.flow = Direction.Row)
    (hkids : cap.children = kids.map KidInfo.ref)
    (hok : ∀ k ∈ kids, KidOk root k)
    (hnd : (reachRefs (fuel + 2) root.capsules ref).Nodup) :
    ∀ k ∈ kids, k.style.position = Position.Auto →
      ∃ spk : Space, out.spaces[k.cap.space_ref]? = some (some spk) ∧
        spk.width = some (rowFinalWidth (rowContentW style gw dw)
          (rowRemainingW style kids (rowContentW style gw dw))
          (rowGrowUnitW style kids (rowContentW style gw dw))
          (rowShrinkUnitW style kids (rowContentW style gw dw))
          k.style k.bw) := by
  have hcs : root.capStyle ref = some (cap, style) := by
    unfold Root.capStyle Root.get_capsule
    rw [hcap]
    dsimp only
    rw [hstyle]
  have hlen : cap.space_ref < root.spaces.length := by
    rcases List.getElem?_eq_some.mp hsp with ⟨hb, _⟩
    exact hb
  -- the parent's own space index does not occur below any child
  have hreach : reachRefs (fuel + 2) root.capsules ref =
      cap.space_ref :: (cap.children.map
        (fun c => reachRefs (fuel + 1) root.capsules c)).flatten := by
    rw [reachRefs, hcap]
  have hndflat : ((kids.map
      (fun k => reachRefs (fuel + 1) root.capsules k.ref)).flatten).Nodup := by
    rw [hreach] at hnd
    have := (List.nodup_cons.mp hnd).2
    rw [hkids, List.map_map] at this
    exact this
  have hself : ∀ k ∈ kids, k.cap.space_ref ≠ cap.space_ref := by
    intro k hk heqref
    rw [hreach] at hnd
    apply (List.nodup_cons.mp hnd).1
    rw [← heqref]
    refine List.mem_flatten.mpr ⟨_, ?_, reachRefs_head fuel root.capsules k.ref k.cap (hok k hk).1⟩
    rw [hkids, List.map_map]
    exact List.mem_map.mpr ⟨k, hk, rfl⟩
  rw [Root.compute_pass_2_layout, hcs] at hrun
  try dsimp only at hrun
  rw [hsp] at hrun
  try dsimp only at hrun
  rw [hw, hh] at hrun
  try dsimp only at hrun
  generalize hroot1 : root.setSpace cap.space_ref
    (some ⟨(match style.position with
            | Position.Auto => (gx, gy)
            | Position.Fixed x y => (gx + (x : Int), gy + (y : Int))).1,
           (match style.position with
            | Position.Auto => (gx, gy)
            | Position.Fixed x y => (gx + (x : Int), gy + (y : Int))).2,
           some ((style.width.resolve_size gw).getD dw),
           some ((style.height.resolve_size gh).getD dh)⟩) = root1 at hrun
  have hroot1caps : root1.capsules = root.capsules := by rw [← hroot1]; rfl
  have hroot1styles : root1.styles = root.styles := by rw [← hroot1]; rfl
  have hroot1sp : ∀ j, j ≠ cap.space_ref → root1.spaces[j]? = root.spaces[j]? := by
    intro j hj
    rw [← hroot1]
    dsimp only [Root.setSpace]
    rw [List.getElem?_set_ne (fun h => hj h.symm)]
  have hok1 : ∀ k ∈ kids, KidOk root1 k := by
    intro k hk
    obtain ⟨h1, h2, h3, h4, h5⟩ := hok k hk
    exact ⟨by rw [hroot1caps]; exact h1, by rw [hroot1styles]; exact h2,
      by rw [hroot1sp _ (hself k hk)]; exact h3, h4, h5⟩
  have hpp := flexPrepass_row_spec root1 style hflow kids hok1 PrePass.init
  rw [hkids] at hrun
  rw [hpp] at hrun
  try dsimp only at hrun
  split at hrun
  · exact absurd hrun (by simp)
  · rename_i st heq
    simp only [Option.some.injEq] at hrun
    have hnd1 : ((kids.map
        (fun k => reachRefs (fuel + 1) root1.capsules k.ref)).flatten).Nodup := by
      rw [hroot1caps]
      exact hndflat
    have hfold := row_fold_widths fuel style hlay hflow _ _ _ _ _ _ _ _ kids
      _ _ _ st hok1 hnd1 heq
    intro k hk hpos
    obtain ⟨spk, hspk, hwk⟩ := hfold k hk hpos
    refine ⟨spk, by rw [← hrun]; exact hspk, ?_⟩
    rw [hwk]
    refine congrArg some (rowFinalWidth_congr _ _ _ _ _ _ _ _ _ _ rfl ?_ ?_ ?_)
    · rw [rowRemainingW, rowContentW]
      cases hemp : kidsInFlow kids <;> simp [PrePass.init, hflow]
    · simp only [rowGrowUnitW, rowRemainingW, rowContentW, PrePass.init,
        List.nil_append, List.length_map, hflow, decide_True, Bool.true_and,
        zero_add, Bool.and_eq_true, decide_eq_true_eq]
      cases hemp : kidsInFlow kids <;> simp
    · simp only [rowShrinkUnitW, rowRemainingW, rowContentW, PrePass.init,
        List.nil_append, List.length_map, hflow, decide_True, Bool.true_and,
        zero_add, Bool.and_eq_true, decide_eq_true_eq]
      cases hemp : kidsInFlow kids <;> simp

/-! ### Exact characterisation of the arranged main-axis sizes (column flow) -/

/-- Total main-axis base size (column flow): in-flow children that are
neither `Fill` nor `Percent` contribute their Pass-1 height. -/
def colTotalBase (kids : List KidInfo) : ℚ :=
  ((kidsInFlow kids).map (fun k =>
    if !k.style.height.is_fill && !k.style.height.is_percent then (k.bh : ℚ) else 0)).sum

/-- The grow factors accumulated by the column-axis pre-pass
(`total_grow_factor_h`). -/
def colTotalGrow (kids : List KidInfo) : ℚ :=
  ((kidsInFlow kids).map (fun k => k.style.flex_grow)).sum

def colTotalShrink (kids : List KidInfo) : ℚ :=
  ((kidsInFlow kids).map (fun k => k.style.flex_shrink * (k.bh : ℚ))).sum

/-- The final stored height of an in-flow child of a `Flex`/`Column`
parent, as a function of its main-axis `SizeSpec`. -/
def colFinalHeight (content_h : Nat) (remaining grow_unit shrink_unit : ℚ)
    (st : Style) (bh : Nat) : Nat :=
  match st.height with
  | SizeSpec.Percent p => f2u (p * (content_h : ℚ))
  | SizeSpec.Pixel v => v
  | SizeSpec.Fill =>
    f2u (flex_final (bh : ℚ) remaining grow_unit shrink_unit st.flex_grow st.flex_shrink)
  | SizeSpec.Fit => bh
  | SizeSpec.Auto => bh

/-- What the flex pre-pass computes over a column-flow child list. -/
theorem flexPrepass_col_spec (root : Root) (style : Style)
    (hflow : style.flow = Direction.Column) :
    ∀ (kids : List KidInfo), (∀ k ∈ kids, KidOk root k) →
      ∀ (acc : PrePass),
      flexPrepass root style (kids.map KidInfo.ref) acc =
        some { acc with
          in_flow_children := acc.in_flow_children ++ (kidsInFlow kids).map KidInfo.ref
          total_base_h := acc.total_base_h + colTotalBase kids
          total_grow_factor_h := acc.total_grow_factor_h + colTotalGrow kids
          total_weighted_shrink_h := acc.total_weighted_shrink_h + colTotalShrink kids } := by
    have hnr : ¬ style.flow = Direction.Row := by rw [hflow]; decide
    intro kids
    induction kids with
    | nil =>
      intro _ acc
      simp [flexPrepass, kidsInFlow, colTotalBase, colTotalGrow, colTotalShrink]
    | cons k rest ih =>
      intro hok acc
      have hk := hok k (List.mem_cons_self _ _)
      have hrest := ih (fun x hx => hok x (List.mem_cons_of_mem _ hx))
      by_cases hpos : k.style.position = Position.Auto
      · have hstep : prepass_step root style acc k.ref = some
            { acc with
              in_flow_children := acc.in_flow_children ++ [k.ref]
              total_base_h :=
                if !k.style.height.is_fill && !k.style.height.is_percent then
                  acc.total_base_h + (k.bh : ℚ)
                else acc.total_base_h
              total_grow_factor_h := acc.total_grow_factor_h + k.style.flex_grow
              total_weighted_shrink_h :=
                acc.total_weighted_shrink_h + k.style.flex_shrink * (k.bh : ℚ) } := by
          unfold prepass_step
          rw [kidOk_capStyleSpace root k hk]
          dsimp only
          rw [if_pos hpos, hk.2.2.2.1, hk.2.2.2.2]
          dsimp only
          rw [if_neg hnr]
        simp only [List.map_cons, flexPrepass, hstep]
        rw [hrest]
        have hin : kidsInFlow (k :: rest) = k :: kidsInFlow rest := by
          simp [kidsInFlow, List.filter_cons, hpos]
        refine congrArg some (PrePass.ext ?_ ?_ ?_ ?_ ?_ ?_ ?_)
        · simp [hin]
        · rfl
        · simp only [hin, colTotalBase, List.map_cons, List.sum_cons]
          by_cases hfp : !k.style.height.is_fill && !k.style.height.is_percent <;>
            simp [hfp] <;> ring
        · rfl
        · simp only [hin, colTotalGrow, List.map_cons, List.sum_cons]
          ring
        · rfl
        · simp only [hin, colTotalShrink, List.map_cons, List.sum_cons]
          ring
      · have hstep : prepass_step root style acc k.ref = some acc := by
          unfold prepass_step
          rw [kidOk_capStyleSpace root k hk]
          dsimp only
          rw [if_neg hpos]
        simp only [List.map_cons, flexPrepass, hstep]
        rw [hrest]
        have hin : kidsInFlow (k :: rest) = kidsInFlow rest := by
          simp [kidsInFlow, List.filter_cons, hpos]
        simp [hin, colTotalBase, colTotalGrow, colTotalShrink]

theorem cross_override_height_col (style cs : Style) (cw ch : Nat) (sp : Space)
    (hflow : style.flow = Direction.Column) :
    (cross_override style cs cw ch sp).height = sp.height := by
  unfold cross_override
  rw [hflow]
  split <;> split <;> simp_all

theorem cross_override_width_isSome (style cs : Style) (cw ch : Nat) (sp : Space)
    (h : (sp.width).isSome) : ((cross_override style cs cw ch sp).width).isSome := by
  unfold cross_override
  split <;> split <;> simp_all

/-- The arrange loop of a `Flex`/`Column` parent stores, for every
in-flow child, exactly the height predicted by `colFinalHeight` from the
child's main-axis spec, its Pass-1 base height, and the loop's flex
parameters. -/
theorem col_fold_heights (fuel : Nat) (style : Style)
    (hlay : style.layout = LayoutStrategy.Flex)
    (hflow : style.flow = Direction.Column) (cw ch : Nat) (RW RH GW GH SW SH : ℚ) :
    ∀ (kids : List KidInfo) (cx cy : Int) (s s' : Root × Int × Int),
      (∀ k ∈ kids, KidOk s.1 k) →
      ((kids.map (fun k => reachRefs (fuel + 1) s.1.capsules k.ref)).flatten).Nodup →
      forChildren (arrange_child (Root.compute_pass_2_layout (fuel + 1)) style
        cx cy cw ch RW RH GW GH SW SH) (kids.map KidInfo.ref) s = some s' →
      ∀ k ∈ kids, k.style.position = Position.Auto →
        ∃ spk : Space, s'.1.spaces[k.cap.space_ref]? = some (some spk) ∧
          spk.height = some (colFinalHeight ch RH GH SH k.style k.bh) := by
  intro kids
  induction kids with
  | nil =>
    intro cx cy s s' _ _ _ k hk
    exact absurd hk (List.not_mem_nil k)
  | cons k rest ihk =>
    intro cx cy s s' hok hnd hfc k' hk' hpos'
    have hokk := hok k (List.mem_cons_self _ _)
    simp only [List.map_cons, forChildren] at hfc
    cases hstep : arrange_child (Root.compute_pass_2_layout (fuel + 1)) style
        cx cy cw ch RW RH GW GH SW SH k.ref s with
    | none => rw [hstep] at hfc; exact absurd hfc (by simp)
    | some s1 =>
      rw [hstep] at hfc
      have hframe := arrange_child_frame (fuel + 1) style cx cy cw ch
        RW RH GW GH SW SH k.ref s s1 hstep
      have hsk := arrange_child_skeleton
        (fun r c a1 a2 a3 a4 r' hp => pass2_skeleton (fuel + 1) r c a1 a2 a3 a4 r' hp)
        hstep
      -- reach bookkeeping
      have hnd' : (reachRefs (fuel + 1) s.1.capsules k.ref ++
          ((rest.map (fun x => reachRefs (fuel + 1) s.1.capsules x.ref)).flatten)).Nodup := by
        simpa using hnd
      have hndk : (reachRefs (fuel + 1) s.1.capsules k.ref).Nodup :=
        hnd'.of_append_left
      have hdisj : ∀ j ∈ reachRefs (fuel + 1) s.1.capsules k.ref,
          j ∉ (rest.map (fun x => reachRefs (fuel + 1) s.1.capsules x.ref)).flatten := by
        intro j hj
        exact (List.disjoint_of_nodup_append hnd') hj
      have hrest_mem : ∀ x ∈ rest, ∀ j ∈ reachRefs (fuel + 1) s.1.capsules x.ref,
          j ∈ (rest.map (fun y => reachRefs (fuel + 1) s.1.capsules y.ref)).flatten := by
        intro x hx j hj
        exact List.mem_flatten.mpr ⟨_, List.mem_map.mpr ⟨x, hx, rfl⟩, hj⟩
      have hxhead : ∀ x ∈ rest, x.cap.space_ref ∈
          reachRefs (fuel + 1) s.1.capsules x.ref := by
        intro x hx
        exact reachRefs_head fuel s.1.capsules x.ref x.cap (hok x (List.mem_cons_of_mem _ hx)).1
      -- the state after the head step still satisfies all rest-side hypotheses
      have hok1 : ∀ x ∈ rest, KidOk s1.1 x := by
        intro x hx
        obtain ⟨h1, h2, h3, h4, h5⟩ := hok x (List.mem_cons_of_mem _ hx)
        refine ⟨by rw [hframe.1]; exact h1, ?_, ?_, h4, h5⟩
        · have : s1.1.styles = s.1.styles := hsk.2.1
          rw [this]; exact h2
        · rw [hframe.2 x.cap.space_ref ?_]
          · exact h3
          · intro hmem
            exact hdisj _ hmem (hrest_mem x hx _ (hxhead x hx))
      have hnd1 : ((rest.map (fun x => reachRefs (fuel + 1) s1.1.capsules x.ref)).flatten).Nodup := by
        have : s1.1.capsules = s.1.capsules := hframe.1
        rw [this]
        exact (List.Nodup.of_append_right hnd')
      rcases List.mem_cons.mp hk' with rfl | hk'mem
      · -- the head child: analyze its arrange step
        have hk'cap := hokk.1
        -- head's own slot survives the rest of the loop
        have hkeep := arrange_children_frame (fuel + 1) style (rest.map KidInfo.ref) s1 s' hfc
        have hkr : ∀ c ∈ rest.map KidInfo.ref,
            k'.cap.space_ref ∉ reachRefs (fuel + 1) s1.1.capsules c := by
          intro c hc
          obtain ⟨x, hx, rfl⟩ := List.mem_map.mp hc
          rw [hframe.1]
          intro hmem
          exact hdisj k'.cap.space_ref
            (reachRefs_head fuel s.1.capsules k'.ref k'.cap hk'cap)
            (hrest_mem x hx _ hmem)
        rw [hkeep.2 k'.cap.space_ref hkr]
        -- now compute the head's stored space from the step
        simp only [arrange_child] at hstep
        rw [kidOk_capStyleSpace s.1 k' hokk] at hstep
        try dsimp only at hstep
        rw [hokk.2.2.2.1, hokk.2.2.2.2] at hstep
        try dsimp only at hstep
        rw [hpos'] at hstep
        try dsimp only at hstep
        rw [hlay] at hstep
        try dsimp only at hstep
        rw [hflow] at hstep
        try dsimp only at hstep
        cases hp : Root.compute_pass_2_layout (fuel + 1) s.1 k'.ref
            (s.2.1 + (k'.style.margin.left : Int)) (s.2.2 + (k'.style.margin.top : Int))
            (cw - ((k'.style.margin.left : Int) + (k'.style.margin.right : Int)).toNat)
            (match k'.style.height with
             | SizeSpec.Percent _ => ch
             | _ => f2u (flex_final (k'.bh : ℚ) RH GH SH k'.style.flex_grow k'.style.flex_shrink)) with
        | none => rw [hp] at hstep; exact absurd hstep (by simp)
        | some r' =>
          rw [hp] at hstep
          try dsimp only at hstep
          have hsep : ∀ c ∈ k'.cap.children,
              k'.cap.space_ref ∉ reachRefs fuel s.1.capsules c := by
            intro c hc hmem
            have hr : reachRefs (fuel + 1) s.1.capsules k'.ref =
                k'.cap.space_ref :: (k'.cap.children.map
                  (fun c => reachRefs fuel s.1.capsules c)).flatten := by
              rw [reachRefs, hk'cap]
            rw [hr] at hndk
            exact (List.nodup_cons.mp hndk).1
              (List.mem_flatten.mpr ⟨_, List.mem_map.mpr ⟨c, hc, rfl⟩, hmem⟩)
          have hval := pass2_self_space fuel s.1 r' k'.ref _ _ _ _ k'.cap k'.style k'.sp
            k'.bw k'.bh hp hk'cap hokk.2.1 hokk.2.2.1 hokk.2.2.2.1 hokk.2.2.2.2 hsep
          rw [hval] at hstep
          try dsimp only at hstep
          generalize hsp2 : cross_override style k'.style cw ch
            ⟨(finalPos k'.style (s.2.1 + (k'.style.margin.left : Int))
                (s.2.2 + (k'.style.margin.top : Int))).1,
             (finalPos k'.style (s.2.1 + (k'.style.margin.left : Int))
                (s.2.2 + (k'.style.margin.top : Int))).2,
             some ((k'.style.width.resolve_size
               (cw - ((k'.style.margin.left : Int) + (k'.style.margin.right : Int)).toNat)).getD
                 k'.bw),
             some ((k'.style.height.resolve_size
               (match k'.style.height with
                | SizeSpec.Percent _ => ch
                | _ => f2u (flex_final (k'.bh : ℚ) RH GH SH k'.style.flex_grow
                    k'.style.flex_shrink))).getD k'.bh)⟩ = sp2 at hstep
          have hsh : sp2.height = some (colFinalHeight ch RH GH SH k'.style k'.bh) := by
            rw [← hsp2, cross_override_height_col _ _ _ _ _ hflow]
            unfold colFinalHeight
            cases hhgt : k'.style.height <;>
              simp [SizeSpec.resolve_size, hhgt]
          have hsws : (sp2.width).isSome := by
            rw [← hsp2]
            exact cross_override_width_isSome _ _ _ _ _ (by simp)
          obtain ⟨fw, hfw⟩ := Option.isSome_iff_exists.mp hsws
          rw [hfw, hsh] at hstep
          try dsimp only at hstep
          simp only [Option.some.injEq] at hstep
          have hlenk : k'.cap.space_ref < r'.spaces.length := by
            have hsk2 := pass2_skeleton (fuel + 1) s.1 k'.ref _ _ _ _ r' hp
            rw [hsk2.2.2.2.2.2]
            rcases List.getElem?_eq_some.mp hokk.2.2.1 with ⟨hb, _⟩
            exact hb
          refine ⟨sp2, ?_, hsh⟩
          rw [← hstep]
          dsimp only [Root.setSpace]
          exact List.getElem?_set_eq_of_lt _ hlenk
      · exact ihk _ _ s1 s' hok1 hnd1 hfc k' hk'mem hpos'

/-- The content-box height Pass 2 derives for a node that resolved to
`final_h`: padding and both borders are subtracted (saturating). -/
def colContentH (style : Style) (gh dh : Nat) : Nat :=
  (style.height.resolve_size gh).getD dh -
    (style.padding.top + style.padding.bottom + style.border.size * 2)

/-- Leftover main-axis space in a column after base sizes and gaps. -/
def colRemainingH (style : Style) (kids : List KidInfo) (chn : Nat) : ℚ :=
  (chn : ℚ) - colTotalBase kids -
    (if (kidsInFlow kids).isEmpty then 0
     else ((style.gap * ((kidsInFlow kids).length - 1) : Nat) : ℚ))

/-- Growth per unit of `flex_grow` in a column. -/
def colGrowUnitH (style : Style) (kids : List KidInfo) (chn : Nat) : ℚ :=
  if 0 < colRemainingH style kids chn ∧ 0 < colTotalGrow kids then
    colRemainingH style kids chn / colTotalGrow kids
  else 0

/-- Shrink per unit of weighted `flex_shrink` in a column. -/
def colShrinkUnitH (style : Style) (kids : List KidInfo) (chn : Nat) : ℚ :=
  if colRemainingH style kids chn < 0 ∧ 0 < colTotalShrink kids then
    -colRemainingH style kids chn / colTotalShrink kids
  else 0

theorem colFinalHeight_congr (chn chn' : Nat) (rh0 rh' gu gu' su su' : ℚ)
    (st : Style) (bh : Nat) (h1 : chn = chn') (h2 : rh0 = rh') (h3 : gu = gu')
    (h4 : su = su') :
    colFinalHeight chn rh0 gu su st bh = colFinalHeight chn' rh' gu' su' st bh := by
  rw [h1, h2, h3, h4]

/-- Main-axis height law for `Flex`/`Column` parents: a successful Pass-2
call stores, for every in-flow child, the height `colFinalHeight`
computed from the child's own `height` spec, its Pass-1 base height, and
the flex distribution parameters derived from the parent's content
height. -/
theorem pass2_col_children_heights (fuel : Nat) (root out : Root)
    (ref : CapsuleRef) (gx gy : Int) (gw gh : Nat) (cap : Capsule)
    (style : Style) (sp : Space) (dw dh : Nat) (kids : List KidInfo)
    (hrun : root.compute_pass_2_layout (fuel + 2) ref gx gy gw gh = some out)
    (hcap : capAt root.capsules ref = some cap)
    (hstyle : root.styles[cap.style_ref]? = some (some style))
    (hsp : root.spaces[cap.space_ref]? = some (some sp))
    (hw : sp.width = some dw) (hh : sp.height = some dh)
    (hlay : style.layout = LayoutStrategy.Flex)
    (hflow : style.flow = Direction.Column)
    (hkids : cap.children = kids.map KidInfo.ref)
    (hok : ∀ k ∈ kids, KidOk root k)
    (hnd : (reachRefs (fuel + 2) root.capsules ref).Nodup) :
    ∀ k ∈ kids, k.style.position = Position.Auto →
      ∃ spk : Space, out.spaces[k.cap.space_ref]? = some (some spk) ∧
        spk.height = some (colFinalHeight (colContentH style gh dh)
          (colRemainingH style kids (colContentH style gh dh))
          (colGrowUnitH style kids (colContentH style gh dh))
          (colShrinkUnitH style kids (colContentH style gh dh))
          k.style k.bh) := by
  have hcs : root.capStyle ref = some (cap, style) := by
    unfold Root.capStyle Root.get_capsule
    rw [hcap]
    dsimp only
    rw [hstyle]
  have hlen : cap.space_ref < root.spaces.length := by
    rcases List.getElem?_eq_some.mp hsp with ⟨hb, _⟩
    exact hb
  -- the parent's own space index does not occur below any child
  have hreach : reachRefs (fuel + 2) root.capsules ref =
      cap.space_ref :: (cap.children.map
        (fun c => reachRefs (fuel + 1) root.capsules c)).flatten := by
    rw [reachRefs, hcap]
  have hndflat : ((kids.map
      (fun k => reachRefs (fuel + 1) root.capsules k.ref)).flatten).Nodup := by
    rw [hreach] at hnd
    have := (List.nodup_cons.mp hnd).2
    rw [hkids, List.map_map] at this
    exact this
  have hself : ∀ k ∈ kids, k.cap.space_ref ≠ cap.space_ref := by
    intro k hk heqref
    rw [hreach] at hnd
    apply (List.nodup_cons.mp hnd).1
    rw [← heqref]
    refine List.mem_flatten.mpr ⟨_, ?_, reachRefs_head fuel root.capsules k.ref k.cap (hok k hk).1⟩
    rw [hkids, List.map_map]
    exact List.mem_map.mpr ⟨k, hk, rfl⟩
  rw [Root.compute_pass_2_layout, hcs] at hrun
  try dsimp only at hrun
  rw [hsp] at hrun
  try dsimp only at hrun
  rw [hw, hh] at hrun
  try dsimp only at hrun
  generalize hroot1 : root.setSpace cap.space_ref
    (some ⟨(match style.position with
            | Position.Auto => (gx, gy)
            | Position.Fixed x y => (gx + (x : Int), gy + (y : Int))).1,
           (match style.position with
            | Position.Auto => (gx, gy)
            | Position.Fixed x y => (gx + (x : Int), gy + (y : Int))).2,
           some ((style.width.resolve_size gw).getD dw),
           some ((style.height.resolve_size gh).getD dh)⟩) = root1 at hrun
  have hroot1caps : root1.capsules = root.capsules := by rw [← hroot1]; rfl
  have hroot1styles : root1.styles = root.styles := by rw [← hroot1]; rfl
  have hroot1sp : ∀ j, j ≠ cap.space_ref → root1.spaces[j]? = root.spaces[j]? := by
    intro j hj
    rw [← hroot1]
    dsimp only [Root.setSpace]
    rw [List.getElem?_set_ne (fun h => hj h.symm)]
  have hok1 : ∀ k ∈ kids, KidOk root1 k := by
    intro k hk
    obtain ⟨h1, h2, h3, h4, h5⟩ := hok k hk
    exact ⟨by rw [hroot1caps]; exact h1, by rw [hroot1styles]; exact h2,
      by rw [hroot1sp _ (hself k hk)]; exact h3, h4, h5⟩
  have hpp := flexPrepass_col_spec root1 style hflow kids hok1 PrePass.init
  rw [hkids] at hrun
  rw [hpp] at hrun
  try dsimp only at hrun
  split at hrun
  · exact absurd hrun (by simp)
  · rename_i st heq
    simp only [Option.some.injEq] at hrun
    have hnd1 : ((kids.map
        (fun k => reachRefs (fuel + 1) root1.capsules k.ref)).flatten).Nodup := by
      rw [hroot1caps]
      exact hndflat
    have hfold := col_fold_heights fuel style hlay hflow _ _ _ _ _ _ _ _ kids
      _ _ _ st hok1 hnd1 heq
    intro k hk hpos
    obtain ⟨spk, hspk, hhk⟩ := hfold k hk hpos
    refine ⟨spk, by rw [← hrun]; exact hspk, ?_⟩
    rw [hhk]
    refine congrArg some (colFinalHeight_congr _ _ _ _ _ _ _ _ _ _ rfl ?_ ?_ ?_)
    · rw [colRemainingH, colContentH]
      cases hemp : kidsInFlow kids <;> simp [PrePass.init, hflow]
    · simp only [colGrowUnitH, colRemainingH, colContentH, PrePass.init,
        List.nil_append, List.length_map, hflow, decide_True, Bool.true_and,
        zero_add, Bool.and_eq_true, decide_eq_true_eq]
      cases hemp : kidsInFlow kids <;> simp
    · simp only [colShrinkUnitH, colRemainingH, colContentH, PrePass.init,
        List.nil_append, List.length_map, hflow, decide_True, Bool.true_and,
        zero_add, Bool.and_eq_true, decide_eq_true_eq]
      cases hemp : kidsInFlow kids <;> simp

/-! ### Percent children bypass the flex accounting (C9) -/

/-- C9: in the arrange pass of a `Flex` parent, an in-flow child whose
main-axis spec is `Percent p` is offered the parent's full content
extent on the main axis, and its final stored main-axis size is `p`
times that extent (truncated), independent of the grow/shrink
distribution: the width for `Row` flow, the height for `Column` flow. -/
theorem percent_child_full_extent (fuel : Nat) (root out : Root)
    (ref : CapsuleRef) (gx gy : Int) (gw gh : Nat) (cap : Capsule)
    (style : Style) (sp : Space) (dw dh : Nat) (kids : List KidInfo)
    (hrun : root.compute_pass_2_layout (fuel + 2) ref gx gy gw gh = some out)
    (hcap : capAt root.capsules ref = some cap)
    (hstyle : root.styles[cap.style_ref]? = some (some style))
    (hsp : root.spaces[cap.space_ref]? = some (some sp))
    (hw : sp.width = some dw) (hh : sp.height = some dh)
    (hlay : style.layout = LayoutStrategy.Flex)
    (hkids : cap.children = kids.map KidInfo.ref)
    (hok : ∀ k ∈ kids, KidOk root k)
    (hnd : (reachRefs (fuel + 2) root.capsules ref).Nodup)
    (k : KidInfo) (hk : k ∈ kids) (hpos : k.style.position = Position.Auto)
    (p : ℚ) :
    (style.flow = Direction.Row → k.style.width = SizeSpec.Percent p →
      ∃ spk : Space, out.spaces[k.cap.space_ref]? = some (some spk) ∧
        spk.width = some (f2u (p * (rowContentW style gw dw : ℚ)))) ∧
    (style.flow = Direction.Column → k.style.height = SizeSpec.Percent p →
      ∃ spk : Space, out.spaces[k.cap.space_ref]? = some (some spk) ∧
        spk.height = some (f2u (p * (colContentH style gh dh : ℚ)))) := by
  constructor
  · intro hflow hpct
    obtain ⟨spk, h1, h2⟩ := pass2_row_children_widths fuel root out ref gx gy gw gh
      cap style sp dw dh kids hrun hcap hstyle hsp hw hh hlay hflow hkids hok hnd
      k hk hpos
    refine ⟨spk, h1, ?_⟩
    rw [h2]
    unfold rowFinalWidth
    rw [hpct]
  · intro hflow hpct
    obtain ⟨spk, h1, h2⟩ := pass2_col_children_heights fuel root out ref gx gy gw gh
      cap style sp dw dh kids hrun hcap hstyle hsp hw hh hlay hflow hkids hok hnd
      k hk hpos
    refine ⟨spk, h1, ?_⟩
    rw [h2]
    unfold colFinalHeight
    rw [hpct]

/-- Concrete scene for C9 (row flow): a 200x50 `Flex`/`Row` parent with
a single in-flow child of width `Percent 1/2`. -/
def pctStyleP : Style :=
  { Style.default with width := SizeSpec.Pixel 200, height := SizeSpec.Pixel 50 }

def pctStyleC : Style :=
  { Style.default with width := SizeSpec.Percent (1/2), height := SizeSpec.Pixel 30 }

def pctScene : Root where
  capsules := [⟨some ⟨0, none, 0, none, [⟨1, 0⟩]⟩, 0⟩,
               ⟨some ⟨1, some ⟨0, 0⟩, 1, none, []⟩, 0⟩]
  capsule_free_list := []
  spaces := [some ⟨0, 0, some 200, some 50⟩, some ⟨0, 0, some 0, some 0⟩]
  styles := [some pctStyleP, some pctStyleC]
  dirties := []
  allocator := Allocator.new

def pctKid : KidInfo :=
  ⟨⟨1, 0⟩, ⟨1, some ⟨0, 0⟩, 1, none, []⟩, pctStyleC, ⟨0, 0, some 0, some 0⟩, 0, 0⟩

def pctOut : Root :=
  { pctScene with
      spaces := [some ⟨0, 0, some 200, some 50⟩, some ⟨0, 0, some 100, some 30⟩] }

/-- Concrete scene for C9 (column flow): a 200x50 `Flex`/`Column` parent
with a single in-flow child of height `Percent 1/2`. -/
def pctColStyleP : Style :=
  { Style.default with width := SizeSpec.Pixel 200, height := SizeSpec.Pixel 50,
                       flow := Direction.Column }

def pctColStyleC : Style :=
  { Style.default with width := SizeSpec.Pixel 30, height := SizeSpec.Percent (1/2) }

def pctColScene : Root where
  capsules := [⟨some ⟨0, none, 0, none, [⟨1, 0⟩]⟩, 0⟩,
               ⟨some ⟨1, some ⟨0, 0⟩, 1, none, []⟩, 0⟩]
  capsule_free_list := []
  spaces := [some ⟨0, 0, some 200, some 50⟩, some ⟨0, 0, some 0, some 0⟩]
  styles := [some pctColStyleP, some pctColStyleC]
  dirties := []
  allocator := Allocator.new

def pctColKid : KidInfo :=
  ⟨⟨1, 0⟩, ⟨1, some ⟨0, 0⟩, 1, none, []⟩, pctColStyleC, ⟨0, 0, some 0, some 0⟩, 0, 0⟩

def pctColOut : Root :=
  { pctColScene with
      spaces := [some ⟨0, 0, some 200, some 50⟩, some ⟨0, 0, some 30, some 25⟩] }

/-- Witness for C9: in the row scene the `Percent 1/2` child of the
200-wide parent ends up exactly 100 wide; in the column scene the
`Percent 1/2` child of the 50-tall parent ends up exactly 25 tall. -/
theorem percent_child_full_extent_witness :
    (∃ spk : Space, pctOut.spaces[1]? = some (some spk) ∧ spk.width = some 100) ∧
    (∃ spk : Space, pctColOut.spaces[1]? = some (some spk) ∧ spk.height = some 25) := by
  constructor
  · have hrun : Root.compute_pass_2_layout 2 pctScene ⟨0, 0⟩ 0 0 300 300 =
        some pctOut := by
      norm_num [Root.compute_pass_2_layout, Root.capStyle, Root.capStyleSpace,
        Root.get_capsule, capAt, pctScene, pctStyleP, pctStyleC, pctOut, Style.default,
        Padding.default, Margin.default, Border.default,
        SizeSpec.resolve_size, flexPrepass, prepass_step, PrePass.init, forChildren,
        arrange_child, cross_override, flex_final, f2u, Rat.floor, Int.toNat_ofNat,
        Root.setSpace, SizeSpec.is_fill, SizeSpec.is_percent, SizeSpec.is_auto]
      decide
    have hok : ∀ k ∈ [pctKid], KidOk pctScene k := by
      intro k hk
      rw [List.mem_singleton] at hk
      subst hk
      exact ⟨rfl, rfl, rfl, rfl, rfl⟩
    have hnd : (reachRefs 2 pctScene.capsules ⟨0, 0⟩).Nodup := by decide
    obtain ⟨spk, h1, h2⟩ := (percent_child_full_extent 0 pctScene pctOut ⟨0, 0⟩ 0 0
      300 300 ⟨0, none, 0, none, [⟨1, 0⟩]⟩ pctStyleP ⟨0, 0, some 200, some 50⟩ 200 50
      [pctKid] hrun rfl rfl rfl rfl rfl rfl rfl hok hnd pctKid
      (List.mem_singleton.mpr rfl) rfl (1/2)).1 rfl rfl
    refine ⟨spk, h1, ?_⟩
    rw [h2]
    norm_num [rowContentW, pctStyleP, Style.default, Padding.default, Border.default,
      SizeSpec.resolve_size, f2u, Rat.floor]
    decide
  · have hrun : Root.compute_pass_2_layout 2 pctColScene ⟨0, 0⟩ 0 0 300 300 =
        some pctColOut := by
      norm_num [Root.compute_pass_2_layout, Root.capStyle, Root.capStyleSpace,
        Root.get_capsule, capAt, pctColScene, pctColStyleP, pctColStyleC, pctColOut,
        Style.default, Padding.default, Margin.default, Border.default,
        SizeSpec.resolve_size, flexPrepass, prepass_step, PrePass.init, forChildren,
        arrange_child, cross_override, flex_final, f2u, Rat.floor, Int.toNat_ofNat,
        Root.setSpace, SizeSpec.is_fill, SizeSpec.is_percent, SizeSpec.is_auto]
      decide
    have hok : ∀ k ∈ [pctColKid], KidOk pctColScene k := by
      intro k hk
      rw [List.mem_singleton] at hk
      subst hk
      exact ⟨rfl, rfl, rfl, rfl, rfl⟩
    have hnd : (reachRefs 2 pctColScene.capsules ⟨0, 0⟩).Nodup := by decide
    obtain ⟨spk, h1, h2⟩ := (percent_child_full_extent 0 pctColScene pctColOut ⟨0, 0⟩ 0 0
      300 300 ⟨0, none, 0, none, [⟨1, 0⟩]⟩ pctColStyleP ⟨0, 0, some 200, some 50⟩ 200 50
      [pctColKid] hrun rfl rfl rfl rfl rfl rfl rfl hok hnd pctColKid
      (List.mem_singleton.mpr rfl) rfl (1/2)).2 rfl rfl
    refine ⟨spk, h1, ?_⟩
    rw [h2]
    norm_num [colContentH, pctColStyleP, Style.default, Padding.default, Border.default,
      SizeSpec.resolve_size, f2u, Rat.floor]
    decide

/-! ### The grow distribution only reaches Fill-sized children (C2) -/

/-- Concrete scene refuting the all-children reading of the grow
distribution: a `Pixel 50` child with `flex_grow 1` inside a 200-wide
`Flex`/`Row` parent. -/
def c2StyleP : Style :=
  { Style.default with width := SizeSpec.Pixel 200, height := SizeSpec.Pixel 50 }

def c2StyleC : Style :=
  { Style.default with width := SizeSpec.Pixel 50, height := SizeSpec.Pixel 30,
                       flex_grow := 1 }

def c2Scene : Root where
  capsules := [⟨some ⟨0, none, 0, none, [⟨1, 0⟩]⟩, 0⟩,
               ⟨some ⟨1, some ⟨0, 0⟩, 1, none, []⟩, 0⟩]
  capsule_free_list := []
  spaces := [some ⟨0, 0, some 200, some 50⟩, some ⟨0, 0, some 50, some 30⟩]
  styles := [some c2StyleP, some c2StyleC]
  dirties := []
  allocator := Allocator.new

def c2Kid : KidInfo :=
  ⟨⟨1, 0⟩, ⟨1, some ⟨0, 0⟩, 1, none, []⟩, c2StyleC, ⟨0, 0, some 50, some 30⟩, 50, 30⟩

def c2Out : Root :=
  { c2Scene with
      spaces := [some ⟨0, 0, some 200, some 50⟩, some ⟨0, 0, some 50, some 30⟩] }

/-- Counterexample to C2 as stated: the parent's remaining space is 150
and the total grow factor is 1, so the claimed final size of the child
is `base + flex_grow * (remaining / total_grow)` = 50 + 150 = 200, but
the arrange pass stores width 50: the child's own `Pixel 50` spec
overrides the flex-grown offer. -/
theorem flex_grow_all_children_counterexample :
    Root.compute_pass_2_layout 2 c2Scene ⟨0, 0⟩ 0 0 300 300 = some c2Out ∧
    rowRemainingW c2StyleP [c2Kid] (rowContentW c2StyleP 300 200) = 150 ∧
    rowTotalGrow [c2Kid] = 1 ∧
    c2Out.spaces[1]? = some (some ⟨0, 0, some 50, some 30⟩) ∧
    (50 : Nat) ≠ f2u ((c2Kid.bw : ℚ) + c2Kid.style.flex_grow * (150 / 1)) := by
  refine ⟨?_, ?_, ?_, rfl, ?_⟩
  · norm_num [Root.compute_pass_2_layout, Root.capStyle, Root.capStyleSpace,
      Root.get_capsule, capAt, c2Scene, c2StyleP, c2StyleC, c2Out, Style.default,
      Padding.default, Margin.default, Border.default,
      SizeSpec.resolve_size, flexPrepass, prepass_step, PrePass.init, forChildren,
      arrange_child, cross_override, flex_final, f2u, Rat.floor, Int.toNat_ofNat,
      Root.setSpace, SizeSpec.is_fill, SizeSpec.is_percent, SizeSpec.is_auto]
  · norm_num [rowRemainingW, rowContentW, rowTotalBase, kidsInFlow, c2Kid,
      c2StyleP, c2StyleC, Style.default, Padding.default, Border.default,
      SizeSpec.resolve_size, SizeSpec.is_fill, SizeSpec.is_percent]
  · norm_num [rowTotalGrow, kidsInFlow, c2Kid, c2StyleC, Style.default]
  · norm_num [c2Kid, c2StyleC, Style.default, f2u, Rat.floor]
    decide

/-- C2 (amended): the grow distribution law holds for the `Fill`-sized
in-flow children of a `Flex` parent on its main axis: when the remaining
main-axis space and the total grow factor are both positive, such a
child's final stored main-axis size is
`base + flex_grow * (remaining / total_grow)` (cast to an integer);
children with `Pixel`, `Percent`, `Fit` or `Auto` main-axis specs
re-resolve their own spec instead.  `Row` flow distributes widths,
`Column` flow heights. -/
theorem flex_grow_fill_children (fuel : Nat) (root out : Root)
    (ref : CapsuleRef) (gx gy : Int) (gw gh : Nat) (cap : Capsule)
    (style : Style) (sp : Space) (dw dh : Nat) (kids : List KidInfo)
    (hrun : root.compute_pass_2_layout (fuel + 2) ref gx gy gw gh = some out)
    (hcap : capAt root.capsules ref = some cap)
    (hstyle : root.styles[cap.style_ref]? = some (some style))
    (hsp : root.spaces[cap.space_ref]? = some (some sp))
    (hw : sp.width = some dw) (hh : sp.height = some dh)
    (hlay : style.layout = LayoutStrategy.Flex)
    (hkids : cap.children = kids.map KidInfo.ref)
    (hok : ∀ k ∈ kids, KidOk root k)
    (hnd : (reachRefs (fuel + 2) root.capsules ref).Nodup)
    (k : KidInfo) (hk : k ∈ kids) (hpos : k.style.position = Position.Auto) :
    (style.flow = Direction.Row → k.style.width = SizeSpec.Fill →
      0 < rowRemainingW style kids (rowContentW style gw dw) →
      0 < rowTotalGrow kids →
      ∃ spk : Space, out.spaces[k.cap.space_ref]? = some (some spk) ∧
        spk.width = some (f2u ((k.bw : ℚ) + k.style.flex_grow *
          (rowRemainingW style kids (rowContentW style gw dw) / rowTotalGrow kids)))) ∧
    (style.flow = Direction.Column → k.style.height = SizeSpec.Fill →
      0 < colRemainingH style kids (colContentH style gh dh) →
      0 < colTotalGrow kids →
      ∃ spk : Space, out.spaces[k.cap.space_ref]? = some (some spk) ∧
        spk.height = some (f2u ((k.bh : ℚ) + k.style.flex_grow *
          (colRemainingH style kids (colContentH style gh dh) / colTotalGrow kids)))) := by
  constructor
  · intro hflow hfill hrem hgrow
    obtain ⟨spk, h1, h2⟩ := pass2_row_children_widths fuel root out ref gx gy gw gh
      cap style sp dw dh kids hrun hcap hstyle hsp hw hh hlay hflow hkids hok hnd
      k hk hpos
    refine ⟨spk, h1, ?_⟩
    rw [h2]
    unfold rowFinalWidth
    rw [hfill]
    congr 1
    unfold flex_final
    rw [if_pos hrem]
    unfold rowGrowUnitW
    rw [if_pos ⟨hrem, hgrow⟩]
  · intro hflow hfill hrem hgrow
    obtain ⟨spk, h1, h2⟩ := pass2_col_children_heights fuel root out ref gx gy gw gh
      cap style sp dw dh kids hrun hcap hstyle hsp hw hh hlay hflow hkids hok hnd
      k hk hpos
    refine ⟨spk, h1, ?_⟩
    rw [h2]
    unfold colFinalHeight
    rw [hfill]
    congr 1
    unfold flex_final
    rw [if_pos hrem]
    unfold colGrowUnitH
    rw [if_pos ⟨hrem, hgrow⟩]

/-- Concrete scene for the amended C2 (row flow): a `Fill` child with
`flex_grow 1` inside a 200-wide `Flex`/`Row` parent. -/
def c2fStyleC : Style :=
  { Style.default with width := SizeSpec.Fill, height := SizeSpec.Pixel 30,
                       flex_grow := 1 }

def c2fScene : Root where
  capsules := [⟨some ⟨0, none, 0, none, [⟨1, 0⟩]⟩, 0⟩,
               ⟨some ⟨1, some ⟨0, 0⟩, 1, none, []⟩, 0⟩]
  capsule_free_list := []
  spaces := [some ⟨0, 0, some 200, some 50⟩, some ⟨0, 0, some 0, some 0⟩]
  styles := [some c2StyleP, some c2fStyleC]
  dirties := []
  allocator := Allocator.new

def c2fKid : KidInfo :=
  ⟨⟨1, 0⟩, ⟨1, some ⟨0, 0⟩, 1, none, []⟩, c2fStyleC, ⟨0, 0, some 0, some 0⟩, 0, 0⟩

def c2fOut : Root :=
  { c2fScene with
      spaces := [some ⟨0, 0, some 200, some 50⟩, some ⟨0, 0, some 200, some 30⟩] }

/-- Concrete scene for the amended C2 (column flow): a `Fill`-height
child with `flex_grow 1` inside a 50-tall `Flex`/`Column` parent. -/
def c2fColStyleC : Style :=
  { Style.default with width := SizeSpec.Pixel 30, height := SizeSpec.Fill,
                       flex_grow := 1 }

def c2fColScene : Root where
  capsules := [⟨some ⟨0, none, 0, none, [⟨1, 0⟩]⟩, 0⟩,
               ⟨some ⟨1, some ⟨0, 0⟩, 1, none, []⟩, 0⟩]
  capsule_free_list := []
  spaces := [some ⟨0, 0, some 200, some 50⟩, some ⟨0, 0, some 0, some 0⟩]
  styles := [some pctColStyleP, some c2fColStyleC]
  dirties := []
  allocator := Allocator.new

def c2fColKid : KidInfo :=
  ⟨⟨1, 0⟩, ⟨1, some ⟨0, 0⟩, 1, none, []⟩, c2fColStyleC, ⟨0, 0, some 0, some 0⟩, 0, 0⟩

def c2fColOut : Root :=
  { c2fColScene with
      spaces := [some ⟨0, 0, some 200, some 50⟩, some ⟨0, 0, some 30, some 50⟩] }

/-- Witness for the amended C2: in the row scene the `Fill` child of
base 0 and grow 1 absorbs all 200 remaining pixels of width; in the
column scene the `Fill`-height child absorbs all 50 remaining pixels of
height. -/
theorem flex_grow_fill_children_witness :
    (∃ spk : Space, c2fOut.spaces[1]? = some (some spk) ∧ spk.width = some 200) ∧
    (∃ spk : Space, c2fColOut.spaces[1]? = some (some spk) ∧ spk.height = some 50) := by
  constructor
  · have hrun : Root.compute_pass_2_layout 2 c2fScene ⟨0, 0⟩ 0 0 300 300 =
        some c2fOut := by
      norm_num [Root.compute_pass_2_layout, Root.capStyle, Root.capStyleSpace,
        Root.get_capsule, capAt, c2fScene, c2StyleP, c2fStyleC, c2fOut, Style.default,
        Padding.default, Margin.default, Border.default,
        SizeSpec.resolve_size, flexPrepass, prepass_step, PrePass.init, forChildren,
        arrange_child, cross_override, flex_final, f2u, Rat.floor, Int.toNat_ofNat,
        Root.setSpace, SizeSpec.is_fill, SizeSpec.is_percent, SizeSpec.is_auto]
      decide
    have hok : ∀ k ∈ [c2fKid], KidOk c2fScene k := by
      intro k hk
      rw [List.mem_singleton] at hk
      subst hk
      exact ⟨rfl, rfl, rfl, rfl, rfl⟩
    have hnd : (reachRefs 2 c2fScene.capsules ⟨0, 0⟩).Nodup := by decide
    have hrem : (0 : ℚ) < rowRemainingW c2StyleP [c2fKid] (rowContentW c2StyleP 300 200) := by
      norm_num [rowRemainingW, rowContentW, rowTotalBase, kidsInFlow, c2fKid,
        c2StyleP, c2fStyleC, Style.default, Padding.default, Border.default,
        SizeSpec.resolve_size, SizeSpec.is_fill, SizeSpec.is_percent]
    have hgrow : (0 : ℚ) < rowTotalGrow [c2fKid] := by
      norm_num [rowTotalGrow, kidsInFlow, c2fKid, c2fStyleC, Style.default]
    obtain ⟨spk, h1, h2⟩ := (flex_grow_fill_children 0 c2fScene c2fOut ⟨0, 0⟩ 0 0
      300 300 ⟨0, none, 0, none, [⟨1, 0⟩]⟩ c2StyleP ⟨0, 0, some 200, some 50⟩ 200 50
      [c2fKid] hrun rfl rfl rfl rfl rfl rfl rfl hok hnd c2fKid
      (List.mem_singleton.mpr rfl) rfl).1 rfl rfl hrem hgrow
    refine ⟨spk, h1, ?_⟩
    rw [h2]
    norm_num [rowRemainingW, rowContentW, rowTotalBase, rowTotalGrow, kidsInFlow,
      c2fKid, c2StyleP, c2fStyleC, Style.default, Padding.default, Border.default,
      SizeSpec.resolve_size, SizeSpec.is_fill, SizeSpec.is_percent, f2u, Rat.floor]
    decide
  · have hrun : Root.compute_pass_2_layout 2 c2fColScene ⟨0, 0⟩ 0 0 300 300 =
        some c2fColOut := by
      norm_num [Root.compute_pass_2_layout, Root.capStyle, Root.capStyleSpace,
        Root.get_capsule, capAt, c2fColScene, pctColStyleP, c2fColStyleC, c2fColOut,
        Style.default, Padding.default, Margin.default, Border.default,
        SizeSpec.resolve_size, flexPrepass, prepass_step, PrePass.init, forChildren,
        arrange_child, cross_override, flex_final, f2u, Rat.floor, Int.toNat_ofNat,
        Root.setSpace, SizeSpec.is_fill, SizeSpec.is_percent, SizeSpec.is_auto,
        (show Direction.Column ≠ Direction.Row from by decide)]
      decide
    have hok : ∀ k ∈ [c2fColKid], KidOk c2fColScene k := by
      intro k hk
      rw [List.mem_singleton] at hk
      subst hk
      exact ⟨rfl, rfl, rfl, rfl, rfl⟩
    have hnd : (reachRefs 2 c2fColScene.capsules ⟨0, 0⟩).Nodup := by decide
    have hrem : (0 : ℚ) <
        colRemainingH pctColStyleP [c2fColKid] (colContentH pctColStyleP 300 50) := by
      norm_num [colRemainingH, colContentH, colTotalBase, kidsInFlow, c2fColKid,
        pctColStyleP, c2fColStyleC, Style.default, Padding.default, Border.default,
        SizeSpec.resolve_size, SizeSpec.is_fill, SizeSpec.is_percent]
    have hgrow : (0 : ℚ) < colTotalGrow [c2fColKid] := by
      norm_num [colTotalGrow, kidsInFlow, c2fColKid, c2fColStyleC, Style.default]
    obtain ⟨spk, h1, h2⟩ := (flex_grow_fill_children 0 c2fColScene c2fColOut ⟨0, 0⟩ 0 0
      300 300 ⟨0, none, 0, none, [⟨1, 0⟩]⟩ pctColStyleP ⟨0, 0, some 200, some 50⟩ 200 50
      [c2fColKid] hrun rfl rfl rfl rfl rfl rfl rfl hok hnd c2fColKid
      (List.mem_singleton.mpr rfl) rfl).2 rfl rfl hrem hgrow
    refine ⟨spk, h1, ?_⟩
    rw [h2]
    norm_num [colRemainingH, colContentH, colTotalBase, colTotalGrow, kidsInFlow,
      c2fColKid, pctColStyleP, c2fColStyleC, Style.default, Padding.default,
      Border.default, SizeSpec.resolve_size, SizeSpec.is_fill, SizeSpec.is_percent,
      f2u, Rat.floor]
    decide

/-! ### Fill children split the content width only when they grow (C1) -/

/-- The saturating cast of an exact `Nat`-by-`Nat` quotient is the
truncating natural division, below the `u32` bound. -/
theorem f2u_natCast_div (W n : Nat) (h : W < 2 ^ 32) :
    f2u ((W : ℚ) / (n : ℚ)) = W / n := by
  unfold f2u
  rcases Nat.eq_zero_or_pos n with hn | hn
  · subst hn
    norm_num
  rcases Nat.eq_zero_or_pos W with hW | hW
  · subst hW
    norm_num
  · have hq : (0 : ℚ) < (W : ℚ) / (n : ℚ) :=
      div_pos (by exact_mod_cast hW) (by exact_mod_cast hn)
    rw [if_neg (not_le.mpr hq)]
    have hfl : (Rat.floor ((W : ℚ) / (n : ℚ))).toNat = W / n := by
      show (⌊(W : ℚ) / (n : ℚ)⌋).toNat = W / n
      rw [Int.floor_toNat, Nat.floor_div_nat, Nat.floor_natCast]
    rw [hfl]
    exact Nat.min_eq_left (by
      have := Nat.div_le_self W n
      omega)

/-- Concrete scene refuting C1 as stated: a single `Fill` child with the
default `flex_grow = 0` inside a 100-wide `Flex`/`Row` parent. -/
def c1StyleP : Style :=
  { Style.default with width := SizeSpec.Pixel 100, height := SizeSpec.Pixel 50 }

def c1StyleC : Style :=
  { Style.default with width := SizeSpec.Fill, height := SizeSpec.Pixel 30 }

def c1Scene : Root where
  capsules := [⟨some ⟨0, none, 0, none, [⟨1, 0⟩]⟩, 0⟩,
               ⟨some ⟨1, some ⟨0, 0⟩, 1, none, []⟩, 0⟩]
  capsule_free_list := []
  spaces := [some ⟨0, 0, some 100, some 50⟩, some ⟨0, 0, some 0, some 0⟩]
  styles := [some c1StyleP, some c1StyleC]
  dirties := []
  allocator := Allocator.new

def c1Out : Root :=
  { c1Scene with
      spaces := [some ⟨0, 0, some 100, some 50⟩, some ⟨0, 0, some 0, some 30⟩] }

/-- Counterexample to C1 as stated: the parent's content width is 100
and it has exactly one in-flow `Fill` child, yet the child's final
width is 0, not 100/1: without a positive `flex_grow` a `Fill` child
receives only its flex-final size, which stays at its (zero) base. -/
theorem fill_equal_split_counterexample :
    Root.compute_pass_2_layout 2 c1Scene ⟨0, 0⟩ 0 0 300 300 = some c1Out ∧
    rowContentW c1StyleP 300 100 = 100 ∧
    c1Out.spaces[1]? = some (some ⟨0, 0, some 0, some 30⟩) ∧
    (0 : Nat) ≠ 100 / 1 := by
  refine ⟨?_, ?_, rfl, by norm_num⟩
  · norm_num [Root.compute_pass_2_layout, Root.capStyle, Root.capStyleSpace,
      Root.get_capsule, capAt, c1Scene, c1StyleP, c1StyleC, c1Out, Style.default,
      Padding.default, Margin.default, Border.default,
      SizeSpec.resolve_size, flexPrepass, prepass_step, PrePass.init, forChildren,
      arrange_child, cross_override, flex_final, f2u, Rat.floor, Int.toNat_ofNat,
      Root.setSpace, SizeSpec.is_fill, SizeSpec.is_percent, SizeSpec.is_auto]
  · norm_num [rowContentW, c1StyleP, Style.default, Padding.default,
      Border.default, SizeSpec.resolve_size]

/-- C1 (amended): if a `Flex`/`Row` parent's children are exactly `n`
in-flow `Fill` children that all carry the same positive `flex_grow`
and zero Pass-1 base width, and the parent has zero gap, then each
child's final stored width is the truncating division `W / n` of the
parent's content width, and the `n` final widths sum to at most `W`.
With the default `flex_grow = 0` the split does not happen
(`fill_equal_split_counterexample`). -/
theorem fill_children_equal_split (fuel : Nat) (root out : Root)
    (ref : CapsuleRef) (gx gy : Int) (gw gh : Nat) (cap : Capsule)
    (style : Style) (sp : Space) (dw dh : Nat) (kids : List KidInfo)
    (hrun : root.compute_pass_2_layout (fuel + 2) ref gx gy gw gh = some out)
    (hcap : capAt root.capsules ref = some cap)
    (hstyle : root.styles[cap.style_ref]? = some (some style))
    (hsp : root.spaces[cap.space_ref]? = some (some sp))
    (hw : sp.width = some dw) (hh : sp.height = some dh)
    (hlay : style.layout = LayoutStrategy.Flex)
    (hflow : style.flow = Direction.Row)
    (hkids : cap.children = kids.map KidInfo.ref)
    (hok : ∀ k ∈ kids, KidOk root k)
    (hnd : (reachRefs (fuel + 2) root.capsules ref).Nodup)
    (g : ℚ) (hgpos : 0 < g)
    (hall : ∀ k ∈ kids, k.style.width = SizeSpec.Fill ∧
      k.style.position = Position.Auto ∧ k.style.flex_grow = g ∧ k.bw = 0)
    (hgap : style.gap = 0)
    (hWlt : rowContentW style gw dw < 2 ^ 32) :
    (∀ k ∈ kids, ∃ spk : Space, out.spaces[k.cap.space_ref]? = some (some spk) ∧
      spk.width = some (rowContentW style gw dw / kids.length)) ∧
    kids.length * (rowContentW style gw dw / kids.length) ≤
      rowContentW style gw dw := by
  have hmaster := pass2_row_children_widths fuel root out ref gx gy gw gh
    cap style sp dw dh kids hrun hcap hstyle hsp hw hh hlay hflow hkids hok hnd
  have hflowkids : kidsInFlow kids = kids := by
    unfold kidsInFlow
    apply List.filter_eq_self.mpr
    intro k hk
    simp [(hall k hk).2.1]
  have hbase : rowTotalBase kids = 0 := by
    unfold rowTotalBase
    rw [hflowkids]
    apply List.sum_eq_zero
    intro x hx
    obtain ⟨k, hk, rfl⟩ := List.mem_map.mp hx
    rw [(hall k hk).1]
    simp [SizeSpec.is_fill]
  have hRW : rowRemainingW style kids (rowContentW style gw dw) =
      ((rowContentW style gw dw : Nat) : ℚ) := by
    unfold rowRemainingW
    rw [hbase, hflowkids, hgap]
    cases kids <;> simp
  have hTG : rowTotalGrow kids = (kids.length : ℚ) * g := by
    unfold rowTotalGrow
    rw [hflowkids]
    rw [List.sum_eq_card_nsmul _ g ?_]
    · simp [nsmul_eq_mul]
    · intro x hx
      obtain ⟨k, hk, rfl⟩ := List.mem_map.mp hx
      exact (hall k hk).2.2.1
  constructor
  · intro k hk
    obtain ⟨spk, h1, h2⟩ := hmaster k hk (hall k hk).2.1
    refine ⟨spk, h1, ?_⟩
    rw [h2]
    unfold rowFinalWidth
    rw [(hall k hk).1]
    have hn : 0 < kids.length :=
      List.length_pos.mpr (fun hnil => by subst hnil; exact List.not_mem_nil k hk)
    congr 1
    rw [(hall k hk).2.2.2]
    rcases Nat.eq_zero_or_pos (rowContentW style gw dw) with hW0 | hWpos
    · have hRW0 : rowRemainingW style kids (rowContentW style gw dw) = 0 := by
        rw [hRW, hW0]
        norm_num
      unfold flex_final
      rw [hRW0, hW0]
      norm_num [f2u]
    · have hRWpos : 0 < rowRemainingW style kids (rowContentW style gw dw) := by
        rw [hRW]
        exact_mod_cast hWpos
      have hTGpos : 0 < rowTotalGrow kids := by
        rw [hTG]
        have : (0 : ℚ) < (kids.length : ℚ) := by exact_mod_cast hn
        positivity
      unfold flex_final
      rw [if_pos hRWpos]
      unfold rowGrowUnitW
      rw [if_pos ⟨hRWpos, hTGpos⟩, hRW, hTG, (hall k hk).2.2.1]
      have hg0 : g ≠ 0 := ne_of_gt hgpos
      have hn0 : ((kids.length : Nat) : ℚ) ≠ 0 := by
        exact_mod_cast Nat.pos_iff_ne_zero.mp hn
      have harith : ((0 : Nat) : ℚ) + g * ((rowContentW style gw dw : ℚ) /
          ((kids.length : ℚ) * g)) =
          (rowContentW style gw dw : ℚ) / (kids.length : ℚ) := by
        field_simp
        ring
      rw [harith, f2u_natCast_div _ _ hWlt]
  · rw [Nat.mul_comm]
    exact Nat.div_mul_le_self _ _

/-- Concrete scene for the amended C1: two `Fill` children with
`flex_grow 1` inside a 100-wide `Flex`/`Row` parent. -/
def c1fStyleC1 : Style :=
  { Style.default with width := SizeSpec.Fill, height := SizeSpec.Pixel 10,
                       flex_grow := 1 }

def c1fStyleC2 : Style :=
  { Style.default with width := SizeSpec.Fill, height := SizeSpec.Pixel 20,
                       flex_grow := 1 }

def c1fScene : Root where
  capsules := [⟨some ⟨0, none, 0, none, [⟨1, 0⟩, ⟨2, 0⟩]⟩, 0⟩,
               ⟨some ⟨1, some ⟨0, 0⟩, 1, none, []⟩, 0⟩,
               ⟨some ⟨2, some ⟨0, 0⟩, 2, none, []⟩, 0⟩]
  capsule_free_list := []
  spaces := [some ⟨0, 0, some 100, some 50⟩, some ⟨0, 0, some 0, some 0⟩,
             some ⟨0, 0, some 0, some 0⟩]
  styles := [some c1StyleP, some c1fStyleC1, some c1fStyleC2]
  dirties := []
  allocator := Allocator.new

def c1fKid1 : KidInfo :=
  ⟨⟨1, 0⟩, ⟨1, some ⟨0, 0⟩, 1, none, []⟩, c1fStyleC1, ⟨0, 0, some 0, some 0⟩, 0, 0⟩

def c1fKid2 : KidInfo :=
  ⟨⟨2, 0⟩, ⟨2, some ⟨0, 0⟩, 2, none, []⟩, c1fStyleC2, ⟨0, 0, some 0, some 0⟩, 0, 0⟩

def c1fOut : Root :=
  { c1fScene with
      spaces := [some ⟨0, 0, some 100, some 50⟩, some ⟨0, 0, some 50, some 10⟩,
                 some ⟨50, 0, some 50, some 20⟩] }

/-- Witness for the amended C1: the two grow-1 `Fill` children of the
100-wide parent each end up 50 wide, and 2 * 50 ≤ 100. -/
theorem fill_children_equal_split_witness :
    ((∀ k ∈ [c1fKid1, c1fKid2], ∃ spk : Space,
        c1fOut.spaces[k.cap.space_ref]? = some (some spk) ∧
        spk.width = some (rowContentW c1StyleP 300 100 / 2)) ∧
      2 * (rowContentW c1StyleP 300 100 / 2) ≤ rowContentW c1StyleP 300 100) ∧
    rowContentW c1StyleP 300 100 / 2 = 50 := by
  have hrun : Root.compute_pass_2_layout 2 c1fScene ⟨0, 0⟩ 0 0 300 300 =
      some c1fOut := by
    norm_num [Root.compute_pass_2_layout, Root.capStyle, Root.capStyleSpace,
      Root.get_capsule, capAt, c1fScene, c1StyleP, c1fStyleC1, c1fStyleC2, c1fOut,
      Style.default, Padding.default, Margin.default, Border.default,
      SizeSpec.resolve_size, flexPrepass, prepass_step, PrePass.init, forChildren,
      arrange_child, cross_override, flex_final, f2u, Rat.floor, Int.toNat_ofNat,
      Root.setSpace, SizeSpec.is_fill, SizeSpec.is_percent, SizeSpec.is_auto]
    decide
  have hok : ∀ k ∈ [c1fKid1, c1fKid2], KidOk c1fScene k := by
    intro k hk
    rcases List.mem_cons.mp hk with rfl | hk
    · exact ⟨rfl, rfl, rfl, rfl, rfl⟩
    · rw [List.mem_singleton] at hk
      subst hk
      exact ⟨rfl, rfl, rfl, rfl, rfl⟩
  have hnd : (reachRefs 2 c1fScene.capsules ⟨0, 0⟩).Nodup := by decide
  have hall : ∀ k ∈ [c1fKid1, c1fKid2], k.style.width = SizeSpec.Fill ∧
      k.style.position = Position.Auto ∧ k.style.flex_grow = 1 ∧ k.bw = 0 := by
    intro k hk
    rcases List.mem_cons.mp hk with rfl | hk
    · exact ⟨rfl, rfl, rfl, rfl⟩
    · rw [List.mem_singleton] at hk
      subst hk
      exact ⟨rfl, rfl, rfl, rfl⟩
  have h := fill_children_equal_split 0 c1fScene c1fOut ⟨0, 0⟩ 0 0 300 300
    ⟨0, none, 0, none, [⟨1, 0⟩, ⟨2, 0⟩]⟩ c1StyleP ⟨0, 0, some 100, some 50⟩ 100 50
    [c1fKid1, c1fKid2] hrun rfl rfl rfl rfl rfl rfl rfl rfl hok hnd
    1 one_pos hall rfl
    (by norm_num [rowContentW, c1StyleP, Style.default, Padding.default,
      Border.default, SizeSpec.resolve_size])
  exact ⟨h, by norm_num [rowContentW, c1StyleP, Style.default, Padding.default,
    Border.default, SizeSpec.resolve_size]⟩

/-! ### Stale handles and the wrapping generation counter (C4) -/

theorem set_append_length {α : Type} (l : List α) (b c : α) :
    (l ++ [b]).set l.length c = l ++ [c] := by
  induction l with
  | nil => rfl
  | cons a t ih => simp [List.set, ih]

theorem set_replicate_append {α : Type} (k : Nat) (a b c : α) :
    (List.replicate k a ++ [b]).set k c = List.replicate k a ++ [c] := by
  have h := set_append_length (List.replicate k a) b c
  rwa [List.length_replicate] at h

/-- The scene after creating one top-level node in a fresh root and then
recycling its slot `k` times (remove + add): the slot generation is
`k mod 2^32` and a `none` space/style slot is left behind per cycle. -/
def spinState (k : Nat) : Root where
  capsules := [⟨some ⟨k + 1, none, k, none, []⟩, k % 2 ^ 32⟩]
  capsule_free_list := []
  spaces := some ((Space.zero.with_width 8).with_height 8) ::
    (List.replicate k none ++ [some Space.zero])
  styles := List.replicate k none ++ [some Style.default]
  dirties := []
  allocator := Allocator.new

/-- The intermediate state of a cycle, right after the removal. -/
def postRemove (k : Nat) : Root where
  capsules := [⟨none, (k + 1) % 2 ^ 32⟩]
  capsule_free_list := [0]
  spaces := some ((Space.zero.with_width 8).with_height 8) ::
    List.replicate (k + 1) none
  styles := List.replicate (k + 1) none
  dirties := []
  allocator := Allocator.new

/-- One removal/recreation cycle of slot 0, through the public API. -/
def recycleOnce (root : Root) : Root :=
  (((root.remove_frame (root.capsules.length + 1)
      ⟨0, ((root.capsules[0]?).map CapsuleSlot.generation).getD 0⟩).getD
    root).add_frame none).1

def spins : Nat → Root
  | 0 => ((Root.new 8 8).add_frame none).1
  | k + 1 => recycleOnce (spins k)

theorem remove_spinState (k : Nat) :
    (spinState k).remove_frame 2 ⟨0, k % 2 ^ 32⟩ = some (postRemove k) := by
  have hmod : (k % 2 ^ 32 + 1) % 2 ^ 32 = (k + 1) % 2 ^ 32 := by omega
  simp [Root.remove_frame, Root.get_capsule, capAt, spinState, postRemove,
    Root.unbind_data, forChildren, List.set, set_replicate_append,
    List.replicate_succ', hmod, List.erase]

theorem add_postRemove (k : Nat) :
    ((postRemove k).add_frame none).1 = spinState (k + 1) := by
  simp [Root.add_frame, Root.internal_add_frame, postRemove, spinState,
    List.replicate_succ', List.set]

theorem spins_eq (k : Nat) : spins k = spinState k := by
  induction k with
  | zero => rfl
  | succ k ih =>
    rw [spins, ih]
    unfold recycleOnce
    have hlen : (spinState k).capsules.length + 1 = 2 := rfl
    have hgen : (((spinState k).capsules[0]?).map CapsuleSlot.generation).getD 0 =
        k % 2 ^ 32 := rfl
    rw [hlen, hgen, remove_spinState k]
    exact add_postRemove k

theorem get_capsule_eq_some_iff (root : Root) (n : CapsuleRef) (cap : Capsule) :
    root.get_capsule n = some cap ↔
    ∃ slot, root.capsules[n.id]? = some slot ∧
      slot.generation = n.generation ∧ slot.capsule = some cap := by
  unfold Root.get_capsule capAt
  constructor
  · intro h
    cases hm : root.capsules[n.id]? with
    | none => rw [hm] at h; cases h
    | some slot =>
      rw [hm] at h
      dsimp only at h
      by_cases hg : slot.generation = n.generation
      · rw [if_pos hg] at h
        exact ⟨slot, rfl, hg, h⟩
      · rw [if_neg hg] at h
        cases h
  · rintro ⟨slot, hm, hg, hcap⟩
    rw [hm]
    dsimp only
    rw [if_pos hg]
    exact hcap

theorem get_space_of_lookups (root : Root) (n : CapsuleRef) (cap : Capsule)
    (sp : Space) (hc : root.get_capsule n = some cap)
    (hsp : root.spaces[cap.space_ref]? = some (some sp)) :
    root.get_space n = some sp := by
  unfold Root.get_space
  rw [hc]
  dsimp only
  rw [hsp]

/-- Counterexample to C4 as stated: slot generations advance modulo
`2^32`, not strictly.  The handle `⟨0, 0⟩` of a removed node becomes
valid again after its slot has been recycled `2^32` times: the final
node creation (an `add_frame`) re-fills slot 0 at the wrapped-around
generation 0 and lookups through the old handle succeed again. -/
theorem generation_wrap_counterexample :
    (spins 0).get_space ⟨0, 0⟩ = some Space.zero ∧
    (spins 0).remove_frame 2 ⟨0, 0⟩ = some (postRemove 0) ∧
    (postRemove 0).get_space ⟨0, 0⟩ = none ∧
    (postRemove 0).get_style ⟨0, 0⟩ = none ∧
    spins (2 ^ 32) = ((postRemove (2 ^ 32 - 1)).add_frame none).1 ∧
    (spins (2 ^ 32)).get_space ⟨0, 0⟩ = some Space.zero := by
  refine ⟨rfl, ?_, rfl, rfl, ?_, ?_⟩
  · exact remove_spinState 0
  · have hsucc : spins (2 ^ 32) = recycleOnce (spins (2 ^ 32 - 1)) := by
      conv_lhs => rw [show (2 ^ 32 : Nat) = (2 ^ 32 - 1) + 1 from by norm_num, spins]
    rw [hsucc, spins_eq (2 ^ 32 - 1)]
    unfold recycleOnce
    have hlen : (spinState (2 ^ 32 - 1)).capsules.length + 1 = 2 := rfl
    have hgen : (((spinState (2 ^ 32 - 1)).capsules[0]?).map
        CapsuleSlot.generation).getD 0 = (2 ^ 32 - 1) % 2 ^ 32 := rfl
    rw [hlen, hgen, remove_spinState (2 ^ 32 - 1)]
    rfl
  · rw [spins_eq]
    have hidx := List.getElem?_concat_length
      (List.replicate (2 ^ 32) (none : Option Space)) (some Space.zero)
    rw [List.length_replicate] at hidx
    have hcap : (spinState (2 ^ 32)).get_capsule ⟨0, 0⟩ =
        some ⟨2 ^ 32 + 1, none, 2 ^ 32, none, []⟩ :=
      (get_capsule_eq_some_iff _ _ _).mpr
        ⟨⟨some ⟨2 ^ 32 + 1, none, 2 ^ 32, none, []⟩, 2 ^ 32 % 2 ^ 32⟩, rfl,
          Nat.mod_self (2 ^ 32), rfl⟩
    have hsp : (spinState (2 ^ 32)).spaces[(2 ^ 32 + 1 : Nat)]? =
        some (some Space.zero) := by
      show (some ((Space.zero.with_width 8).with_height 8) ::
        (List.replicate (2 ^ 32) none ++ [some Space.zero]))[(2 ^ 32 + 1 : Nat)]? = _
      rw [List.getElem?_cons_succ]
      exact hidx
    exact get_space_of_lookups _ _ _ _ hcap hsp

/-- A handle whose slot exists but carries a different generation; such
a handle fails every generation check. -/
def staleGen (root : Root) (n : CapsuleRef) : Prop :=
  ∃ g, ((root.capsules[n.id]?).map CapsuleSlot.generation) = some g ∧
    g ≠ n.generation

theorem staleGen_get_capsule (root : Root) (n : CapsuleRef)
    (h : staleGen root n) : root.get_capsule n = none := by
  obtain ⟨g, hs, hg⟩ := h
  unfold Root.get_capsule capAt
  cases hm : root.capsules[n.id]? with
  | none => rfl
  | some slot =>
    rw [hm] at hs
    dsimp only [Option.map] at hs
    injection hs with hs
    dsimp only
    rw [if_neg]
    omega

/-- `modify through get_capsule_mut` never changes any slot's
generation. -/
theorem modifyCapsule_slotGen (root : Root) (p : CapsuleRef)
    (f : Capsule → Capsule) (i : Nat) :
    (((root.modifyCapsule p f).capsules[i]?).map CapsuleSlot.generation) =
      ((root.capsules[i]?).map CapsuleSlot.generation) := by
  unfold Root.modifyCapsule
  cases hm : root.capsules[p.id]? with
  | none => rfl
  | some slot =>
    dsimp only
    by_cases hgen : slot.generation = p.generation
    · rw [if_pos hgen]
      cases hc : slot.capsule with
      | none => rfl
      | some c =>
        dsimp only
        by_cases hip : i = p.id
        · subst hip
          have hlt : p.id < root.capsules.length := (List.getElem?_eq_some.mp hm).1
          rw [List.getElem?_set_eq_of_lt _ hlt, hm]
          rfl
        · rw [List.getElem?_set_ne (fun h => hip h.symm)]
    · rw [if_neg hgen]

/-- Node creation never changes any existing slot's generation, so it
keeps a generation-stale handle stale. -/
theorem internal_add_staleGen (root : Root) (parent_ref : Option CapsuleRef)
    (data : Option Nat) (n : CapsuleRef) (h : staleGen root n) :
    staleGen (root.internal_add_frame parent_ref data).1 n := by
  obtain ⟨g, hs, hg⟩ := h
  have hlt : n.id < root.capsules.length := by
    cases hm : root.capsules[n.id]? with
    | none => rw [hm] at hs; simp at hs
    | some slot => exact (List.getElem?_eq_some.mp hm).1
  unfold Root.internal_add_frame
  dsimp only
  cases hfl : root.capsule_free_list with
  | cons recycled_id rest =>
    dsimp only
    have hstep : staleGen
        { root with
          spaces := root.spaces ++ [some Space.zero]
          styles := root.styles ++ [some Style.default]
          capsules := root.capsules.set recycled_id
            ⟨some ⟨root.spaces.length, parent_ref, root.styles.length, data, []⟩,
             ((root.capsules[recycled_id]?).map CapsuleSlot.generation).getD 0⟩
          capsule_free_list := rest } n := by
      by_cases hin : n.id = recycled_id
      · subst hin
        refine ⟨g, ?_, hg⟩
        show ((root.capsules.set n.id _)[n.id]?).map CapsuleSlot.generation = some g
        rw [List.getElem?_set_eq_of_lt _ hlt]
        cases hm : root.capsules[n.id]? with
        | none => rw [hm] at hs; simp at hs
        | some slot =>
          rw [hm] at hs
          dsimp only [Option.map] at hs
          injection hs with hs
          dsimp only [Option.map, Option.getD]
          rw [hs]
      · refine ⟨g, ?_, hg⟩
        show ((root.capsules.set recycled_id _)[n.id]?).map
          CapsuleSlot.generation = some g
        rw [List.getElem?_set_ne (fun h => hin h.symm)]
        exact hs
    cases parent_ref with
    | none => exact hstep
    | some pref =>
      obtain ⟨g1, hs1, hg1⟩ := hstep
      exact ⟨g1, by rw [modifyCapsule_slotGen]; exact hs1, hg1⟩
  | nil =>
    dsimp only
    have hstep : staleGen
        { root with
          spaces := root.spaces ++ [some Space.zero]
          styles := root.styles ++ [some Style.default]
          capsules := root.capsules ++
            [⟨some ⟨root.spaces.length, parent_ref, root.styles.length, data, []⟩, 0⟩] } n := by
      refine ⟨g, ?_, hg⟩
      show ((root.capsules ++ _)[n.id]?).map CapsuleSlot.generation = some g
      rw [List.getElem?_append_left hlt]
      exact hs
    cases parent_ref with
    | none => exact hstep
    | some pref =>
      obtain ⟨g1, hs1, hg1⟩ := hstep
      exact ⟨g1, by rw [modifyCapsule_slotGen]; exact hs1, hg1⟩

/-- An arbitrary sequence of node creations (`add_frame` /
`add_frame_child` requests, each with any parent handle and data). -/
def creations (root : Root) (reqs : List (Option CapsuleRef × Option Nat)) : Root :=
  reqs.foldl (fun r pq => (r.internal_add_frame pq.1 pq.2).1) root

theorem creations_staleGen (reqs : List (Option CapsuleRef × Option Nat)) :
    ∀ (root : Root) (n : CapsuleRef), staleGen root n →
      staleGen (creations root reqs) n := by
  induction reqs with
  | nil => intro root n h; exact h
  | cons pq rest ih =>
    intro root n h
    exact ih _ n (internal_add_staleGen root pq.1 pq.2 n h)

theorem unbind_slotGen (root : Root) (n : CapsuleRef) (i : Nat) :
    (((root.unbind_data n).1.capsules[i]?).map CapsuleSlot.generation) =
      ((root.capsules[i]?).map CapsuleSlot.generation) := by
  unfold Root.unbind_data
  cases hc : root.get_capsule n with
  | none => rfl
  | some capsule =>
    dsimp only
    cases hd : capsule.data_ref with
    | none => rfl
    | some dr =>
      dsimp only
      rw [modifyCapsule_slotGen]

/-- C4 (amended): after a successful `remove_frame(n)` both lookups
through `n` return `None`; removing a live leaf leaves `n`'s slot at a
different generation (the bump is modulo `2^32`), and since node
creations never change slot generations, any further sequence of
creations keeps both lookups `None`.  Removals, however, advance the
generation only modulo `2^32`, so the handle is not invalid forever
(`generation_wrap_counterexample`). -/
theorem remove_frame_invalidates (fuel : Nat) (root out : Root) (n : CapsuleRef)
    (hrm : root.remove_frame fuel n = some out) :
    out.get_space n = none ∧ out.get_style n = none ∧
    (∀ cap, root.get_capsule n = some cap → cap.children = [] →
      staleGen out n) ∧
    (staleGen out n → ∀ reqs : List (Option CapsuleRef × Option Nat),
      (creations out reqs).get_space n = none ∧
      (creations out reqs).get_style n = none) := by
  have hcrea : staleGen out n →
      ∀ reqs : List (Option CapsuleRef × Option Nat),
      (creations out reqs).get_space n = none ∧
      (creations out reqs).get_style n = none := by
    intro h reqs
    have hgc := staleGen_get_capsule _ _ (creations_staleGen reqs out n h)
    constructor
    · unfold Root.get_space
      rw [hgc]
    · unfold Root.get_style
      rw [hgc]
  cases fuel with
  | zero => exact absurd hrm (by simp [Root.remove_frame])
  | succ f =>
    rw [Root.remove_frame] at hrm
    cases hcap : root.get_capsule n with
    | none =>
      rw [hcap] at hrm
      simp only [Option.some.injEq] at hrm
      subst hrm
      refine ⟨?_, ?_, ?_, hcrea⟩
      · unfold Root.get_space
        rw [hcap]
      · unfold Root.get_style
        rw [hcap]
      · intro cap hc
        cases hc
    | some capsule =>
      rw [hcap] at hrm
      dsimp only at hrm
      cases hfc : forChildren (fun c r => Root.remove_frame f r c)
          capsule.children (root.unbind_data n).1 with
      | none => rw [hfc] at hrm; cases hrm
      | some root2 =>
        rw [hfc] at hrm
        dsimp only at hrm
        -- the slot of `n` in `root`: live, so its generation matches
        have hslot0 : ∃ slot0, root.capsules[n.id]? = some slot0 ∧
            slot0.generation = n.generation ∧ slot0.capsule = some capsule := by
          unfold Root.get_capsule capAt at hcap
          cases hm : root.capsules[n.id]? with
          | none => rw [hm] at hcap; cases hcap
          | some slot0 =>
            rw [hm] at hcap
            dsimp only at hcap
            by_cases hg : slot0.generation = n.generation
            · rw [if_pos hg] at hcap
              exact ⟨slot0, rfl, hg, hcap⟩
            · rw [if_neg hg] at hcap
              cases hcap
        obtain ⟨slot0, hm0, hg0, hc0⟩ := hslot0
        split at hrm
        · rename_i slot hslotr
          simp only [Option.some.injEq] at hrm
          have hltr : n.id < _ := (List.getElem?_eq_some.mp hslotr).1
          have hout : out.capsules[n.id]? =
              some ⟨none, (slot.generation + 1) % 2 ^ 32⟩ := by
            rw [← hrm]
            dsimp only
            exact List.getElem?_set_eq_of_lt _ hltr
          have hgone : out.get_capsule n = none := by
            unfold Root.get_capsule capAt
            rw [hout]
            dsimp only
            split <;> rfl
          refine ⟨?_, ?_, ?_, hcrea⟩
          · unfold Root.get_space
            rw [hgone]
          · unfold Root.get_style
            rw [hgone]
          · intro cap hc hchi
            injection hc with hc
            subst hc
            rw [hchi] at hfc
            simp only [forChildren, Option.some.injEq] at hfc
            subst hfc
            -- the scrutinised slot still carries n's generation
            have hgeq : slot.generation = n.generation := by
              have hchain : ((root.unbind_data n).1.capsules[n.id]?).map
                  CapsuleSlot.generation = some slot0.generation := by
                rw [unbind_slotGen, hm0]
                rfl
              have : some slot.generation = some slot0.generation := by
                rw [← hchain]
                cases hpar : capsule.parent_ref with
                | none =>
                  rw [hpar] at hslotr
                  dsimp only at hslotr
                  rw [hslotr]
                  rfl
                | some pref =>
                  rw [hpar] at hslotr
                  dsimp only at hslotr
                  revert hslotr
                  split
                  · intro hslotr
                    rw [(set_dirty_eqs _ pref).1] at hslotr
                    have hmap := congrArg (Option.map CapsuleSlot.generation) hslotr
                    rw [modifyCapsule_slotGen] at hmap
                    rw [hmap]
                    rfl
                  · intro hslotr
                    rw [hslotr]
                    rfl
              rw [hg0] at this
              injection this
            refine ⟨(slot.generation + 1) % 2 ^ 32, by rw [hout]; rfl, ?_⟩
            rw [hgeq]
            omega
        · rename_i hslotr
          simp only [Option.some.injEq] at hrm
          have hgone : out.get_capsule n = none := by
            unfold Root.get_capsule capAt
            rw [← hrm]
            dsimp only
            rw [hslotr]
          refine ⟨?_, ?_, ?_, hcrea⟩
          · unfold Root.get_space
            rw [hgone]
          · unfold Root.get_style
            rw [hgone]
          · intro cap hc hchi
            injection hc with hc
            subst hc
            rw [hchi] at hfc
            simp only [forChildren, Option.some.injEq] at hfc
            subst hfc
            exfalso
            have hchain : ((root.unbind_data n).1.capsules[n.id]?).map
                CapsuleSlot.generation = some slot0.generation := by
              rw [unbind_slotGen, hm0]
              rfl
            cases hpar : capsule.parent_ref with
            | none =>
              rw [hpar] at hslotr
              dsimp only at hslotr
              rw [hslotr] at hchain
              cases hchain
            | some pref =>
              rw [hpar] at hslotr
              dsimp only at hslotr
              revert hslotr
              split
              · intro hslotr
                rw [(set_dirty_eqs _ pref).1] at hslotr
                have hmap := congrArg (Option.map CapsuleSlot.generation) hslotr
                rw [modifyCapsule_slotGen] at hmap
                rw [hmap] at hchain
                simp at hchain
              · intro hslotr
                rw [hslotr] at hchain
                simp at hchain

/-- Witness for the amended C4: removing the only node of a fresh root
invalidates its handle, and two further creations (one top-level, one
aimed at the recycled slot) leave it invalid. -/
theorem remove_frame_invalidates_witness :
    (postRemove 0).get_space ⟨0, 0⟩ = none ∧
    (postRemove 0).get_style ⟨0, 0⟩ = none ∧
    staleGen (postRemove 0) ⟨0, 0⟩ ∧
    (creations (postRemove 0)
      [(none, none), (some ⟨0, 1⟩, some 5)]).get_space ⟨0, 0⟩ = none := by
  have hrm : (spins 0).remove_frame 2 ⟨0, 0⟩ = some (postRemove 0) := by
    rw [spins_eq 0]
    exact remove_spinState 0
  have h := remove_frame_invalidates 2 (spins 0) (postRemove 0) ⟨0, 0⟩ hrm
  have hcap : (spins 0).get_capsule ⟨0, 0⟩ = some ⟨1, none, 0, none, []⟩ := by
    rw [spins_eq 0]
    rfl
  have hstale := h.2.2.1 ⟨1, none, 0, none, []⟩ hcap rfl
  exact ⟨h.1, h.2.1, hstale,
    (h.2.2.2 hstale [(none, none), (some ⟨0, 1⟩, some 5)]).1⟩

/-! ### The parent/children structural invariant (C5) -/

/-- The structural invariant: (A) every live node with a parent
reference points at a live parent that lists the node's current handle
exactly once; (B) every entry of a live node's children list is a live
node whose back-pointer is the owner's current handle; (C) every
free-list id names an allocated but dead slot; (D) the free list has no
duplicates. -/
def InvS (root : Root) : Prop :=
  (∀ (i : Nat) (slot : CapsuleSlot) (cap : Capsule) (p : CapsuleRef),
    root.capsules[i]? = some slot → slot.capsule = some cap →
    cap.parent_ref = some p →
    ∃ pslot pcap, root.capsules[p.id]? = some pslot ∧
      pslot.generation = p.generation ∧ pslot.capsule = some pcap ∧
      pcap.children.count (⟨i, slot.generation⟩ : CapsuleRef) = 1) ∧
  (∀ (i : Nat) (slot : CapsuleSlot) (cap : Capsule),
    root.capsules[i]? = some slot → slot.capsule = some cap →
    ∀ c ∈ cap.children,
    ∃ cslot ccap, root.capsules[c.id]? = some cslot ∧
      cslot.generation = c.generation ∧ cslot.capsule = some ccap ∧
      ccap.parent_ref = some (⟨i, slot.generation⟩ : CapsuleRef)) ∧
  (∀ id ∈ root.capsule_free_list, ∃ slot, root.capsules[id]? = some slot ∧
    slot.capsule = none) ∧
  root.capsule_free_list.Nodup

/-- `InvS` reads only the capsule store and the free list. -/
theorem invS_congr (a b : Root) (hc : b.capsules = a.capsules)
    (hf : b.capsule_free_list = a.capsule_free_list) (h : InvS a) : InvS b := by
  obtain ⟨hA, hB, hC, hD⟩ := h
  refine ⟨?_, ?_, ?_, ?_⟩
  · intro i slot cap p hs hcap hp
    rw [hc] at hs
    obtain ⟨ps, pc, h1, h2, h3, h4⟩ := hA i slot cap p hs hcap hp
    exact ⟨ps, pc, by rw [hc]; exact h1, h2, h3, h4⟩
  · intro i slot cap hs hcap c hcmem
    rw [hc] at hs
    obtain ⟨cs, cc, h1, h2, h3, h4⟩ := hB i slot cap hs hcap c hcmem
    exact ⟨cs, cc, by rw [hc]; exact h1, h2, h3, h4⟩
  · intro id hid
    rw [hf] at hid
    obtain ⟨slot, h1, h2⟩ := hC id hid
    exact ⟨slot, by rw [hc]; exact h1, h2⟩
  · rw [hf]; exact hD

/-- The root produced by calling `add_frame_child` through the stale
handle `⟨0, 0⟩` of `postRemove 0`. -/
def c5Broken : Root := ((postRemove 0).add_frame_child ⟨⟨0, 0⟩⟩ none).1

/-- Counterexample to C5 as stated: `postRemove 0` satisfies the
structural invariant, yet `add_frame_child` through the stale handle
`⟨0, 0⟩` produces a live node whose parent reference is present but
dangling — the referenced parent is not live, let alone listing the
node once. -/
theorem parent_invariant_broken_counterexample :
    InvS (postRemove 0) ∧
    (∃ slot cap, c5Broken.capsules[0]? = some slot ∧
      slot.capsule = some cap ∧ cap.parent_ref = some ⟨0, 0⟩ ∧
      c5Broken.get_capsule ⟨0, 0⟩ = none) := by
  constructor
  · refine ⟨?_, ?_, ?_, ?_⟩
    · intro i slot cap p hs hcap hp
      match i, hs with
      | 0, hs =>
        simp only [postRemove, List.getElem?_cons_zero, Option.some.injEq] at hs
        rw [← hs] at hcap
        cases hcap
    · intro i slot cap hs hcap
      match i, hs with
      | 0, hs =>
        simp only [postRemove, List.getElem?_cons_zero, Option.some.injEq] at hs
        rw [← hs] at hcap
        cases hcap
    · intro id hid
      have : id = 0 := by
        simpa [postRemove] using hid
      subst this
      exact ⟨⟨none, 1 % 2 ^ 32⟩, rfl, rfl⟩
    · show List.Nodup [0]
      simp
  · exact ⟨⟨some ⟨2, some ⟨0, 0⟩, 1, none, []⟩, 1 % 2 ^ 32⟩,
      ⟨2, some ⟨0, 0⟩, 1, none, []⟩, rfl, rfl, rfl, rfl⟩

theorem count_append_single_ne {α : Type} [DecidableEq α] (l : List α) (a b : α)
    (h : a ≠ b) : (l ++ [b]).count a = l.count a := by
  simp [List.count_append, List.count_singleton', h]

theorem count_append_single_self {α : Type} [DecidableEq α] (l : List α) (a : α) :
    (l ++ [a]).count a = l.count a + 1 := by
  simp [List.count_append]

/-- Node creation preserves the structural invariant whenever the
requested parent (if any) is live. -/
theorem invS_internal_add (root : Root) (parent_ref : Option CapsuleRef)
    (data : Option Nat) (hinv : InvS root)
    (hpar : ∀ p, parent_ref = some p → ∃ pcap, root.get_capsule p = some pcap) :
    InvS (root.internal_add_frame parent_ref data).1 := by
  obtain ⟨hA, hB, hC, hD⟩ := hinv
  unfold Root.internal_add_frame
  dsimp only
  cases hfl : root.capsule_free_list with
  | cons recycled_id rest =>
    dsimp only
    obtain ⟨dslot, hdm, hdnone⟩ := hC recycled_id (by rw [hfl]; exact List.mem_cons_self _ _)
    have hdlt : recycled_id < root.capsules.length := (List.getElem?_eq_some.mp hdm).1
    have hgen : ((root.capsules[recycled_id]?).map CapsuleSlot.generation).getD 0 =
        dslot.generation := by rw [hdm]; rfl
    -- a live slot is never the recycled one
    have hlive_ne : ∀ (i : Nat) (slot : CapsuleSlot) (cap : Capsule),
        root.capsules[i]? = some slot → slot.capsule = some cap →
        i ≠ recycled_id := by
      intro i slot cap hs hcap hi
      subst hi
      rw [hs] at hdm
      injection hdm with hdm
      rw [← hdm] at hdnone
      rw [hcap] at hdnone
      cases hdnone
    have hrest_ne : ∀ id ∈ rest, id ≠ recycled_id := by
      intro id hid
      have := hD
      rw [hfl] at this
      intro hidr
      subst hidr
      exact (List.nodup_cons.mp this).1 hid
    cases parent_ref with
    | none =>
      dsimp only
      rw [hgen]
      constructor
      · intro i slot cap p hs hcap hp
        by_cases hir : i = recycled_id
        · subst hir
          rw [List.getElem?_set_eq_of_lt _ hdlt] at hs
          injection hs with hs
          rw [← hs] at hcap
          injection hcap with hcap
          rw [← hcap] at hp
          cases hp
        · rw [List.getElem?_set_ne (fun h => hir h.symm)] at hs
          obtain ⟨ps, pc, h1, h2, h3, h4⟩ := hA i slot cap p hs hcap hp
          have hpne : p.id ≠ recycled_id := hlive_ne p.id ps pc h1 h3
          exact ⟨ps, pc, by
            rw [List.getElem?_set_ne (fun h => hpne h.symm)]; exact h1, h2, h3, h4⟩
      · refine ⟨?_, ?_, ?_⟩
        · intro i slot cap hs hcap c hc
          by_cases hir : i = recycled_id
          · subst hir
            rw [List.getElem?_set_eq_of_lt _ hdlt] at hs
            injection hs with hs
            rw [← hs] at hcap
            injection hcap with hcap
            rw [← hcap] at hc
            exact absurd hc (List.not_mem_nil c)
          · rw [List.getElem?_set_ne (fun h => hir h.symm)] at hs
            obtain ⟨cs, cc, h1, h2, h3, h4⟩ := hB i slot cap hs hcap c hc
            have hcne : c.id ≠ recycled_id := hlive_ne c.id cs cc h1 h3
            exact ⟨cs, cc, by
              rw [List.getElem?_set_ne (fun h => hcne h.symm)]; exact h1, h2, h3, h4⟩
        · intro id hid
          obtain ⟨slot, h1, h2⟩ := hC id (by rw [hfl]; exact List.mem_cons_of_mem _ hid)
          exact ⟨slot, by
            rw [List.getElem?_set_ne (fun h => (hrest_ne id hid) h.symm)]; exact h1, h2⟩
        · have := hD
          rw [hfl] at this
          exact (List.nodup_cons.mp this).2
    | some pref =>
      dsimp only
      rw [hgen]
      obtain ⟨pcap, hplive⟩ := hpar pref rfl
      obtain ⟨pslot, hpm, hpg, hpc⟩ := (get_capsule_eq_some_iff root pref pcap).mp hplive
      have hpne : pref.id ≠ recycled_id := hlive_ne pref.id pslot pcap hpm hpc
      have hplt : pref.id < root.capsules.length := (List.getElem?_eq_some.mp hpm).1
      -- the modify step on the parent succeeds
      unfold Root.modifyCapsule
      rw [List.getElem?_set_ne (fun h => hpne h.symm), hpm]
      try dsimp only
      rw [if_pos hpg]
      try dsimp only
      rw [hpc]
      try dsimp only
      -- final lookup characterisation
      have hlookup : ∀ i : Nat,
          ((root.capsules.set recycled_id
            ⟨some ⟨root.spaces.length, some pref, root.styles.length, data, []⟩,
              dslot.generation⟩).set pref.id
            ⟨some { pcap with children := pcap.children ++
              [⟨recycled_id, dslot.generation⟩] }, pslot.generation⟩)[i]? =
          if i = pref.id then
            some ⟨some { pcap with children := pcap.children ++
              [⟨recycled_id, dslot.generation⟩] }, pslot.generation⟩
          else if i = recycled_id then
            some ⟨some ⟨root.spaces.length, some pref, root.styles.length, data, []⟩,
              dslot.generation⟩
          else root.capsules[i]? := by
        intro i
        by_cases hip : i = pref.id
        · subst hip
          rw [if_pos rfl]
          rw [List.getElem?_set_eq_of_lt]
          rw [List.length_set]
          exact hplt
        · rw [if_neg hip, List.getElem?_set_ne (fun h => hip h.symm)]
          by_cases hir : i = recycled_id
          · subst hir
            rw [if_pos rfl, List.getElem?_set_eq_of_lt _ hdlt]
          · rw [if_neg hir, List.getElem?_set_ne (fun h => hir h.symm)]
      -- the new handle is not already a child of the parent
      have hnotmem : (⟨recycled_id, dslot.generation⟩ : CapsuleRef) ∉ pcap.children := by
        intro hmem
        obtain ⟨cs, cc, h1, h2, h3, _⟩ := hB pref.id pslot pcap hpm hpc _ hmem
        exact hlive_ne recycled_id cs cc h1 h3 rfl
      constructor
      · intro i slot cap p hs hcap hp
        rw [hlookup] at hs
        by_cases hip : i = pref.id
        · rw [if_pos hip] at hs
          subst hip
          injection hs with hs
          rw [← hs] at hcap
          injection hcap with hcap
          rw [← hcap] at hp
          dsimp only at hp
          obtain ⟨qs, qc, h1, h2, h3, h4⟩ := hA pref.id pslot pcap p hpm hpc hp
          have hqne : p.id ≠ recycled_id := hlive_ne p.id qs qc h1 h3
          rw [← hs]
          by_cases hqp : p.id = pref.id
          · -- self-parent
            refine ⟨_, _, by rw [hlookup, if_pos hqp], ?_, rfl, ?_⟩
            · rw [hqp] at h1
              rw [hpm] at h1
              injection h1 with h1
              rw [← h1] at h2
              exact h2
            · dsimp only
              rw [hqp] at h1
              rw [hpm] at h1
              injection h1 with h1
              rw [← h1, hpc] at h3
              injection h3 with h3
              rw [← h3] at h4
              rw [count_append_single_ne]
              · exact h4
              · intro he
                exact hpne (congrArg CapsuleRef.id he)
          · refine ⟨qs, qc, by
              rw [hlookup, if_neg hqp, if_neg (fun h => hqne h)]; exact h1, h2, h3, ?_⟩
            exact h4
        · rw [if_neg hip] at hs
          by_cases hir : i = recycled_id
          · rw [if_pos hir] at hs
            subst hir
            injection hs with hs
            rw [← hs] at hcap
            injection hcap with hcap
            rw [← hcap] at hp
            dsimp only at hp
            injection hp with hp
            subst hp
            refine ⟨⟨some { pcap with children := pcap.children ++
                [⟨i, dslot.generation⟩] }, pslot.generation⟩,
              { pcap with children := pcap.children ++
                [⟨i, dslot.generation⟩] },
              by rw [hlookup, if_pos rfl], hpg, rfl, ?_⟩
            rw [← hs]
            dsimp only
            rw [count_append_single_self, List.count_eq_zero.mpr hnotmem]
          · rw [if_neg hir] at hs
            obtain ⟨qs, qc, h1, h2, h3, h4⟩ := hA i slot cap p hs hcap hp
            have hqne : p.id ≠ recycled_id := hlive_ne p.id qs qc h1 h3
            by_cases hqp : p.id = pref.id
            · rw [hqp] at h1
              rw [hpm] at h1
              injection h1 with h1
              refine ⟨_, _, by rw [hlookup, if_pos hqp], by rw [← h1] at h2; exact h2,
                rfl, ?_⟩
              dsimp only
              rw [← h1, hpc] at h3
              injection h3 with h3
              rw [← h3] at h4
              rw [count_append_single_ne]
              · exact h4
              · intro he
                exact hir (congrArg CapsuleRef.id he)
            · exact ⟨qs, qc, by
                rw [hlookup, if_neg hqp, if_neg (fun h => hqne h)]; exact h1, h2, h3, h4⟩
      · refine ⟨?_, ?_, ?_⟩
        · intro i slot cap hs hcap c hc
          rw [hlookup] at hs
          by_cases hip : i = pref.id
          · rw [if_pos hip] at hs
            subst hip
            injection hs with hs
            rw [← hs] at hcap
            injection hcap with hcap
            rw [← hcap] at hc
            dsimp only at hc
            rcases List.mem_append.mp hc with hold | hnew
            · obtain ⟨cs, cc, h1, h2, h3, h4⟩ := hB pref.id pslot pcap hpm hpc c hold
              have hcne : c.id ≠ recycled_id := hlive_ne c.id cs cc h1 h3
              by_cases hcp : c.id = pref.id
              · rw [hcp] at h1
                rw [hpm] at h1
                injection h1 with h1
                refine ⟨_, _, by rw [hlookup, if_pos hcp], by rw [← h1] at h2; exact h2,
                  rfl, ?_⟩
                dsimp only
                rw [← h1, hpc] at h3
                injection h3 with h3
                rw [← h3] at h4
                rw [← hs]
                exact h4
              · refine ⟨cs, cc, by
                  rw [hlookup, if_neg hcp, if_neg (fun h => hcne h)]; exact h1, h2, h3, ?_⟩
                rw [← hs]
                exact h4
            · rw [List.mem_singleton] at hnew
              subst hnew
              refine ⟨⟨some ⟨root.spaces.length, some pref, root.styles.length, data, []⟩,
                  dslot.generation⟩,
                ⟨root.spaces.length, some pref, root.styles.length, data, []⟩,
                by rw [hlookup, if_neg (fun h => hpne h.symm), if_pos rfl],
                rfl, rfl, ?_⟩
              dsimp only
              rw [← hs]
              dsimp only
              rw [hpg]
          · rw [if_neg hip] at hs
            by_cases hir : i = recycled_id
            · rw [if_pos hir] at hs
              subst hir
              injection hs with hs
              rw [← hs] at hcap
              injection hcap with hcap
              rw [← hcap] at hc
              exact absurd hc (List.not_mem_nil c)
            · rw [if_neg hir] at hs
              obtain ⟨cs, cc, h1, h2, h3, h4⟩ := hB i slot cap hs hcap c hc
              have hcne : c.id ≠ recycled_id := hlive_ne c.id cs cc h1 h3
              by_cases hcp : c.id = pref.id
              · rw [hcp] at h1
                rw [hpm] at h1
                injection h1 with h1
                refine ⟨_, _, by rw [hlookup, if_pos hcp], by rw [← h1] at h2; exact h2,
                  rfl, ?_⟩
                dsimp only
                rw [← h1, hpc] at h3
                injection h3 with h3
                rw [← h3] at h4
                exact h4
              · exact ⟨cs, cc, by
                  rw [hlookup, if_neg hcp, if_neg (fun h => hcne h)]; exact h1, h2, h3, h4⟩
        · intro id hid
          obtain ⟨slot, h1, h2⟩ := hC id (by rw [hfl]; exact List.mem_cons_of_mem _ hid)
          have hidp : id ≠ pref.id := by
            intro h
            subst h
            rw [hpm] at h1
            injection h1 with h1
            rw [← h1, hpc] at h2
            cases h2
          exact ⟨slot, by
            rw [hlookup, if_neg hidp, if_neg (hrest_ne id hid)]; exact h1, h2⟩
        · have := hD
          rw [hfl] at this
          exact (List.nodup_cons.mp this).2
  | nil =>
    dsimp only
    have hfresh : ∀ (i : Nat) (slot : CapsuleSlot) (cap : Capsule),
        root.capsules[i]? = some slot → slot.capsule = some cap →
        i < root.capsules.length :=
      fun i slot cap hs _ => (List.getElem?_eq_some.mp hs).1
    cases parent_ref with
    | none =>
      dsimp only
      constructor
      · intro i slot cap p hs hcap hp
        by_cases hilt : i < root.capsules.length
        · rw [List.getElem?_append_left hilt] at hs
          obtain ⟨ps, pc, h1, h2, h3, h4⟩ := hA i slot cap p hs hcap hp
          exact ⟨ps, pc, by
            rw [List.getElem?_append_left (hfresh p.id ps pc h1 h3)]; exact h1, h2, h3, h4⟩
        · have : i = root.capsules.length := by
            rcases List.getElem?_eq_some.mp hs with ⟨hb, _⟩
            simp only [List.length_append, List.length_cons, List.length_nil] at hb
            omega
          subst this
          rw [List.getElem?_concat_length] at hs
          injection hs with hs
          rw [← hs] at hcap
          injection hcap with hcap
          rw [← hcap] at hp
          cases hp
      · refine ⟨?_, ?_, ?_⟩
        · intro i slot cap hs hcap c hc
          by_cases hilt : i < root.capsules.length
          · rw [List.getElem?_append_left hilt] at hs
            obtain ⟨cs, cc, h1, h2, h3, h4⟩ := hB i slot cap hs hcap c hc
            exact ⟨cs, cc, by
              rw [List.getElem?_append_left (hfresh c.id cs cc h1 h3)]; exact h1, h2, h3, h4⟩
          · have : i = root.capsules.length := by
              rcases List.getElem?_eq_some.mp hs with ⟨hb, _⟩
              simp only [List.length_append, List.length_cons, List.length_nil] at hb
              omega
            subst this
            rw [List.getElem?_concat_length] at hs
            injection hs with hs
            rw [← hs] at hcap
            injection hcap with hcap
            rw [← hcap] at hc
            exact absurd hc (List.not_mem_nil c)
        · intro id hid
          exact absurd hid (List.not_mem_nil id)
        · exact List.nodup_nil
    | some pref =>
      dsimp only
      obtain ⟨pcap, hplive⟩ := hpar pref rfl
      obtain ⟨pslot, hpm, hpg, hpc⟩ := (get_capsule_eq_some_iff root pref pcap).mp hplive
      have hplt : pref.id < root.capsules.length := (List.getElem?_eq_some.mp hpm).1
      unfold Root.modifyCapsule
      rw [List.getElem?_append_left hplt, hpm]
      try dsimp only
      rw [if_pos hpg]
      try dsimp only
      rw [hpc]
      try dsimp only
      have hlookup : ∀ i : Nat,
          ((root.capsules ++
            [(⟨some ⟨root.spaces.length, some pref, root.styles.length, data, []⟩, 0⟩ :
              CapsuleSlot)]).set
              pref.id
            (⟨some { pcap with children := pcap.children ++
              [⟨root.capsules.length, 0⟩] }, pslot.generation⟩ : CapsuleSlot))[i]? =
          if i = pref.id then
            some ⟨some { pcap with children := pcap.children ++
              [⟨root.capsules.length, 0⟩] }, pslot.generation⟩
          else if i = root.capsules.length then
            some ⟨some ⟨root.spaces.length, some pref, root.styles.length, data, []⟩, 0⟩
          else root.capsules[i]? := by
        intro i
        by_cases hip : i = pref.id
        · subst hip
          rw [if_pos rfl]
          rw [List.getElem?_set_eq_of_lt]
          simp only [List.length_append, List.length_cons, List.length_nil]
          omega
        · rw [if_neg hip, List.getElem?_set_ne (fun h => hip h.symm)]
          by_cases hir : i = root.capsules.length
          · subst hir
            rw [if_pos rfl, List.getElem?_concat_length]
          · rw [if_neg hir]
            by_cases hilt : i < root.capsules.length
            · rw [List.getElem?_append_left hilt]
            · rw [List.getElem?_eq_none, List.getElem?_eq_none]
              · omega
              · simp only [List.length_append, List.length_cons, List.length_nil]
                omega
      have hlive_ne : ∀ (i : Nat) (slot : CapsuleSlot) (cap : Capsule),
          root.capsules[i]? = some slot → slot.capsule = some cap →
          i ≠ root.capsules.length := by
        intro i slot cap hs _ hi
        have := (List.getElem?_eq_some.mp hs).1
        omega
      have hnotmem : (⟨root.capsules.length, 0⟩ : CapsuleRef) ∉ pcap.children := by
        intro hmem
        obtain ⟨cs, cc, h1, h2, h3, _⟩ := hB pref.id pslot pcap hpm hpc _ hmem
        exact hlive_ne root.capsules.length cs cc h1 h3 rfl
      have hpne : pref.id ≠ root.capsules.length := by omega
      constructor
      · intro i slot cap p hs hcap hp
        rw [hlookup] at hs
        by_cases hip : i = pref.id
        · rw [if_pos hip] at hs
          subst hip
          injection hs with hs
          rw [← hs] at hcap
          injection hcap with hcap
          rw [← hcap] at hp
          dsimp only at hp
          obtain ⟨qs, qc, h1, h2, h3, h4⟩ := hA pref.id pslot pcap p hpm hpc hp
          have hqne : p.id ≠ root.capsules.length := hlive_ne p.id qs qc h1 h3
          rw [← hs]
          by_cases hqp : p.id = pref.id
          · refine ⟨_, _, by rw [hlookup, if_pos hqp], ?_, rfl, ?_⟩
            · rw [hqp] at h1
              rw [hpm] at h1
              injection h1 with h1
              rw [← h1] at h2
              exact h2
            · dsimp only
              rw [hqp] at h1
              rw [hpm] at h1
              injection h1 with h1
              rw [← h1, hpc] at h3
              injection h3 with h3
              rw [← h3] at h4
              rw [count_append_single_ne]
              · exact h4
              · intro he
                exact hpne (congrArg CapsuleRef.id he)
          · exact ⟨qs, qc, by
              rw [hlookup, if_neg hqp, if_neg hqne]; exact h1, h2, h3, h4⟩
        · rw [if_neg hip] at hs
          by_cases hir : i = root.capsules.length
          · rw [if_pos hir] at hs
            subst hir
            injection hs with hs
            rw [← hs] at hcap
            injection hcap with hcap
            rw [← hcap] at hp
            dsimp only at hp
            injection hp with hp
            subst hp
            refine ⟨⟨some { pcap with children := pcap.children ++
                [⟨root.capsules.length, 0⟩] }, pslot.generation⟩,
              { pcap with children := pcap.children ++
                [⟨root.capsules.length, 0⟩] },
              by rw [hlookup, if_pos rfl], hpg, rfl, ?_⟩
            rw [← hs]
            dsimp only
            rw [count_append_single_self, List.count_eq_zero.mpr hnotmem]
          · rw [if_neg hir] at hs
            obtain ⟨qs, qc, h1, h2, h3, h4⟩ := hA i slot cap p hs hcap hp
            have hqne : p.id ≠ root.capsules.length := hlive_ne p.id qs qc h1 h3
            by_cases hqp : p.id = pref.id
            · rw [hqp] at h1
              rw [hpm] at h1
              injection h1 with h1
              refine ⟨_, _, by rw [hlookup, if_pos hqp], by rw [← h1] at h2; exact h2,
                rfl, ?_⟩
              dsimp only
              rw [← h1, hpc] at h3
              injection h3 with h3
              rw [← h3] at h4
              rw [count_append_single_ne]
              · exact h4
              · intro he
                exact hir (congrArg CapsuleRef.id he)
            · exact ⟨qs, qc, by
                rw [hlookup, if_neg hqp, if_neg hqne]; exact h1, h2, h3, h4⟩
      · refine ⟨?_, ?_, ?_⟩
        · intro i slot cap hs hcap c hc
          rw [hlookup] at hs
          by_cases hip : i = pref.id
          · rw [if_pos hip] at hs
            subst hip
            injection hs with hs
            rw [← hs] at hcap
            injection hcap with hcap
            rw [← hcap] at hc
            dsimp only at hc
            rcases List.mem_append.mp hc with hold | hnew
            · obtain ⟨cs, cc, h1, h2, h3, h4⟩ := hB pref.id pslot pcap hpm hpc c hold
              have hcne : c.id ≠ root.capsules.length := hlive_ne c.id cs cc h1 h3
              by_cases hcp : c.id = pref.id
              · rw [hcp] at h1
                rw [hpm] at h1
                injection h1 with h1
                refine ⟨_, _, by rw [hlookup, if_pos hcp], by rw [← h1] at h2; exact h2,
                  rfl, ?_⟩
                dsimp only
                rw [← h1, hpc] at h3
                injection h3 with h3
                rw [← h3] at h4
                rw [← hs]
                exact h4
              · refine ⟨cs, cc, by
                  rw [hlookup, if_neg hcp, if_neg hcne]; exact h1, h2, h3, ?_⟩
                rw [← hs]
                exact h4
            · rw [List.mem_singleton] at hnew
              subst hnew
              refine ⟨⟨some ⟨root.spaces.length, some pref, root.styles.length, data, []⟩,
                  0⟩,
                ⟨root.spaces.length, some pref, root.styles.length, data, []⟩,
                by rw [hlookup, if_neg (fun h => hpne h.symm), if_pos rfl],
                rfl, rfl, ?_⟩
              dsimp only
              rw [← hs]
              dsimp only
              rw [hpg]
          · rw [if_neg hip] at hs
            by_cases hir : i = root.capsules.length
            · rw [if_pos hir] at hs
              subst hir
              injection hs with hs
              rw [← hs] at hcap
              injection hcap with hcap
              rw [← hcap] at hc
              exact absurd hc (List.not_mem_nil c)
            · rw [if_neg hir] at hs
              obtain ⟨cs, cc, h1, h2, h3, h4⟩ := hB i slot cap hs hcap c hc
              have hcne : c.id ≠ root.capsules.length := hlive_ne c.id cs cc h1 h3
              by_cases hcp : c.id = pref.id
              · rw [hcp] at h1
                rw [hpm] at h1
                injection h1 with h1
                refine ⟨_, _, by rw [hlookup, if_pos hcp], by rw [← h1] at h2; exact h2,
                  rfl, ?_⟩
                dsimp only
                rw [← h1, hpc] at h3
                injection h3 with h3
                rw [← h3] at h4
                exact h4
              · exact ⟨cs, cc, by
                  rw [hlookup, if_neg hcp, if_neg hcne]; exact h1, h2, h3, h4⟩
        · intro id hid
          exact absurd hid (List.not_mem_nil id)
        · exact List.nodup_nil

/-- No live node's children list mentions the handle `x`. -/
def NotListed (root : Root) (x : CapsuleRef) : Prop :=
  ∀ (i : Nat) (slot : CapsuleSlot) (cap : Capsule),
    root.capsules[i]? = some slot → slot.capsule = some cap →
    x ∉ cap.children

/-- The structural invariant with the parent obligation of the single
node `x` waived (the state between detaching and re-attaching `x`). -/
def InvExcept (root : Root) (x : CapsuleRef) : Prop :=
  (∀ (i : Nat) (slot : CapsuleSlot) (cap : Capsule) (p : CapsuleRef),
    root.capsules[i]? = some slot → slot.capsule = some cap →
    (⟨i, slot.generation⟩ : CapsuleRef) ≠ x →
    cap.parent_ref = some p →
    ∃ pslot pcap, root.capsules[p.id]? = some pslot ∧
      pslot.generation = p.generation ∧ pslot.capsule = some pcap ∧
      pcap.children.count (⟨i, slot.generation⟩ : CapsuleRef) = 1) ∧
  (∀ (i : Nat) (slot : CapsuleSlot) (cap : Capsule),
    root.capsules[i]? = some slot → slot.capsule = some cap →
    ∀ c ∈ cap.children,
    ∃ cslot ccap, root.capsules[c.id]? = some cslot ∧
      cslot.generation = c.generation ∧ cslot.capsule = some ccap ∧
      ccap.parent_ref = some (⟨i, slot.generation⟩ : CapsuleRef)) ∧
  (∀ id ∈ root.capsule_free_list, ∃ slot, root.capsules[id]? = some slot ∧
    slot.capsule = none) ∧
  root.capsule_free_list.Nodup

/-- The lookup table of a successful `modifyCapsule` on a live target. -/
theorem modifyCapsule_lookup (root : Root) (p : CapsuleRef) (f : Capsule → Capsule)
    (pslot : CapsuleSlot) (pcap : Capsule)
    (hm : root.capsules[p.id]? = some pslot) (hg : pslot.generation = p.generation)
    (hc : pslot.capsule = some pcap) (i : Nat) :
    (root.modifyCapsule p f).capsules[i]? =
      if i = p.id then some ⟨some (f pcap), pslot.generation⟩
      else root.capsules[i]? := by
  unfold Root.modifyCapsule
  rw [hm]
  dsimp only
  rw [if_pos hg]
  try dsimp only
  rw [hc]
  try dsimp only
  by_cases hip : i = p.id
  · subst hip
    rw [if_pos rfl, List.getElem?_set_eq_of_lt _ (List.getElem?_eq_some.mp hm).1]
  · rw [if_neg hip, List.getElem?_set_ne (fun h => hip h.symm)]

/-- `modifyCapsule` only touches the capsule table. -/
theorem modifyCapsule_eqs (root : Root) (ref : CapsuleRef) (f : Capsule → Capsule) :
    (root.modifyCapsule ref f).capsule_free_list = root.capsule_free_list ∧
    (root.modifyCapsule ref f).spaces = root.spaces ∧
    (root.modifyCapsule ref f).styles = root.styles ∧
    (root.modifyCapsule ref f).dirties = root.dirties ∧
    (root.modifyCapsule ref f).allocator = root.allocator := by
  unfold Root.modifyCapsule
  cases root.capsules[ref.id]? with
  | none => exact ⟨rfl, rfl, rfl, rfl, rfl⟩
  | some slot =>
    dsimp only
    by_cases hg : slot.generation = ref.generation
    · rw [if_pos hg]
      cases slot.capsule with
      | none => exact ⟨rfl, rfl, rfl, rfl, rfl⟩
      | some c => exact ⟨rfl, rfl, rfl, rfl, rfl⟩
    · rw [if_neg hg]
      exact ⟨rfl, rfl, rfl, rfl, rfl⟩

/-- Two live handles over the same slot are the same handle. -/
theorem live_handle_eq (root : Root) (a b : CapsuleRef)
    (aslot bslot : CapsuleSlot)
    (ham : root.capsules[a.id]? = some aslot) (hag : aslot.generation = a.generation)
    (hbm : root.capsules[b.id]? = some bslot) (hbg : bslot.generation = b.generation)
    (hid : a.id = b.id) : a = b := by
  cases a with
  | mk aid agen =>
    cases b with
    | mk bid bgen =>
      dsimp only at hid hag hbg
      subst hid
      rw [ham] at hbm
      injection hbm with hbm
      subst hbm
      rw [hag] at hbg
      rw [hbg]

theorem count_filter_ne_self {α : Type} [DecidableEq α] (l : List α) (x : α) :
    (l.filter (fun y => y ≠ x)).count x = 0 := by
  rw [List.count_eq_zero]
  intro hmem
  have := List.of_mem_filter hmem
  simp at this

theorem count_filter_other {α : Type} [DecidableEq α] (l : List α) (x a : α)
    (h : a ≠ x) : (l.filter (fun y => y ≠ x)).count a = l.count a := by
  induction l with
  | nil => rfl
  | cons b t ih =>
    by_cases hbx : b = x
    · subst hbx
      rw [List.filter_cons_of_neg (by simp), ih, List.count_cons_of_ne h]
    · rw [List.filter_cons_of_pos (by simpa using hbx)]
      by_cases hab : a = b
      · subst hab
        rw [List.count_cons_self, List.count_cons_self, ih]
      · rw [List.count_cons_of_ne hab, List.count_cons_of_ne hab, ih]

theorem mem_filter_ne {α : Type} [DecidableEq α] (l : List α) (x a : α) :
    a ∈ l.filter (fun y => y ≠ x) ↔ a ∈ l ∧ a ≠ x := by
  rw [List.mem_filter]
  simp

/-- Detaching a live node from its parent's children list: the parent
obligation of the node itself is suspended, the handle disappears from
every children list, and every live slot keeps its generation, parent
pointer and (up to the filter) children. -/
theorem invS_detach (root : Root) (x : CapsuleRef) (xslot : CapsuleSlot)
    (xcap : Capsule) (hxm : root.capsules[x.id]? = some xslot)
    (hxg : xslot.generation = x.generation) (hxc : xslot.capsule = some xcap)
    (hinv : InvS root) (root' : Root)
    (hroot' : root' =
      (match xcap.parent_ref with
       | some opr => (root.modifyCapsule opr
           (fun c => { c with children := c.children.filter (fun y => y ≠ x) })).set_dirty opr
       | none => root)) :
    InvExcept root' x ∧ NotListed root' x ∧
    (∀ (i : Nat) (slot : CapsuleSlot) (cap : Capsule),
      root.capsules[i]? = some slot → slot.capsule = some cap →
      ∃ cap', root'.capsules[i]? = some ⟨some cap', slot.generation⟩ ∧
        cap'.parent_ref = cap.parent_ref ∧
        (cap'.children = cap.children ∨
         cap'.children = cap.children.filter (fun y => y ≠ x))) ∧
    root'.capsule_free_list = root.capsule_free_list := by
  obtain ⟨hA, hB, hC, hD⟩ := hinv
  -- `x ∈ cap.children` forces the owner to be `x`'s parent node
  have honly : ∀ (i : Nat) (slot : CapsuleSlot) (cap : Capsule),
      root.capsules[i]? = some slot → slot.capsule = some cap →
      x ∈ cap.children → xcap.parent_ref = some ⟨i, slot.generation⟩ := by
    intro i slot cap hs hcap hmem
    obtain ⟨cs, cc, h1, h2, h3, h4⟩ := hB i slot cap hs hcap x hmem
    rw [hxm] at h1
    injection h1 with h1
    rw [← h1, hxc] at h3
    injection h3 with h3
    rw [← h3] at h4
    exact h4
  cases hpar : xcap.parent_ref with
  | none =>
    rw [hpar] at hroot'
    subst hroot'
    refine ⟨⟨fun i slot cap p hs hcap _ hp => hA i slot cap p hs hcap hp, hB, hC, hD⟩,
      ?_, ?_, rfl⟩
    · intro i slot cap hs hcap hmem
      have := honly i slot cap hs hcap hmem
      rw [hpar] at this
      cases this
    · intro i slot cap hs hcap
      exact ⟨cap, by rw [hs, ← hcap], rfl, Or.inl rfl⟩
  | some opr =>
    rw [hpar] at hroot'
    -- the old parent is live
    obtain ⟨oslot, ocap, hom, hog, hoc, hocount⟩ :=
      hA x.id xslot xcap opr hxm hxc hpar
    rw [hxg] at hocount
    have hlk := modifyCapsule_lookup root opr
      (fun c => { c with children := c.children.filter (fun y => y ≠ x) })
      oslot ocap hom hog hoc
    have hcaps : root'.capsules = (root.modifyCapsule opr
        (fun c => { c with children := c.children.filter (fun y => y ≠ x) })).capsules := by
      rw [hroot']
      exact (set_dirty_eqs _ _).1
    have hfree : root'.capsule_free_list = root.capsule_free_list := by
      rw [hroot']
      rw [(set_dirty_eqs _ _).2.2.2.2]
      exact (modifyCapsule_eqs _ _ _).1
    have hlk' : ∀ i : Nat, root'.capsules[i]? =
        if i = opr.id then
          some ⟨some { ocap with children := ocap.children.filter (fun y => y ≠ x) },
            oslot.generation⟩
        else root.capsules[i]? := by
      intro i
      rw [hcaps]
      exact hlk i
    -- liveness-preservation map
    have hpres : ∀ (i : Nat) (slot : CapsuleSlot) (cap : Capsule),
        root.capsules[i]? = some slot → slot.capsule = some cap →
        ∃ cap', root'.capsules[i]? = some ⟨some cap', slot.generation⟩ ∧
          cap'.parent_ref = cap.parent_ref ∧
          (cap'.children = cap.children ∨
           cap'.children = cap.children.filter (fun y => y ≠ x)) := by
      intro i slot cap hs hcap
      rw [hlk' i]
      by_cases hio : i = opr.id
      · subst hio
        rw [hom] at hs
        injection hs with hs
        subst hs
        rw [hoc] at hcap
        injection hcap with hcap
        subst hcap
        rw [if_pos rfl]
        exact ⟨_, rfl, rfl, Or.inr rfl⟩
      · rw [if_neg hio]
        exact ⟨cap, by rw [hs, ← hcap], rfl, Or.inl rfl⟩
    refine ⟨⟨?_, ?_, ?_, ?_⟩, ?_, hpres, hfree⟩
    · -- (A) for every node other than x
      intro i slot cap p hs hcap hne hp
      rw [hlk' i] at hs
      by_cases hio : i = opr.id
      · rw [if_pos hio] at hs
        subst hio
        injection hs with hs
        rw [← hs] at hcap
        injection hcap with hcap
        rw [← hcap] at hp
        dsimp only at hp
        obtain ⟨qs, qc, h1, h2, h3, h4⟩ := hA opr.id oslot ocap p hom hoc hp
        rw [← hs] at hne
        dsimp only at hne
        rw [← hs]
        dsimp only
        by_cases hqo : p.id = opr.id
        · refine ⟨_, _, by rw [hlk' p.id, if_pos hqo], ?_, rfl, ?_⟩
          · rw [hqo] at h1
            rw [hom] at h1
            injection h1 with h1
            rw [← h1] at h2
            exact h2
          · dsimp only
            rw [hqo] at h1
            rw [hom] at h1
            injection h1 with h1
            rw [← h1, hoc] at h3
            injection h3 with h3
            rw [← h3] at h4
            rw [count_filter_other _ _ _ hne]
            exact h4
        · exact ⟨qs, qc, by rw [hlk' p.id, if_neg hqo]; exact h1, h2, h3, h4⟩
      · rw [if_neg hio] at hs
        obtain ⟨qs, qc, h1, h2, h3, h4⟩ := hA i slot cap p hs hcap hp
        by_cases hqo : p.id = opr.id
        · rw [hqo] at h1
          rw [hom] at h1
          injection h1 with h1
          refine ⟨_, _, by rw [hlk' p.id, if_pos hqo], by rw [← h1] at h2; exact h2,
            rfl, ?_⟩
          dsimp only
          rw [← h1, hoc] at h3
          injection h3 with h3
          rw [← h3] at h4
          rw [count_filter_other _ _ _ hne]
          exact h4
        · exact ⟨qs, qc, by rw [hlk' p.id, if_neg hqo]; exact h1, h2, h3, h4⟩
    · -- (B)
      intro i slot cap hs hcap c hc
      rw [hlk' i] at hs
      by_cases hio : i = opr.id
      · rw [if_pos hio] at hs
        subst hio
        injection hs with hs
        rw [← hs] at hcap
        injection hcap with hcap
        rw [← hcap] at hc
        dsimp only at hc
        obtain ⟨hcold, hcne⟩ := (mem_filter_ne _ _ _).mp hc
        obtain ⟨cs, cc, h1, h2, h3, h4⟩ := hB opr.id oslot ocap hom hoc c hcold
        by_cases hco : c.id = opr.id
        · refine ⟨_, _, by rw [hlk' c.id, if_pos hco], ?_, rfl, ?_⟩
          · rw [hco] at h1
            rw [hom] at h1
            injection h1 with h1
            rw [← h1] at h2
            exact h2
          · dsimp only
            rw [hco] at h1
            rw [hom] at h1
            injection h1 with h1
            rw [← h1, hoc] at h3
            injection h3 with h3
            rw [← h3] at h4
            rw [← hs]
            exact h4
        · refine ⟨cs, cc, by rw [hlk' c.id, if_neg hco]; exact h1, h2, h3, ?_⟩
          rw [← hs]
          exact h4
      · rw [if_neg hio] at hs
        obtain ⟨cs, cc, h1, h2, h3, h4⟩ := hB i slot cap hs hcap c hc
        by_cases hco : c.id = opr.id
        · rw [hco] at h1
          rw [hom] at h1
          injection h1 with h1
          refine ⟨_, _, by rw [hlk' c.id, if_pos hco], by rw [← h1] at h2; exact h2,
            rfl, ?_⟩
          dsimp only
          rw [← h1, hoc] at h3
          injection h3 with h3
          rw [← h3] at h4
          exact h4
        · exact ⟨cs, cc, by rw [hlk' c.id, if_neg hco]; exact h1, h2, h3, h4⟩
    · -- (C)
      intro id hid
      rw [hfree] at hid
      obtain ⟨slot, h1, h2⟩ := hC id hid
      by_cases hio : id = opr.id
      · rw [hio] at h1
        rw [hom] at h1
        injection h1 with h1
        rw [← h1, hoc] at h2
        cases h2
      · exact ⟨slot, by rw [hlk' id, if_neg hio]; exact h1, h2⟩
    · rw [hfree]
      exact hD
    · -- x no longer listed anywhere
      intro i slot cap hs hcap hmem
      rw [hlk' i] at hs
      by_cases hio : i = opr.id
      · rw [if_pos hio] at hs
        injection hs with hs
        rw [← hs] at hcap
        injection hcap with hcap
        rw [← hcap] at hmem
        dsimp only at hmem
        exact ((mem_filter_ne _ _ _).mp hmem).2 rfl
      · rw [if_neg hio] at hs
        have := honly i slot cap hs hcap hmem
        rw [hpar] at this
        injection this with this
        exact hio (congrArg CapsuleRef.id this).symm

/-- Attaching a detached live node `x` under a live parent `pr`:
append `x` to the parent's children and point `x`'s parent reference at
`pr`.  Restores the full invariant. -/
theorem invS_attach (root : Root) (x pr : CapsuleRef)
    (xslot : CapsuleSlot) (xcap : Capsule) (pslot : CapsuleSlot) (pcap : Capsule)
    (hxm : root.capsules[x.id]? = some xslot) (hxg : xslot.generation = x.generation)
    (hxc : xslot.capsule = some xcap)
    (hpm : root.capsules[pr.id]? = some pslot) (hpg : pslot.generation = pr.generation)
    (hpc : pslot.capsule = some pcap)
    (hex : InvExcept root x) (hnl : NotListed root x) :
    InvS ((root.modifyCapsule pr
        (fun c => { c with children := c.children ++ [x] })).modifyCapsule x
        (fun c => { c with parent_ref := some pr })) := by
  obtain ⟨hA, hB, hC, hD⟩ := hex
  have hxeta : (⟨x.id, xslot.generation⟩ : CapsuleRef) = x := by
    cases x
    dsimp only at hxg ⊢
    rw [hxg]
  have hpeta : (⟨pr.id, pslot.generation⟩ : CapsuleRef) = pr := by
    cases pr
    dsimp only at hpg ⊢
    rw [hpg]
  have hL2 := modifyCapsule_lookup root pr
    (fun c => { c with children := c.children ++ [x] }) pslot pcap hpm hpg hpc
  by_cases hxp : x = pr
  · -- self-attachment: one slot receives both updates
    subst hxp
    rw [hpm] at hxm
    injection hxm with hxm
    subst hxm
    rw [hpc] at hxc
    injection hxc with hxc
    subst hxc
    have hL2x : (root.modifyCapsule x
        (fun c => { c with children := c.children ++ [x] })).capsules[x.id]? =
        some ⟨some { pcap with children := pcap.children ++ [x] }, pslot.generation⟩ := by
      rw [hL2 x.id, if_pos rfl]
    have hL3 := modifyCapsule_lookup (root.modifyCapsule x
        (fun c => { c with children := c.children ++ [x] })) x
      (fun c => { c with parent_ref := some x })
      ⟨some { pcap with children := pcap.children ++ [x] }, pslot.generation⟩
      { pcap with children := pcap.children ++ [x] } hL2x hxg rfl
    have hL : ∀ i : Nat, ((root.modifyCapsule x
        (fun c => { c with children := c.children ++ [x] })).modifyCapsule x
        (fun c => { c with parent_ref := some x })).capsules[i]? =
        if i = x.id then
          some ⟨some { pcap with
            children := pcap.children ++ [x],
            parent_ref := some x }, pslot.generation⟩
        else root.capsules[i]? := by
      intro i
      rw [hL3 i]
      by_cases hix : i = x.id
      · rw [if_pos hix, if_pos hix]
      · rw [if_neg hix, if_neg hix, hL2 i, if_neg hix]
    refine ⟨?_, ?_, ?_, ?_⟩
    · intro i slot cap p hs hcap hp
      rw [hL i] at hs
      by_cases hix : i = x.id
      · rw [if_pos hix] at hs
        subst hix
        injection hs with hs
        rw [← hs] at hcap
        injection hcap with hcap
        rw [← hcap] at hp
        dsimp only at hp
        injection hp with hp
        subst hp
        refine ⟨⟨some { pcap with
            children := pcap.children ++ [x],
            parent_ref := some x }, pslot.generation⟩,
          { pcap with
            children := pcap.children ++ [x],
            parent_ref := some x },
          by rw [hL x.id, if_pos rfl], hxg, rfl, ?_⟩
        rw [← hs]
        dsimp only
        rw [hxeta, count_append_single_self,
          List.count_eq_zero.mpr (hnl x.id pslot pcap hpm hpc)]
      · rw [if_neg hix] at hs
        have hne : (⟨i, slot.generation⟩ : CapsuleRef) ≠ x := by
          intro he
          exact hix (congrArg CapsuleRef.id he)
        obtain ⟨qs, qc, h1, h2, h3, h4⟩ := hA i slot cap p hs hcap hne hp
        by_cases hqx : p.id = x.id
        · rw [hqx] at h1
          rw [hpm] at h1
          injection h1 with h1
          refine ⟨_, _, by rw [hL p.id, if_pos hqx], by rw [← h1] at h2; exact h2,
            rfl, ?_⟩
          dsimp only
          rw [show qc = pcap from by
            rw [← h1, hpc] at h3; injection h3 with h3; exact h3.symm] at h4
          rw [count_append_single_ne _ _ _ hne]
          exact h4
        · exact ⟨qs, qc, by rw [hL p.id, if_neg hqx]; exact h1, h2, h3, h4⟩
    · intro i slot cap hs hcap c hc
      rw [hL i] at hs
      by_cases hix : i = x.id
      · rw [if_pos hix] at hs
        subst hix
        injection hs with hs
        rw [← hs] at hcap
        injection hcap with hcap
        rw [← hcap] at hc
        dsimp only at hc
        rcases List.mem_append.mp hc with hold | hnew
        · obtain ⟨cs, cc, h1, h2, h3, h4⟩ := hB x.id pslot pcap hpm hpc c hold
          by_cases hcx : c.id = x.id
          · exfalso
            rw [hcx] at h1
            rw [hpm] at h1
            injection h1 with h1
            subst h1
            have : c = x := by
              cases c
              cases x
              dsimp only at hcx h2 ⊢
              rw [hcx, ← h2, hxg]
            exact hnl x.id pslot pcap hpm hpc (this ▸ hold)
          · refine ⟨cs, cc, by rw [hL c.id, if_neg hcx]; exact h1, h2, h3, ?_⟩
            rw [← hs]
            exact h4
        · rw [List.mem_singleton] at hnew
          subst hnew
          refine ⟨⟨some { pcap with
              children := pcap.children ++ [c],
              parent_ref := some c }, pslot.generation⟩,
            { pcap with
              children := pcap.children ++ [c],
              parent_ref := some c },
            by rw [hL c.id, if_pos rfl], hxg, rfl, ?_⟩
          dsimp only
          rw [← hs]
          dsimp only
          rw [hxeta]
      · rw [if_neg hix] at hs
        obtain ⟨cs, cc, h1, h2, h3, h4⟩ := hB i slot cap hs hcap c hc
        by_cases hcx : c.id = x.id
        · exfalso
          rw [hcx] at h1
          rw [hpm] at h1
          injection h1 with h1
          have : c = x := by
            cases c
            cases x
            dsimp only at hcx h2 ⊢
            rw [hcx, ← h2, ← h1, hxg]
          exact hnl i slot cap hs hcap (this ▸ hc)
        · exact ⟨cs, cc, by rw [hL c.id, if_neg hcx]; exact h1, h2, h3, h4⟩
    · intro id hid
      rw [(modifyCapsule_eqs _ _ _).1, (modifyCapsule_eqs _ _ _).1] at hid
      obtain ⟨slot, h1, h2⟩ := hC id hid
      by_cases hix : id = x.id
      · exfalso
        rw [hix] at h1
        rw [hpm] at h1
        injection h1 with h1
        rw [← h1, hpc] at h2
        cases h2
      · exact ⟨slot, by rw [hL id, if_neg hix]; exact h1, h2⟩
    · rw [(modifyCapsule_eqs _ _ _).1, (modifyCapsule_eqs _ _ _).1]
      exact hD
  · -- distinct node and parent
    have hid_ne : x.id ≠ pr.id := by
      intro h
      exact hxp (live_handle_eq root x pr xslot pslot hxm hxg hpm hpg h)
    have hL2x : (root.modifyCapsule pr
        (fun c => { c with children := c.children ++ [x] })).capsules[x.id]? =
        some xslot := by
      rw [hL2 x.id, if_neg hid_ne, hxm]
    have hL3 := modifyCapsule_lookup (root.modifyCapsule pr
        (fun c => { c with children := c.children ++ [x] })) x
      (fun c => { c with parent_ref := some pr }) xslot xcap hL2x hxg hxc
    have hL : ∀ i : Nat, ((root.modifyCapsule pr
        (fun c => { c with children := c.children ++ [x] })).modifyCapsule x
        (fun c => { c with parent_ref := some pr })).capsules[i]? =
        if i = x.id then
          some ⟨some { xcap with parent_ref := some pr }, xslot.generation⟩
        else if i = pr.id then
          some ⟨some { pcap with children := pcap.children ++ [x] }, pslot.generation⟩
        else root.capsules[i]? := by
      intro i
      rw [hL3 i]
      by_cases hix : i = x.id
      · rw [if_pos hix, if_pos hix]
      · rw [if_neg hix, if_neg hix, hL2 i]
    refine ⟨?_, ?_, ?_, ?_⟩
    · intro i slot cap p hs hcap hp
      rw [hL i] at hs
      by_cases hix : i = x.id
      · rw [if_pos hix] at hs
        subst hix
        injection hs with hs
        rw [← hs] at hcap
        injection hcap with hcap
        rw [← hcap] at hp
        dsimp only at hp
        injection hp with hp
        subst hp
        refine ⟨⟨some { pcap with children := pcap.children ++ [x] },
            pslot.generation⟩,
          { pcap with children := pcap.children ++ [x] },
          by rw [hL pr.id, if_neg (fun h => hid_ne h.symm), if_pos rfl],
          hpg, rfl, ?_⟩
        rw [← hs]
        dsimp only
        rw [hxeta, count_append_single_self,
          List.count_eq_zero.mpr (hnl pr.id pslot pcap hpm hpc)]
      · rw [if_neg hix] at hs
        have hne : (⟨i, slot.generation⟩ : CapsuleRef) ≠ x := by
          intro he
          exact hix (congrArg CapsuleRef.id he)
        by_cases hip : i = pr.id
        · rw [if_pos hip] at hs
          subst hip
          injection hs with hs
          rw [← hs] at hcap
          injection hcap with hcap
          rw [← hcap] at hp
          dsimp only at hp
          have hne' : (⟨pr.id, pslot.generation⟩ : CapsuleRef) ≠ x := by
            rw [hpeta]
            exact fun h => hxp h.symm
          obtain ⟨qs, qc, h1, h2, h3, h4⟩ := hA pr.id pslot pcap p hpm hpc hne' hp
          rw [← hs]
          dsimp only
          by_cases hqx : p.id = x.id
          · rw [hqx] at h1
            rw [hxm] at h1
            injection h1 with h1
            refine ⟨_, _, by rw [hL p.id, if_pos hqx], by rw [← h1] at h2; exact h2,
              rfl, ?_⟩
            dsimp only
            rw [show qc = xcap from by
              rw [← h1, hxc] at h3; injection h3 with h3; exact h3.symm] at h4
            exact h4
          · by_cases hqp : p.id = pr.id
            · rw [hqp] at h1
              rw [hpm] at h1
              injection h1 with h1
              refine ⟨_, _, by rw [hL p.id, if_neg hqx, if_pos hqp],
                by rw [← h1] at h2; exact h2, rfl, ?_⟩
              dsimp only
              rw [show qc = pcap from by
                rw [← h1, hpc] at h3; injection h3 with h3; exact h3.symm] at h4
              rw [count_append_single_ne _ _ _ hne']
              exact h4
            · exact ⟨qs, qc, by rw [hL p.id, if_neg hqx, if_neg hqp]; exact h1,
                h2, h3, h4⟩
        · rw [if_neg hip] at hs
          obtain ⟨qs, qc, h1, h2, h3, h4⟩ := hA i slot cap p hs hcap hne hp
          by_cases hqx : p.id = x.id
          · rw [hqx] at h1
            rw [hxm] at h1
            injection h1 with h1
            refine ⟨_, _, by rw [hL p.id, if_pos hqx], by rw [← h1] at h2; exact h2,
              rfl, ?_⟩
            dsimp only
            rw [show qc = xcap from by
              rw [← h1, hxc] at h3; injection h3 with h3; exact h3.symm] at h4
            exact h4
          · by_cases hqp : p.id = pr.id
            · rw [hqp] at h1
              rw [hpm] at h1
              injection h1 with h1
              refine ⟨_, _, by rw [hL p.id, if_neg hqx, if_pos hqp],
                by rw [← h1] at h2; exact h2, rfl, ?_⟩
              dsimp only
              rw [show qc = pcap from by
                rw [← h1, hpc] at h3; injection h3 with h3; exact h3.symm] at h4
              rw [count_append_single_ne _ _ _ hne]
              exact h4
            · exact ⟨qs, qc, by rw [hL p.id, if_neg hqx, if_neg hqp]; exact h1,
                h2, h3, h4⟩
    · intro i slot cap hs hcap c hc
      rw [hL i] at hs
      have hmain : ∀ (islot : CapsuleSlot) (icap : Capsule),
          root.capsules[i]? = some islot → islot.capsule = some icap →
          c ∈ icap.children →
          ∃ cslot ccap, ((root.modifyCapsule pr
            (fun c => { c with children := c.children ++ [x] })).modifyCapsule x
            (fun c => { c with parent_ref := some pr })).capsules[c.id]? = some cslot ∧
            cslot.generation = c.generation ∧ cslot.capsule = some ccap ∧
            ccap.parent_ref = some (⟨i, islot.generation⟩ : CapsuleRef) := by
        intro islot icap his hicap hcmem
        obtain ⟨cs, cc, h1, h2, h3, h4⟩ := hB i islot icap his hicap c hcmem
        by_cases hcx : c.id = x.id
        · exfalso
          rw [hcx] at h1
          rw [hxm] at h1
          injection h1 with h1
          have : c = x := by
            cases c
            cases x
            dsimp only at hcx h2 ⊢
            rw [hcx, ← h2, ← h1, hxg]
          exact hnl i islot icap his hicap (this ▸ hcmem)
        · by_cases hcp : c.id = pr.id
          · rw [hcp] at h1
            rw [hpm] at h1
            injection h1 with h1
            refine ⟨_, _, by rw [hL c.id, if_neg hcx, if_pos hcp],
              by rw [← h1] at h2; exact h2, rfl, ?_⟩
            dsimp only
            rw [show cc = pcap from by
              rw [← h1, hpc] at h3; injection h3 with h3; exact h3.symm] at h4
            exact h4
          · exact ⟨cs, cc, by rw [hL c.id, if_neg hcx, if_neg hcp]; exact h1,
              h2, h3, h4⟩
      by_cases hix : i = x.id
      · rw [if_pos hix] at hs
        subst hix
        injection hs with hs
        rw [← hs] at hcap
        injection hcap with hcap
        rw [← hcap] at hc
        dsimp only at hc
        have := hmain xslot xcap hxm hxc hc
        rw [← hs]
        exact this
      · rw [if_neg hix] at hs
        by_cases hip : i = pr.id
        · rw [if_pos hip] at hs
          subst hip
          injection hs with hs
          rw [← hs] at hcap
          injection hcap with hcap
          rw [← hcap] at hc
          dsimp only at hc
          rcases List.mem_append.mp hc with hold | hnew
          · have := hmain pslot pcap hpm hpc hold
            rw [← hs]
            exact this
          · rw [List.mem_singleton] at hnew
            subst hnew
            refine ⟨⟨some { xcap with parent_ref := some pr }, xslot.generation⟩,
              { xcap with parent_ref := some pr },
              by rw [hL c.id, if_pos rfl], hxg, rfl, ?_⟩
            dsimp only
            rw [← hs]
            dsimp only
            rw [hpeta]
        · rw [if_neg hip] at hs
          exact hmain slot cap hs hcap hc
    · intro id hid
      rw [(modifyCapsule_eqs _ _ _).1, (modifyCapsule_eqs _ _ _).1] at hid
      obtain ⟨slot, h1, h2⟩ := hC id hid
      have hdx : id ≠ x.id := by
        intro h
        rw [h, hxm] at h1
        injection h1 with h1
        rw [← h1, hxc] at h2
        cases h2
      have hdp : id ≠ pr.id := by
        intro h
        rw [h, hpm] at h1
        injection h1 with h1
        rw [← h1, hpc] at h2
        cases h2
      exact ⟨slot, by rw [hL id, if_neg hdx, if_neg hdp]; exact h1, h2⟩
    · rw [(modifyCapsule_eqs _ _ _).1, (modifyCapsule_eqs _ _ _).1]
      exact hD

/-- A capsule mutation that touches neither `parent_ref` nor `children`
preserves the structural invariant. -/
theorem invS_modify_pc (root : Root) (p : CapsuleRef) (f : Capsule → Capsule)
    (hf : ∀ c, (f c).parent_ref = c.parent_ref ∧ (f c).children = c.children)
    (hinv : InvS root) : InvS (root.modifyCapsule p f) := by
  obtain ⟨hA, hB, hC, hD⟩ := hinv
  unfold Root.modifyCapsule
  cases hm : root.capsules[p.id]? with
  | none => exact ⟨hA, hB, hC, hD⟩
  | some pslot =>
    dsimp only
    by_cases hg : pslot.generation = p.generation
    · rw [if_pos hg]
      cases hc : pslot.capsule with
      | none => exact ⟨hA, hB, hC, hD⟩
      | some pcap =>
        dsimp only
        have hlt : p.id < root.capsules.length := (List.getElem?_eq_some.mp hm).1
        have hL : ∀ i : Nat,
            (root.capsules.set p.id ⟨some (f pcap), pslot.generation⟩)[i]? =
            if i = p.id then some ⟨some (f pcap), pslot.generation⟩
            else root.capsules[i]? := by
          intro i
          by_cases hip : i = p.id
          · subst hip
            rw [if_pos rfl, List.getElem?_set_eq_of_lt _ hlt]
          · rw [if_neg hip, List.getElem?_set_ne (fun h => hip h.symm)]
        refine ⟨?_, ?_, ?_, hD⟩
        · intro i slot cap q hs hcap hp
          show ∃ _ _, (root.capsules.set p.id _)[q.id]? = _ ∧ _
          rw [hL i] at hs
          by_cases hip : i = p.id
          · rw [if_pos hip] at hs
            subst hip
            injection hs with hs
            rw [← hs] at hcap
            injection hcap with hcap
            rw [← hcap, (hf pcap).1] at hp
            obtain ⟨qs, qc, h1, h2, h3, h4⟩ := hA p.id pslot pcap q hm hc hp
            by_cases hqp : q.id = p.id
            · rw [hqp] at h1
              rw [hm] at h1
              injection h1 with h1
              refine ⟨_, _, by rw [hL q.id, if_pos hqp], by rw [← h1] at h2; exact h2,
                rfl, ?_⟩
              rw [show qc = pcap from by
                rw [← h1, hc] at h3; injection h3 with h3; exact h3.symm] at h4
              rw [(hf pcap).2]
              rw [← hs]
              exact h4
            · refine ⟨qs, qc, by rw [hL q.id, if_neg hqp]; exact h1, h2, h3, ?_⟩
              rw [← hs]
              exact h4
          · rw [if_neg hip] at hs
            obtain ⟨qs, qc, h1, h2, h3, h4⟩ := hA i slot cap q hs hcap hp
            by_cases hqp : q.id = p.id
            · rw [hqp] at h1
              rw [hm] at h1
              injection h1 with h1
              refine ⟨_, _, by rw [hL q.id, if_pos hqp], by rw [← h1] at h2; exact h2,
                rfl, ?_⟩
              rw [show qc = pcap from by
                rw [← h1, hc] at h3; injection h3 with h3; exact h3.symm] at h4
              rw [(hf pcap).2]
              exact h4
            · exact ⟨qs, qc, by rw [hL q.id, if_neg hqp]; exact h1, h2, h3, h4⟩
        · intro i slot cap hs hcap c hcmem
          show ∃ _ _, (root.capsules.set p.id _)[c.id]? = _ ∧ _
          rw [hL i] at hs
          have hixcase : ∀ (islot : CapsuleSlot) (icap : Capsule),
              root.capsules[i]? = some islot → islot.capsule = some icap →
              c ∈ icap.children →
              ∃ cslot ccap,
                (root.capsules.set p.id ⟨some (f pcap), pslot.generation⟩)[c.id]? =
                  some cslot ∧
                cslot.generation = c.generation ∧ cslot.capsule = some ccap ∧
                ccap.parent_ref = some (⟨i, islot.generation⟩ : CapsuleRef) := by
            intro islot icap his hicap hcm
            obtain ⟨cs, cc, h1, h2, h3, h4⟩ := hB i islot icap his hicap c hcm
            by_cases hcp : c.id = p.id
            · rw [hcp] at h1
              rw [hm] at h1
              injection h1 with h1
              refine ⟨_, _, by rw [hL c.id, if_pos hcp], by rw [← h1] at h2; exact h2,
                rfl, ?_⟩
              rw [show cc = pcap from by
                rw [← h1, hc] at h3; injection h3 with h3; exact h3.symm] at h4
              rw [(hf pcap).1]
              exact h4
            · exact ⟨cs, cc, by rw [hL c.id, if_neg hcp]; exact h1, h2, h3, h4⟩
          by_cases hip : i = p.id
          · rw [if_pos hip] at hs
            subst hip
            injection hs with hs
            rw [← hs] at hcap
            injection hcap with hcap
            rw [← hcap, (hf pcap).2] at hcmem
            have := hixcase pslot pcap hm hc hcmem
            rw [← hs]
            exact this
          · rw [if_neg hip] at hs
            exact hixcase slot cap hs hcap hcmem
        · intro id hid
          obtain ⟨slot, h1, h2⟩ := hC id hid
          have hdp : id ≠ p.id := by
            intro h
            rw [h, hm] at h1
            injection h1 with h1
            rw [← h1, hc] at h2
            cases h2
          exact ⟨slot, by rw [hL id, if_neg hdp]; exact h1, h2⟩
    · rw [if_neg hg]
      exact ⟨hA, hB, hC, hD⟩

/-- `set_parent` preserves the structural invariant when both the child
and the new parent are live. -/
theorem invS_set_parent (root : Root) (cf pf : Frame) (ccap pcap : Capsule)
    (hclive : root.get_capsule cf.capsule_ref = some ccap)
    (hplive : root.get_capsule pf.capsule_ref = some pcap)
    (hinv : InvS root) : InvS (root.set_parent cf pf) := by
  obtain ⟨cslot, hcm, hcg, hcc⟩ :=
    (get_capsule_eq_some_iff root cf.capsule_ref ccap).mp hclive
  obtain ⟨pslot0, hpm0, hpg0, hpc0⟩ :=
    (get_capsule_eq_some_iff root pf.capsule_ref pcap).mp hplive
  unfold Root.set_parent
  dsimp only [Frame.get_ref]
  rw [hclive]
  dsimp only [Option.bind]
  generalize hroot1 : (match ccap.parent_ref with
    | some opr => (root.modifyCapsule opr
        (fun c => { c with children := c.children.filter (fun x => x ≠ cf.capsule_ref) })).set_dirty opr
    | none => root) = root1
  obtain ⟨hex, hnl, hpres, hfree⟩ :=
    invS_detach root cf.capsule_ref cslot ccap hcm hcg hcc hinv root1 hroot1.symm
  obtain ⟨ccap1, hcm1, _, _⟩ := hpres cf.capsule_ref.id cslot ccap hcm hcc
  obtain ⟨pcap1, hpm1, _, _⟩ := hpres pf.capsule_ref.id pslot0 pcap hpm0 hpc0
  refine invS_congr _ _ (set_dirty_eqs _ _).1 (set_dirty_eqs _ _).2.2.2.2 ?_
  exact invS_attach root1 cf.capsule_ref pf.capsule_ref
    ⟨some ccap1, cslot.generation⟩ ccap1 ⟨some pcap1, pslot0.generation⟩ pcap1
    hcm1 hcg rfl hpm1 hpg0 rfl hex hnl

theorem foldl_set_dirty_caps (l : List CapsuleRef) :
    ∀ r : Root, (l.foldl (fun r ref => r.set_dirty ref) r).capsules = r.capsules ∧
      (l.foldl (fun r ref => r.set_dirty ref) r).capsule_free_list =
        r.capsule_free_list := by
  induction l with
  | nil => intro r; exact ⟨rfl, rfl⟩
  | cons a t ih =>
    intro r
    have h1 := set_dirty_eqs r a
    have h2 := ih (r.set_dirty a)
    exact ⟨h2.1.trans h1.1, h2.2.trans h1.2.2.2.2⟩

/-- `remove_frame` preserves the structural invariant for stale handles
(no-op) and live leaves. -/
theorem invS_remove_leaf (fuel : Nat) (root out : Root) (n : CapsuleRef)
    (hrm : root.remove_frame fuel n = some out)
    (hok : root.get_capsule n = none ∨
      ∃ cap, root.get_capsule n = some cap ∧ cap.children = [])
    (hinv : InvS root) : InvS out := by
  cases fuel with
  | zero => exact absurd hrm (by simp [Root.remove_frame])
  | succ f =>
    rw [Root.remove_frame] at hrm
    rcases hok with hstale | ⟨ccap, hlive, hleaf⟩
    · rw [hstale] at hrm
      simp only [Option.some.injEq] at hrm
      subst hrm
      exact hinv
    · rw [hlive] at hrm
      dsimp only at hrm
      obtain ⟨cslot, hcm, hcg, hcc⟩ := (get_capsule_eq_some_iff root n ccap).mp hlive
      -- step 1: unbind the data slot
      have hub : InvS (root.unbind_data n).1 ∧
          (root.unbind_data n).1.capsules[n.id]? =
            some ⟨some { ccap with data_ref := none }, cslot.generation⟩ ∨
          InvS (root.unbind_data n).1 ∧
          (root.unbind_data n).1.capsules[n.id]? = some ⟨some ccap, cslot.generation⟩ := by
        unfold Root.unbind_data
        rw [hlive]
        dsimp only
        cases hd : ccap.data_ref with
        | none =>
          right
          dsimp only
          refine ⟨hinv, ?_⟩
          rw [hcm]
          congr 1
          cases cslot
          dsimp only at hcc ⊢
          rw [hcc]
        | some dr =>
          left
          dsimp only
          constructor
          · refine invS_congr _ _ rfl rfl ?_
            exact invS_modify_pc root n (fun c => { c with data_ref := none })
              (fun c => ⟨rfl, rfl⟩) hinv
          · show (root.modifyCapsule n _).capsules[n.id]? = _
            rw [modifyCapsule_lookup root n _ cslot ccap hcm hcg hcc, if_pos rfl]
      -- uniform handling of the two unbind outcomes
      obtain ⟨ccapU, hinvU, hmU, hpcU, hchU⟩ :
          ∃ ccapU, InvS (root.unbind_data n).1 ∧
            (root.unbind_data n).1.capsules[n.id]? =
              some ⟨some ccapU, cslot.generation⟩ ∧
            ccapU.parent_ref = ccap.parent_ref ∧ ccapU.children = ccap.children := by
        rcases hub with ⟨h1, h2⟩ | ⟨h1, h2⟩
        · exact ⟨{ ccap with data_ref := none }, h1, h2, rfl, rfl⟩
        · exact ⟨ccap, h1, h2, rfl, rfl⟩
      have hfreeU : (root.unbind_data n).1.capsule_free_list =
          root.capsule_free_list := by
        unfold Root.unbind_data
        rw [hlive]
        dsimp only
        cases hd : ccap.data_ref with
        | none => rfl
        | some dr =>
          dsimp only
          exact (modifyCapsule_eqs _ _ _).1
      rw [hleaf] at hrm
      simp only [forChildren] at hrm
      -- step 2: detach from the (live) parent
      generalize hroot2 : (match ccap.parent_ref with
        | some opr => ((root.unbind_data n).1.modifyCapsule opr
            (fun c => { c with children := c.children.filter (fun x => x ≠ n) })).set_dirty opr
        | none => (root.unbind_data n).1) = root2
      obtain ⟨hex2, hnl2, hpres2, hfree2⟩ :=
        invS_detach (root.unbind_data n).1 n ⟨some ccapU, cslot.generation⟩ ccapU
          hmU hcg rfl hinvU root2 (by rw [← hroot2, hpcU])
      -- the term in `hrm` is the same state
      have hrm2 : (match root2.capsules[n.id]? with
          | some slot =>
            { root2 with
                spaces := root2.spaces.set ccap.space_ref none
                styles := root2.styles.set ccap.style_ref none
                dirties := root2.dirties.erase n
                capsules := root2.capsules.set n.id
                  ⟨none, (slot.generation + 1) % 2 ^ 32⟩
                capsule_free_list := root2.capsule_free_list ++ [n.id] } = out
          | none =>
            { root2 with
                spaces := root2.spaces.set ccap.space_ref none
                styles := root2.styles.set ccap.style_ref none
                dirties := root2.dirties.erase n } = out) := by
        cases hpar : ccap.parent_ref with
        | none =>
          rw [hpar] at hrm
          dsimp only at hrm
          have : root2 = (root.unbind_data n).1 := by rw [← hroot2, hpar]
          subst this
          cases hsl : (root.unbind_data n).1.capsules[n.id]? with
          | none => rw [hsl] at hrm; simpa using hrm
          | some slot => rw [hsl] at hrm; simpa using hrm
        | some opr =>
          rw [hpar] at hrm
          dsimp only at hrm
          -- the parent is live, so the guard succeeds
          obtain ⟨hA2, _, _, _⟩ := hinvU
          obtain ⟨qs, qc, hq1, hq2, hq3, _⟩ := hA2 n.id ⟨some ccapU, cslot.generation⟩
            ccapU opr hmU rfl (by rw [hpcU]; exact hpar)
          have hgc : (root.unbind_data n).1.get_capsule opr = some qc :=
            (get_capsule_eq_some_iff _ opr qc).mpr ⟨qs, hq1, hq2, hq3⟩
          rw [hgc] at hrm
          dsimp only at hrm
          have : ((root.unbind_data n).1.modifyCapsule opr
              (fun c => { c with children := c.children.filter (fun x => x ≠ n) })).set_dirty opr = root2 := by
            rw [← hroot2, hpar]
          rw [this] at hrm
          cases hsl : root2.capsules[n.id]? with
          | none => rw [hsl] at hrm; simpa using hrm
          | some slot => rw [hsl] at hrm; simpa using hrm
      clear hrm
      -- n is still live in root2, and still a leaf
      obtain ⟨capF, hmF, hpF, hchF⟩ :=
        hpres2 n.id ⟨some ccapU, cslot.generation⟩ ccapU hmU rfl
      have hchFnil : capF.children = [] := by
        rcases hchF with h | h <;> rw [h, hchU, hleaf] <;> rfl
      rw [hmF] at hrm2
      rw [← hrm2]
      obtain ⟨hA2, hB2, hC2, hD2⟩ := hex2
      have hlt2 : n.id < root2.capsules.length := (List.getElem?_eq_some.mp hmF).1
      have hL : ∀ i : Nat, (root2.capsules.set n.id
          ⟨none, (cslot.generation + 1) % 2 ^ 32⟩)[i]? =
          if i = n.id then some ⟨none, (cslot.generation + 1) % 2 ^ 32⟩
          else root2.capsules[i]? := by
        intro i
        by_cases hix : i = n.id
        · subst hix
          rw [if_pos rfl, List.getElem?_set_eq_of_lt _ hlt2]
        · rw [if_neg hix, List.getElem?_set_ne (fun h => hix h.symm)]
      refine ⟨?_, ?_, ?_, ?_⟩
      · intro i slot cap p hs hcap hp
        show ∃ _ _, (root2.capsules.set n.id _)[p.id]? = _ ∧ _
        rw [hL i] at hs
        by_cases hix : i = n.id
        · rw [if_pos hix] at hs
          injection hs with hs
          rw [← hs] at hcap
          cases hcap
        · rw [if_neg hix] at hs
          have hne : (⟨i, slot.generation⟩ : CapsuleRef) ≠ n := by
            intro he
            exact hix (congrArg CapsuleRef.id he)
          obtain ⟨qs, qc, h1, h2, h3, h4⟩ := hA2 i slot cap p hs hcap hne hp
          have hqn : p.id ≠ n.id := by
            intro h
            rw [h, hmF] at h1
            injection h1 with h1
            rw [← h1] at h3
            dsimp only at h3
            injection h3 with h3
            rw [← h3] at h4
            rw [hchFnil] at h4
            cases h4
          exact ⟨qs, qc, by rw [hL p.id, if_neg hqn]; exact h1, h2, h3, h4⟩
      · intro i slot cap hs hcap c hc
        show ∃ _ _, (root2.capsules.set n.id _)[c.id]? = _ ∧ _
        rw [hL i] at hs
        by_cases hix : i = n.id
        · rw [if_pos hix] at hs
          injection hs with hs
          rw [← hs] at hcap
          cases hcap
        · rw [if_neg hix] at hs
          obtain ⟨cs, cc, h1, h2, h3, h4⟩ := hB2 i slot cap hs hcap c hc
          have hcn : c.id ≠ n.id := by
            intro h
            rw [h, hmF] at h1
            injection h1 with h1
            have : c = n := by
              cases c
              cases n
              dsimp only at h h2 hcg ⊢
              rw [h]
              rw [← h1] at h2
              dsimp only at h2
              rw [← h2, hcg]
            exact hnl2 i slot cap hs hcap (this ▸ hc)
          exact ⟨cs, cc, by rw [hL c.id, if_neg hcn]; exact h1, h2, h3, h4⟩
      · intro id hid
        rcases List.mem_append.mp hid with hold | hnew
        · obtain ⟨slot, h1, h2⟩ := hC2 id hold
          have hdn : id ≠ n.id := by
            intro h
            rw [h, hmF] at h1
            injection h1 with h1
            rw [← h1] at h2
            cases h2
          exact ⟨slot, by rw [hL id, if_neg hdn]; exact h1, h2⟩
        · rw [List.mem_singleton] at hnew
          subst hnew
          exact ⟨⟨none, (cslot.generation + 1) % 2 ^ 32⟩, by rw [hL n.id, if_pos rfl], rfl⟩
      · rw [List.nodup_append]
        refine ⟨hD2, List.nodup_singleton _, ?_⟩
        intro a ha hb
        rw [List.mem_singleton] at hb
        subst hb
        obtain ⟨slot, h1, h2⟩ := hC2 n.id ha
        rw [hmF] at h1
        injection h1 with h1
        rw [← h1] at h2
        cases h2

theorem invS_update_style (root : Root) (fr : Frame) (g : Style → Style)
    (hinv : InvS root) : InvS (root.update_style fr g) := by
  unfold Root.update_style
  cases hc : root.get_capsule fr.capsule_ref with
  | none => exact hinv
  | some cap =>
    dsimp only
    cases hst : root.styles[cap.style_ref]? with
    | none => exact hinv
    | some os =>
      cases os with
      | none => exact hinv
      | some style =>
        refine invS_congr _ _ ?_ ?_ (invS_congr _ _ rfl rfl hinv)
        · exact (set_dirty_eqs _ _).1
        · exact (set_dirty_eqs _ _).2.2.2.2

theorem invS_compute (root out : Root) (h : root.compute = some out)
    (hinv : InvS root) : InvS out := by
  rcases compute_cases root out h with ⟨_, rfl⟩ | hsk
  · exact hinv
  · exact invS_congr _ _ (by rw [hsk.1]) (by rw [hsk.2.2.2.2.1]) hinv

theorem invS_resize (root out : Root) (w h : Nat)
    (hr : root.resize w h = some out) (hinv : InvS root) : InvS out := by
  unfold Root.resize at hr
  cases hsp : root.spaces with
  | nil => rw [hsp] at hr; cases hr
  | cons a rest =>
    cases a with
    | none => rw [hsp] at hr; cases hr
    | some root_space =>
      rw [hsp] at hr
      dsimp only at hr
      simp only [Option.some.injEq] at hr
      have hfold := foldl_set_dirty_caps (Root.top_level_refs
          { root with spaces := some { root_space with
            width := some w, height := some h } :: rest })
        { root with spaces := some { root_space with
            width := some w, height := some h } :: rest }
      rw [hr] at hfold
      exact invS_congr _ _ hfold.1 hfold.2 hinv

/-- C5 (amended): every public operation preserves the structural
invariant, with liveness side conditions on the handle arguments:
`add_frame_child` needs a live parent, `set_parent` a live child and a
live new parent, and `remove_frame` is covered for stale handles and
live leaves.  Passing a stale parent to `add_frame_child` instead
breaks the invariant (`parent_invariant_broken_counterexample`). -/
theorem ops_preserve_parent_invariant (root : Root) (hinv : InvS root) :
    (∀ d, InvS (root.add_frame d).1) ∧
    (∀ (fr : Frame) (d : Option Nat) (pcap : Capsule),
      root.get_capsule fr.capsule_ref = some pcap →
      InvS (root.add_frame_child fr d).1) ∧
    (∀ (cf pf : Frame) (ccap pcap : Capsule),
      root.get_capsule cf.capsule_ref = some ccap →
      root.get_capsule pf.capsule_ref = some pcap →
      InvS (root.set_parent cf pf)) ∧
    (∀ (fuel : Nat) (n : CapsuleRef) (out : Root),
      root.remove_frame fuel n = some out →
      (root.get_capsule n = none ∨
        ∃ cap, root.get_capsule n = some cap ∧ cap.children = []) →
      InvS out) ∧
    (∀ (fr : Frame) (g : Style → Style), InvS (root.update_style fr g)) ∧
    (∀ out, root.compute = some out → InvS out) ∧
    (∀ w h out, root.resize w h = some out → InvS out) := by
  refine ⟨?_, ?_, ?_, ?_, ?_, ?_, ?_⟩
  · intro d
    exact invS_internal_add root none d hinv (fun p hp => by cases hp)
  · intro fr d pcap hp
    exact invS_internal_add root (some fr.capsule_ref) d hinv
      (fun p hpe => by injection hpe with hpe; subst hpe; exact ⟨pcap, hp⟩)
  · intro cf pf ccap pcap hc hp
    exact invS_set_parent root cf pf ccap pcap hc hp hinv
  · intro fuel n out hrm hok
    exact invS_remove_leaf fuel root out n hrm hok hinv
  · intro fr g
    exact invS_update_style root fr g hinv
  · intro out hc
    exact invS_compute root out hc hinv
  · intro w h out hr
    exact invS_resize root out w h hr hinv

/-- A two-node scene (both top-level) used to witness the amended C5. -/
def c5W : Root where
  capsules := [⟨some ⟨1, none, 0, none, []⟩, 0⟩, ⟨some ⟨2, none, 1, none, []⟩, 0⟩]
  capsule_free_list := []
  spaces := [some ((Space.zero.with_width 8).with_height 8), some Space.zero,
    some Space.zero]
  styles := [some Style.default, some Style.default]
  dirties := []
  allocator := Allocator.new

theorem invS_c5W : InvS c5W := by
  refine ⟨?_, ?_, ?_, ?_⟩
  · intro i slot cap p hs hcap hp
    cases i with
    | zero =>
      simp only [c5W, List.getElem?_cons_zero, Option.some.injEq] at hs
      rw [← hs] at hcap
      injection hcap with hcap
      rw [← hcap] at hp
      cases hp
    | succ i =>
      cases i with
      | zero =>
        simp only [c5W, List.getElem?_cons_succ, List.getElem?_cons_zero,
          Option.some.injEq] at hs
        rw [← hs] at hcap
        injection hcap with hcap
        rw [← hcap] at hp
        cases hp
      | succ i =>
        simp [c5W] at hs
  · intro i slot cap hs hcap c hc
    cases i with
    | zero =>
      simp only [c5W, List.getElem?_cons_zero, Option.some.injEq] at hs
      rw [← hs] at hcap
      injection hcap with hcap
      rw [← hcap] at hc
      exact absurd hc (List.not_mem_nil c)
    | succ i =>
      cases i with
      | zero =>
        simp only [c5W, List.getElem?_cons_succ, List.getElem?_cons_zero,
          Option.some.injEq] at hs
        rw [← hs] at hcap
        injection hcap with hcap
        rw [← hcap] at hc
        exact absurd hc (List.not_mem_nil c)
      | succ i =>
        simp [c5W] at hs
  · intro id hid
    simp [c5W] at hid
  · show List.Nodup ([] : List Nat)
    exact List.nodup_nil

/-- Witness for the amended C5 at the two-node scene: all seven
operations, with live handles, keep the invariant. -/
theorem ops_preserve_parent_invariant_witness :
    InvS (c5W.add_frame none).1 ∧
    InvS (c5W.add_frame_child ⟨⟨1, 0⟩⟩ (some 7)).1 ∧
    InvS (c5W.set_parent ⟨⟨0, 0⟩⟩ ⟨⟨1, 0⟩⟩) ∧
    (∃ out, c5W.remove_frame 2 ⟨0, 0⟩ = some out ∧ InvS out) ∧
    InvS (c5W.update_style ⟨⟨0, 0⟩⟩ (fun s => { s with gap := 3 })) ∧
    (∃ out, c5W.compute = some out ∧ InvS out) ∧
    (∃ out, c5W.resize 5 6 = some out ∧ InvS out) := by
  have h := ops_preserve_parent_invariant c5W invS_c5W
  refine ⟨h.1 none,
    h.2.1 ⟨⟨1, 0⟩⟩ (some 7) ⟨2, none, 1, none, []⟩ rfl,
    h.2.2.1 ⟨⟨0, 0⟩⟩ ⟨⟨1, 0⟩⟩ ⟨1, none, 0, none, []⟩ ⟨2, none, 1, none, []⟩ rfl rfl,
    ⟨_, rfl, h.2.2.2.1 2 ⟨0, 0⟩ _ rfl
      (Or.inr ⟨⟨1, none, 0, none, []⟩, rfl, rfl⟩)⟩,
    h.2.2.2.2.1 ⟨⟨0, 0⟩⟩ (fun s => { s with gap := 3 }),
    ⟨c5W, rfl, h.2.2.2.2.2.1 c5W rfl⟩,
    ⟨_, rfl, h.2.2.2.2.2.2 5 6 _ rfl⟩⟩

end Heka
